import Mathlib

/-!
# A verification development for `SVM.go` (multiclass linear SVM)

Shallow embedding of `NewLinearSVM`, `Train`, `Predict` and `PredictBatch`, in two readings
of the same source.

The exact reading (`NewLinearSVM`, `Train`, `Predict`, ...)
* `float64` is exact rational arithmetic (`ℚ`): no rounding, no overflow.  The two IEEE
  special values the source creates itself are modelled explicitly: `math.Inf(-1)` in
  `Predict` (`Option ℚ`, `none` being minus infinity) and `math.Inf(1)` / the `0.0/0` of an
  empty training set in `Train` (type `Loss`).
* Go `int` is `Int` without wrap-around.
* Properties that hold only "over exact arithmetic" are proved in this reading.

The binary64 reading (`NewLinearSVM64`, `Train64`, `Predict64`, ...)
* `float64` is IEEE 754 binary64 (`F64`): every operation rounds to nearest, ties to even,
  overflows to an infinity and propagates NaN; operations are not fused (as on amd64); the
  sign of a zero is not recorded (no operation of the program can tell `-0` from `+0`: the
  only divisor is `float64(len(X))`).
* Go `int` is a 64-bit two's-complement integer (`wrap64`), and `make` has the allocation
  limit of the Go runtime; running out of memory below that limit is not modelled.
* The concrete runs that separate the program from its exact reading are evaluated in this
  reading.

Both readings
* A run-time panic is an `Except.error`; slices have value semantics.
* `rand.Float64()` is an input: the `i`-th call returns `rnd i`.
* The two `fmt.Printf` calls of `Train` are not state; instead `TrainTrace` returns, next to
  the final classifier, the average loss of every executed epoch.
-/

namespace SVM

/-- Run-time panics of the Go program that the model tracks. -/
inductive Panic where
  | indexOutOfRange
  | makeSliceLen
  deriving DecidableEq

/-- Outcome of a Go function that may panic. -/
abbrev Result (α : Type) := Except Panic α

/-- The struct `LinearSVM` (source lines 10-20). -/
structure LinearSVM where
  Weights : List ℚ
  Bias : ℚ
  Classes : List String
  ClassMap : String → Option Int
  FeatureDim : Int
  SVMLearningRate : ℚ
  SVMLambda : ℚ
  SVMTolerance : ℚ
  SVMEpochs : Int

/-- Bounds-checked slice read `s[i]` with a Go `int` index. -/
def index {α : Type} (s : List α) (i : Int) : Result α :=
  if i < 0 then .error .indexOutOfRange
  else
    match s[i.toNat]? with
    | some v => .ok v
    | none => .error .indexOutOfRange

/-- Bounds-checked compound assignment `s[i] = g (s[i])` (the source's `+=` and `-=`). -/
def assignOp (s : List ℚ) (i : Int) (g : ℚ → ℚ) : Result (List ℚ) :=
  match index s i with
  | .ok v => .ok (s.set i.toNat (g v))
  | .error e => .error e

/-- Map read `m[k]` of a Go `map[string]int`: the zero value for an absent key. -/
def mapLookup (m : String → Option Int) (k : String) : Int :=
  (m k).getD 0

/-- Map write `m[k] = v`. -/
def mapInsert (m : String → Option Int) (k : String) (v : Int) : String → Option Int :=
  fun k1 => if k1 = k then some v else m k1

/-- The loop of source lines 24-27: `classMap[class] = i` for every position `i`. -/
def buildClassMap (classes : List String) : String → Option Int :=
  classes.enum.foldl (fun m p => mapInsert m p.2 (p.1 : Int)) (fun _ => none)

/-- The source's `NewLinearSVM` (lines 23-40); `make` panics on a negative length. -/
def NewLinearSVM (classes : List String) (featureDim : Int)
    (SVMLearningRate SVMLambda SVMTolerance : ℚ) (SVMEpochs : Int) : Result LinearSVM :=
  let classMap := buildClassMap classes
  if featureDim * (classes.length : Int) < 0 then .error .makeSliceLen
  else
    .ok { Weights := List.replicate (featureDim * (classes.length : Int)).toNat 0
          Bias := 0
          Classes := classes
          ClassMap := classMap
          FeatureDim := featureDim
          SVMEpochs := SVMEpochs
          SVMLearningRate := SVMLearningRate
          SVMLambda := SVMLambda
          SVMTolerance := SVMTolerance }

/-- The body `score += svm.Weights[c*nFeatures+f] * x[f]` of the scoring loop. -/
def scoreBody (svm : LinearSVM) (x : List ℚ) (c : Nat) (acc : ℚ) (f : Nat) : Result ℚ :=
  match index svm.Weights ((c : Int) * svm.FeatureDim + (f : Int)) with
  | .error e => .error e
  | .ok w =>
    match index x (f : Int) with
    | .error e => .error e
    | .ok xf => .ok (acc + w * xf)

/-- The scoring loop shared by `Train` (lines 77-80) and `Predict` (lines 146-149):
`score := svm.Bias; for f := 0; f < nFeatures; f++ { score += ... }`. -/
def score (svm : LinearSVM) (x : List ℚ) (c : Nat) : Result ℚ :=
  (List.range svm.FeatureDim.toNat).foldlM (scoreBody svm x c) svm.Bias

/-- The comparison `score > maxScore` of `Predict`, `none` standing for `math.Inf(-1)`. -/
def gtMax (s : ℚ) (maxScore : Option ℚ) : Bool :=
  match maxScore with
  | none => true
  | some m => decide (s > m)

/-- One iteration of the class loop of `Predict` (lines 145-155). -/
def predictBody (svm : LinearSVM) (x : List ℚ) (acc : Option ℚ × String) (c : Nat) :
    Result (Option ℚ × String) :=
  match score svm x c with
  | .error e => .error e
  | .ok s =>
    if gtMax s acc.1 then
      match index svm.Classes (c : Int) with
      | .error e => .error e
      | .ok name => .ok (some s, name)
    else .ok acc

/-- The source's `Predict` (lines 138-158). -/
def Predict (svm : LinearSVM) (x : List ℚ) : Result String :=
  match (List.range svm.Classes.length).foldlM (predictBody svm x) (none, "") with
  | .error e => .error e
  | .ok r => .ok r.2

/-- The body `predictions[i] = svm.Predict(x)` of the loop of `PredictBatch`. -/
def batchBody (svm : LinearSVM) (X : List (List ℚ)) (predictions : List String) (i : Nat) :
    Result (List String) :=
  match index X (i : Int) with
  | .error e => .error e
  | .ok x =>
    match Predict svm x with
    | .error e => .error e
    | .ok p =>
      if i < predictions.length then .ok (predictions.set i p)
      else .error .indexOutOfRange

/-- The source's `PredictBatch` (lines 161-167): a pre-allocated slice filled in place. -/
def PredictBatch (svm : LinearSVM) (X : List (List ℚ)) : Result (List String) :=
  (List.range X.length).foldlM (batchBody svm X) (List.replicate X.length "")

/-- The initialisation loop of `Train` (lines 48-50): the `i`-th weight is overwritten with
`0.01 * (2*rand.Float64() - 1)`, the `i`-th draw being `rnd i`. -/
def initWeights (W : List ℚ) (rnd : Nat → ℚ) : List ℚ :=
  (List.range W.length).map (fun i => (1 / 100 : ℚ) * (2 * rnd i - 1))

/-- The label conversion of `Train` (lines 53-56): `yNumeric[i] = svm.ClassMap[label]`. -/
def toNumeric (svm : LinearSVM) (y : List String) : List Int :=
  y.map (fun label => mapLookup svm.ClassMap label)

/-- The body of the class loop of lines 76-82: `scores[c] = score`. -/
def scoresBody (svm : LinearSVM) (x : List ℚ) (scores : List ℚ) (c : Nat) :
    Result (List ℚ) :=
  match score svm x c with
  | .error e => .error e
  | .ok s =>
    if c < scores.length then .ok (scores.set c s) else .error .indexOutOfRange

/-- The score table of one sample (lines 75-82): `scores := make([]float64, nClasses)`
filled class by class. -/
def computeScores (svm : LinearSVM) (x : List ℚ) : Result (List ℚ) :=
  (List.range svm.Classes.length).foldlM (scoresBody svm x)
    (List.replicate svm.Classes.length 0)

/-- One iteration of the scan of lines 87-92. -/
def selectBody (scores : List ℚ) (trueClass : Int) (acc : ℚ × Int) (c : Nat) :
    Result (ℚ × Int) :=
  if (c : Int) ≠ trueClass then
    match index scores (c : Int) with
    | .error e => .error e
    | .ok sc => if sc > acc.1 then .ok (sc, (c : Int)) else .ok acc
  else .ok acc

/-- The competitor selection of lines 85-92: returns `(maxScore, maxScoreIdx)`. -/
def selectMax (nClasses : Nat) (scores : List ℚ) (trueClass : Int) : Result (ℚ × Int) :=
  match index scores trueClass with
  | .error e => .error e
  | .ok st => (List.range nClasses).foldlM (selectBody scores trueClass) (st, trueClass)

/-- The body of the feature loop of the `margin > 0` branch (lines 101-107). -/
def hingeBody (svm : LinearSVM) (x : List ℚ) (trueClass maxScoreIdx : Int)
    (W : List ℚ) (f : Nat) : Result (List ℚ) :=
  match index x (f : Int) with
  | .error e => .error e
  | .ok xf =>
    match assignOp W (trueClass * svm.FeatureDim + (f : Int))
        (fun w => w + svm.SVMLearningRate * xf) with
    | .error e => .error e
    | .ok W1 =>
      match assignOp W1 (maxScoreIdx * svm.FeatureDim + (f : Int))
          (fun w => w - svm.SVMLearningRate * xf) with
      | .error e => .error e
      | .ok W2 =>
        match assignOp W2 (trueClass * svm.FeatureDim + (f : Int))
            (fun w => w - svm.SVMLearningRate * svm.SVMLambda * w) with
        | .error e => .error e
        | .ok W3 =>
          assignOp W3 (maxScoreIdx * svm.FeatureDim + (f : Int))
            (fun w => w - svm.SVMLearningRate * svm.SVMLambda * w)

/-- The feature loop of the `margin > 0` branch (lines 100-108). -/
def hingeLoop (svm : LinearSVM) (x : List ℚ) (trueClass maxScoreIdx : Int) :
    Result (List ℚ) :=
  (List.range svm.FeatureDim.toNat).foldlM (hingeBody svm x trueClass maxScoreIdx)
    svm.Weights

/-- The statement of line 115 for the cell of class `c` and feature `f`. -/
def decayCell (svm : LinearSVM) (f : Nat) (W : List ℚ) (c : Nat) : Result (List ℚ) :=
  assignOp W ((c : Int) * svm.FeatureDim + (f : Int))
    (fun w => w - svm.SVMLearningRate * svm.SVMLambda * w)

/-- The inner class loop of the `else` branch (lines 114-116) for one feature `f`. -/
def decayBody (svm : LinearSVM) (W : List ℚ) (f : Nat) : Result (List ℚ) :=
  (List.range svm.Classes.length).foldlM (decayCell svm f) W

/-- The decay-only loop nest of the `else` branch (lines 113-117). -/
def decayLoop (svm : LinearSVM) : Result (List ℚ) :=
  (List.range svm.FeatureDim.toNat).foldlM (decayBody svm) svm.Weights

/-- The body of the sample loop of `Train` (lines 74-119), given the sample `x`, its numeric
label `trueClass` and the loss accumulated so far; returns the mutated classifier and the
new accumulated loss. -/
def trainStep (svm : LinearSVM) (loss : ℚ) (x : List ℚ) (trueClass : Int) :
    Result (LinearSVM × ℚ) :=
  match computeScores svm x with
  | .error e => .error e
  | .ok scores =>
    match selectMax svm.Classes.length scores trueClass with
    | .error e => .error e
    | .ok (maxScore, maxScoreIdx) =>
      match index scores trueClass with
      | .error e => .error e
      | .ok st =>
        let margin := maxScore - st + 1
        if margin > 0 then
          match hingeLoop svm x trueClass maxScoreIdx with
          | .error e => .error e
          | .ok W =>
            let bias1 := svm.Bias + svm.SVMLearningRate
            .ok ({ svm with
                    Weights := W
                    Bias := bias1 - svm.SVMLearningRate * svm.SVMLambda * bias1 },
                 loss + margin)
        else
          match decayLoop svm with
          | .error e => .error e
          | .ok W =>
            .ok ({ svm with
                    Weights := W
                    Bias := svm.Bias - svm.SVMLearningRate * svm.SVMLambda * svm.Bias },
                 loss)

/-- The body of the sample loop for the index `idx`: reads `X[idx]` and `yNumeric[idx]`
(lines 71-72) and runs the step. -/
def epochBody (X : List (List ℚ)) (yNumeric : List Int) (st : LinearSVM × ℚ) (idx : Nat) :
    Result (LinearSVM × ℚ) :=
  match index X (idx : Int) with
  | .error e => .error e
  | .ok x =>
    match index yNumeric (idx : Int) with
    | .error e => .error e
    | .ok trueClass => trainStep st.1 st.2 x trueClass

/-- The sample loop of one epoch (lines 61-120): `loss` starts at zero and the samples are
visited in input order (`indices[i] = i`). -/
def runEpoch (svm : LinearSVM) (X : List (List ℚ)) (yNumeric : List Int) :
    Result (LinearSVM × ℚ) :=
  (List.range X.length).foldlM (epochBody X yNumeric) (svm, 0)

/-- Values of the variables `loss` (after averaging) and `prevLoss` of `Train`: a rational,
`math.Inf(1)`, or the NaN that `0.0 / float64(0)` produces. -/
inductive Loss where
  | posInf
  | nan
  | fin (v : ℚ)
  deriving DecidableEq

/-- The averaging `loss /= float64(len(X))` of line 122. -/
def average (loss : ℚ) (n : Nat) : Loss :=
  if n = 0 then .nan else .fin (loss / (n : ℚ))

/-- The test `math.Abs(prevLoss-loss) < svm.SVMTolerance` of line 125; it is false as soon as
one side is infinite or NaN. -/
def converged (prevLoss loss : Loss) (tol : ℚ) : Bool :=
  match prevLoss, loss with
  | .fin p, .fin l => decide (|p - l| < tol)
  | _, _ => false

/-- The epoch loop of `Train` (lines 60-134) with `n` epochs left; returns the final
classifier and the average losses of the executed epochs, oldest first. -/
def epochLoop (X : List (List ℚ)) (yNumeric : List Int) :
    Nat → Loss → LinearSVM → Result (LinearSVM × List Loss)
  | 0, _, svm => .ok (svm, [])
  | n + 1, prevLoss, svm =>
    match runEpoch svm X yNumeric with
    | .error e => .error e
    | .ok (svm1, loss) =>
      if converged prevLoss (average loss X.length) svm1.SVMTolerance then
        .ok (svm1, [average loss X.length])
      else
        match epochLoop X yNumeric n (average loss X.length) svm1 with
        | .error e => .error e
        | .ok (svm2, tr) => .ok (svm2, average loss X.length :: tr)

/-- The source's `Train` (lines 43-135), also returning the per-epoch average losses. -/
def TrainTrace (svm : LinearSVM) (X : List (List ℚ)) (y : List String) (rnd : Nat → ℚ) :
    Result (LinearSVM × List Loss) :=
  epochLoop X (toNumeric svm y) svm.SVMEpochs.toNat .posInf
    { svm with Weights := initWeights svm.Weights rnd }

/-- The source's `Train` (lines 43-135): the classifier after the call. -/
def Train (svm : LinearSVM) (X : List (List ℚ)) (y : List String) (rnd : Nat → ℚ) :
    Result LinearSVM :=
  match TrainTrace svm X y rnd with
  | .error e => .error e
  | .ok r => .ok r.1

/-- Data-model invariant of a classifier: `Weights` is a dense `len(Classes) × FeatureDim`
matrix stored row by row. -/
def WellFormed (svm : LinearSVM) : Prop :=
  0 ≤ svm.FeatureDim ∧
    (svm.Weights.length : Int) = svm.FeatureDim * (svm.Classes.length : Int)

instance (svm : LinearSVM) : Decidable (WellFormed svm) :=
  inferInstanceAs (Decidable (0 ≤ svm.FeatureDim ∧
    (svm.Weights.length : Int) = svm.FeatureDim * (svm.Classes.length : Int)))

/-- The matrix entry `weights[c][f]` of the spec, stored at `Weights[c*FeatureDim+f]`. -/
def weightAt (svm : LinearSVM) (c f : Nat) : ℚ :=
  svm.Weights.getD (c * svm.FeatureDim.toNat + f) 0

/-- The spec's `score(x, c) = bias + Σ_f weights[c][f] * x[f]`. -/
def scoreSpec (svm : LinearSVM) (x : List ℚ) (c : Nat) : ℚ :=
  svm.Bias + ∑ f ∈ Finset.range svm.FeatureDim.toNat, weightAt svm c f * x.getD f 0

/-- The cell `(c, f)` of the weight matrix after the `margin > 0` update for a sample `x`
with true class `t` and selected class `m`, as the spec words it: the row of `t` gains
`lr * x[f]`, the row of `m` loses it, and both are decayed by `1 - lr*λ` (twice on the one
row when `m == t`, where the two gradient updates cancel). -/
def hingeCell (svm : LinearSVM) (x : List ℚ) (t m c f : Nat) : ℚ :=
  if c = t then
    if m = t then (1 - svm.SVMLearningRate * svm.SVMLambda) ^ 2 * weightAt svm c f
    else (1 - svm.SVMLearningRate * svm.SVMLambda) *
      (weightAt svm c f + svm.SVMLearningRate * x.getD f 0)
  else if c = m then
    (1 - svm.SVMLearningRate * svm.SVMLambda) *
      (weightAt svm c f - svm.SVMLearningRate * x.getD f 0)
  else weightAt svm c f

/-- A two-class, one-feature classifier (weights `[0, 1]`, `lr = 0.1`, `λ = 0.01`) used as
a concrete instance. -/
def sampleSVM : LinearSVM :=
  { Weights := [0, 1]
    Bias := 0
    Classes := ["A", "B"]
    ClassMap := buildClassMap ["A", "B"]
    FeatureDim := 1
    SVMLearningRate := 1 / 10
    SVMLambda := 1 / 100
    SVMTolerance := 1 / 1000000
    SVMEpochs := 2 }

/-- The classifier `sampleSVM` with `lr = 1` and `λ = 3`, so that `lr*λ > 1`. -/
def steepSVM : LinearSVM :=
  { sampleSVM with SVMLearningRate := 1, SVMLambda := 3 }

/-- The classifier `sampleSVM` with weights `[2, 1/2]`: on `x = [1]` class 0 outscores
class 1 by `3/2`. -/
def marginSVM : LinearSVM :=
  { sampleSVM with Weights := [2, 1 / 2] }

/-- Two classifier states agree on everything but the values of `Weights` and `Bias`. -/
def SameConfig (a b : LinearSVM) : Prop :=
  b.Classes = a.Classes ∧ b.ClassMap = a.ClassMap ∧ b.FeatureDim = a.FeatureDim ∧
    b.SVMLearningRate = a.SVMLearningRate ∧ b.SVMLambda = a.SVMLambda ∧
    b.SVMTolerance = a.SVMTolerance ∧ b.SVMEpochs = a.SVMEpochs ∧
    b.Weights.length = a.Weights.length

/-- The caller contract of `Train` on the converted data: a numeric label for every row,
rows of length `FeatureDim`, numeric labels that are class indices. -/
def ValidData (svm : LinearSVM) (X : List (List ℚ)) (yNumeric : List Int) : Prop :=
  X.length ≤ yNumeric.length ∧
    (∀ x ∈ X, (x.length : Int) = svm.FeatureDim) ∧
    (∀ t ∈ yNumeric, 0 ≤ t ∧ t < (svm.Classes.length : Int))

instance (svm : LinearSVM) (X : List (List ℚ)) (yNumeric : List Int) :
    Decidable (ValidData svm X yNumeric) :=
  inferInstanceAs (Decidable (X.length ≤ yNumeric.length ∧
    (∀ x ∈ X, (x.length : Int) = svm.FeatureDim) ∧
    (∀ t ∈ yNumeric, 0 ≤ t ∧ t < (svm.Classes.length : Int))))

/-- The first `n` epochs run back to back, without the convergence test: the classifier
after them and their average losses `L_0, ..., L_(n-1)`. -/
def iterEpochs (X : List (List ℚ)) (yNumeric : List Int) :
    Nat → LinearSVM → Result (LinearSVM × List Loss)
  | 0, svm => .ok (svm, [])
  | n + 1, svm =>
    match runEpoch svm X yNumeric with
    | .error e => .error e
    | .ok (svm1, loss) =>
      match iterEpochs X yNumeric n svm1 with
      | .error e => .error e
      | .ok (svm2, tr) => .ok (svm2, average loss X.length :: tr)

/-- The convergence test as `Train` evaluates it at epoch `e` of a run with average losses
`tr`, when `prevLoss` held `prev` before the first of these epochs: the previous loss is
`prev` at epoch 0 and `L_(e-1)` afterwards. -/
def stopsAtFrom (prev : Loss) (tol : ℚ) (tr : List Loss) (e : Nat) : Bool :=
  converged (if e = 0 then prev else tr.getD (e - 1) .nan) (tr.getD e .nan) tol

/-- The convergence test at epoch `e` of a run of `Train`, where `prevLoss` starts at
`math.Inf(1)`: it holds iff `e >= 1` and `|L_(e-1) - L_e| < tol`. -/
def stopsAt (tol : ℚ) (tr : List Loss) (e : Nat) : Bool :=
  stopsAtFrom .posInf tol tr e

/-- The sum `weights[c][0] + weights[c][1]` of a row of a two-feature classifier. -/
def rowSum (svm : LinearSVM) (c : Nat) : ℚ :=
  weightAt svm c 0 + weightAt svm c 1

/-- The classifier states of the end-to-end scenario: classes `["A","B"]`, two features and
four weights, `lr = 0.1` and `λ = 0.01`. -/
def Scenario (svm : LinearSVM) : Prop :=
  svm.Classes = ["A", "B"] ∧ svm.FeatureDim = 2 ∧ svm.SVMLearningRate = 1 / 10 ∧
    svm.SVMLambda = 1 / 100 ∧ svm.Weights.length = 4

/-- The classifier of the end-to-end scenario right after the initialisation loop of
`Train`: `New(["A","B"], 2, 0.1, 0.01, 1e-6, 200)` with its four zero weights overwritten
from the draws `rnd`. -/
def scenarioStart (rnd : Nat → ℚ) : LinearSVM :=
  { Weights := initWeights [0, 0, 0, 0] rnd
    Bias := 0
    Classes := ["A", "B"]
    ClassMap := buildClassMap ["A", "B"]
    FeatureDim := 2
    SVMLearningRate := 1 / 10
    SVMLambda := 1 / 100
    SVMTolerance := 1 / 1000000
    SVMEpochs := 200 }

/-- Draws `3/4, 3/4, 1/4, 1/4, ...`: initial weights `0.005, 0.005, -0.005, -0.005`. -/
def sampleDraws (i : Nat) : ℚ :=
  if i < 2 then 3 / 4 else 1 / 4

/-- The classifier `sampleSVM` without classes (and without weights). -/
def emptySVM : LinearSVM :=
  { sampleSVM with Weights := [], Classes := [] }

/-- The label list `y` with every label absent from `ClassMap` replaced by `Classes[0]`. -/
def knownLabels (svm : LinearSVM) (y : List String) : List String :=
  y.map (fun label => if (svm.ClassMap label).isSome then label else svm.Classes.getD 0 "")

/-- The classifier state at the start of the first epoch of `Train`: the weights
re-initialised from the draws, everything else (the bias included) as before. -/
def trainStart (svm : LinearSVM) (rnd : Nat → ℚ) : LinearSVM :=
  { svm with Weights := initWeights svm.Weights rnd }

/-- The spec's consistency of `classes` and `classIndex`: `classIndex[classes[i]] == i` for
every position `i`. -/
def ClassMapConsistent (svm : LinearSVM) : Prop :=
  ∀ (i : Nat) (hi : i < svm.Classes.length), svm.ClassMap svm.Classes[i] = some (i : Int)

/-- The classifier `sampleSVM` with the all-zero weight matrix. -/
def zeroSVM : LinearSVM :=
  { sampleSVM with Weights := [0, 0] }

/-- The bias update of the `margin > 0` branch in closed form:
`bias := (1 - lr*λ) * (bias + lr)`. -/
def biasStep (svm : LinearSVM) (b : ℚ) : ℚ :=
  (1 - svm.SVMLearningRate * svm.SVMLambda) * (b + svm.SVMLearningRate)

/-- The quantity `maxScore - scores[trueClass]` a `Train` step computes for a sample, from
the source's own score table and scan (lines 75-95). -/
def stepGap (svm : LinearSVM) (x : List ℚ) (trueClass : Int) : Result ℚ :=
  match computeScores svm x with
  | .error e => .error e
  | .ok scores =>
    match selectMax svm.Classes.length scores trueClass with
    | .error e => .error e
    | .ok (maxScore, _) =>
      match index scores trueClass with
      | .error e => .error e
      | .ok st => .ok (maxScore - st)

/-- The body of the sample loop, also accumulating `maxScore - scores[trueClass]`; the
state is the classifier, the accumulated loss and the accumulated gap. -/
def gapBody (X : List (List ℚ)) (yNumeric : List Int) (st : LinearSVM × ℚ × ℚ) (idx : Nat) :
    Result (LinearSVM × ℚ × ℚ) :=
  match index X (idx : Int) with
  | .error e => .error e
  | .ok x =>
    match index yNumeric (idx : Int) with
    | .error e => .error e
    | .ok trueClass =>
      match stepGap st.1 x trueClass with
      | .error e => .error e
      | .ok g =>
        match trainStep st.1 st.2.1 x trueClass with
        | .error e => .error e
        | .ok (svm1, loss1) => .ok (svm1, loss1, st.2.2 + g)

/-- One epoch, returning next to the classifier and the accumulated loss the sum over the
samples of `maxScore - scores[trueClass]`. -/
def runEpochGaps (svm : LinearSVM) (X : List (List ℚ)) (yNumeric : List Int) :
    Result (LinearSVM × ℚ × ℚ) :=
  (List.range X.length).foldlM (gapBody X yNumeric) (svm, 0, 0)

/-- The classifier `svm` with its bias replaced by `b`. -/
def withBias (svm : LinearSVM) (b : ℚ) : LinearSVM :=
  { svm with Bias := b }

/-- The classifier `sampleSVM` after some earlier learning: weights `[7, -3]`, bias `5`. -/
def learnedSVM : LinearSVM :=
  { sampleSVM with Weights := [7, -3], Bias := 5 }

/-! ## The binary64 reading of the program

The same source read with `float64` as IEEE 754 binary64 (every operation rounded to nearest,
ties to even, not fused, as on amd64) and `int` as a 64-bit two's-complement integer. -/

/-- Values of the Go type `float64` (IEEE 754 binary64): NaN, the two infinities, and the
finite values, `fin k` being the real number `k * 2^(-1074)` (a multiple of the smallest
subnormal).  The sign of a zero is not recorded. -/
inductive F64 where
  | nan
  | posInf
  | negInf
  | fin (k : Int)
  deriving DecidableEq

/-- Number of binary digits of `n`, counted with `fuel` halvings at most. -/
def bitLenAux : Nat → Nat → Nat
  | 0, _ => 0
  | fuel + 1, n => if n = 0 then 0 else bitLenAux fuel (n / 2) + 1

/-- Number of binary digits of `n` (`0` for `n = 0`). -/
def bitLen (n : Nat) : Nat :=
  bitLenAux n n

/-- Round-to-nearest, ties-to-even, of the nonnegative rational `a / d` to a natural number
with at most 53 significant binary digits: `s` is the least shift at which the quotient
`a / (d * 2^s)` fits in 53 digits, and the quotient is rounded at that position. -/
def roundMag (a d : Nat) : Nat :=
  let s0 := bitLen a - (bitLen d + 53)
  let s := if a / (d * 2 ^ s0) < 2 ^ 53 then s0 else s0 + 1
  let q := a / (d * 2 ^ s)
  let r := a % (d * 2 ^ s)
  let up := decide (d * 2 ^ s < 2 * r) || (decide (2 * r = d * 2 ^ s) && decide (q % 2 = 1))
  (if up then q + 1 else q) * 2 ^ s

/-- The `float64` nearest to the rational `n / d` given in units of `2^(-1074)`: rounding to
nearest even, overflow to an infinity from `2^1024` on. -/
def F64.round (n : Int) (d : Nat) : F64 :=
  let m := roundMag n.natAbs d
  if 2 ^ 2098 ≤ m then (if n < 0 then .negInf else .posInf)
  else .fin (if n < 0 then -(m : Int) else (m : Int))

/-- The `float64` nearest to the rational `n / d`: the value of a Go constant or of an
`int` converted with `float64(...)`. -/
def F64.lit (n : Int) (d : Nat) : F64 :=
  F64.round (n * 2 ^ 1074) d

/-- Negation. -/
def F64.neg : F64 → F64
  | .nan => .nan
  | .posInf => .negInf
  | .negInf => .posInf
  | .fin k => .fin (-k)

/-- The `float64` addition `a + b`. -/
def F64.add : F64 → F64 → F64
  | .nan, _ => .nan
  | _, .nan => .nan
  | .posInf, .negInf => .nan
  | .negInf, .posInf => .nan
  | .posInf, _ => .posInf
  | .negInf, _ => .negInf
  | _, .posInf => .posInf
  | _, .negInf => .negInf
  | .fin a, .fin b => F64.round (a + b) 1

/-- The `float64` subtraction `a - b`. -/
def F64.sub (a b : F64) : F64 :=
  F64.add a (F64.neg b)

/-- The infinity of the sign of `k` when `positive`, of the opposite sign otherwise, and
NaN for `k = 0`: the outcome of `k * (±Inf)` and of `k / 0`. -/
def F64.infOfSign (k : Int) (positive : Bool) : F64 :=
  if k = 0 then .nan
  else if decide (0 < k) = positive then .posInf else .negInf

/-- The `float64` multiplication `a * b`. -/
def F64.mul : F64 → F64 → F64
  | .nan, _ => .nan
  | _, .nan => .nan
  | .fin a, .fin b => F64.round (a * b) (2 ^ 1074)
  | .fin a, .posInf => F64.infOfSign a true
  | .fin a, .negInf => F64.infOfSign a false
  | .posInf, .fin b => F64.infOfSign b true
  | .negInf, .fin b => F64.infOfSign b false
  | .posInf, .posInf => .posInf
  | .negInf, .negInf => .posInf
  | .posInf, .negInf => .negInf
  | .negInf, .posInf => .negInf

/-- The `float64` division `a / b`; a zero divisor is taken as `+0`. -/
def F64.div : F64 → F64 → F64
  | .nan, _ => .nan
  | _, .nan => .nan
  | .fin a, .fin b =>
    if b = 0 then F64.infOfSign a true
    else if b < 0 then F64.round (-(a * 2 ^ 1074)) b.natAbs
    else F64.round (a * 2 ^ 1074) b.natAbs
  | .fin _, .posInf => .fin 0
  | .fin _, .negInf => .fin 0
  | .posInf, .fin b => if b < 0 then .negInf else .posInf
  | .negInf, .fin b => if b < 0 then .posInf else .negInf
  | .posInf, .posInf => .nan
  | .negInf, .negInf => .nan
  | .posInf, .negInf => .nan
  | .negInf, .posInf => .nan

/-- The `float64` comparison `a < b` (false as soon as one side is NaN). -/
def F64.lt : F64 → F64 → Bool
  | .nan, _ => false
  | _, .nan => false
  | .negInf, .negInf => false
  | .negInf, _ => true
  | _, .negInf => false
  | .posInf, _ => false
  | _, .posInf => true
  | .fin a, .fin b => decide (a < b)

/-- The function `math.Abs`. -/
def F64.abs : F64 → F64
  | .nan => .nan
  | .posInf => .posInf
  | .negInf => .posInf
  | .fin k => .fin |k|

/-- Outcomes can be compared when errors and values can. -/
instance {ε α : Type} [DecidableEq ε] [DecidableEq α] : DecidableEq (Except ε α)
  | .ok a, .ok b =>
    if h : a = b then isTrue (by rw [h]) else isFalse (fun h1 => h (by cases h1; rfl))
  | .error a, .error b =>
    if h : a = b then isTrue (by rw [h]) else isFalse (fun h1 => h (by cases h1; rfl))
  | .ok _, .error _ => isFalse (fun h => by cases h)
  | .error _, .ok _ => isFalse (fun h => by cases h)

/-- Two's-complement wrap-around of a 64-bit Go `int`. -/
def wrap64 (z : Int) : Int :=
  (z + 2 ^ 63) % 2 ^ 64 - 2 ^ 63

/-- The struct `LinearSVM` (source lines 10-20) with `float64` fields read as binary64. -/
structure LinearSVM64 where
  Weights : List F64
  Bias : F64
  Classes : List String
  ClassMap : String → Option Int
  FeatureDim : Int
  SVMLearningRate : F64
  SVMLambda : F64
  SVMTolerance : F64
  SVMEpochs : Int

/-- The largest allocation in bytes the Go runtime accepts on a 64-bit platform
(`maxAlloc`, `2^48` on linux/amd64). -/
def maxAlloc : Int :=
  2 ^ 48

/-- The source's `NewLinearSVM` (lines 23-40) on machine integers: the length
`featureDim*len(classes)` wraps around at 64 bits, and `make([]float64, n)` panics when `n`
is negative or `8*n` bytes exceed `maxAlloc`. -/
def NewLinearSVM64 (classes : List String) (featureDim : Int)
    (SVMLearningRate SVMLambda SVMTolerance : F64) (SVMEpochs : Int) : Result LinearSVM64 :=
  let classMap := buildClassMap classes
  let n := wrap64 (featureDim * (classes.length : Int))
  if n < 0 ∨ maxAlloc < 8 * n then .error .makeSliceLen
  else
    .ok { Weights := List.replicate n.toNat (.fin 0)
          Bias := .fin 0
          Classes := classes
          ClassMap := classMap
          FeatureDim := featureDim
          SVMEpochs := SVMEpochs
          SVMLearningRate := SVMLearningRate
          SVMLambda := SVMLambda
          SVMTolerance := SVMTolerance }

/-- The index expression `c*nFeatures+f` on 64-bit integers. -/
def cell64 (c nFeatures f : Int) : Int :=
  wrap64 (wrap64 (c * nFeatures) + f)

/-- Bounds-checked compound assignment `s[i] = g (s[i])` on a `[]float64`. -/
def assignOp64 (s : List F64) (i : Int) (g : F64 → F64) : Result (List F64) :=
  match index s i with
  | .ok v => .ok (s.set i.toNat (g v))
  | .error e => .error e

/-- The body `score += svm.Weights[c*nFeatures+f] * x[f]` of the scoring loop, in binary64. -/
def scoreBody64 (svm : LinearSVM64) (x : List F64) (c : Nat) (acc : F64) (f : Nat) :
    Result F64 :=
  match index svm.Weights (cell64 (c : Int) svm.FeatureDim (f : Int)) with
  | .error e => .error e
  | .ok w =>
    match index x (f : Int) with
    | .error e => .error e
    | .ok xf => .ok (F64.add acc (F64.mul w xf))

/-- The scoring loop of lines 77-80 and 146-149, in binary64. -/
def score64 (svm : LinearSVM64) (x : List F64) (c : Nat) : Result F64 :=
  (List.range svm.FeatureDim.toNat).foldlM (scoreBody64 svm x c) svm.Bias

/-- One iteration of the class loop of `Predict` (lines 145-155), in binary64: the state is
`(maxScore, bestClass)`. -/
def predictBody64 (svm : LinearSVM64) (x : List F64) (acc : F64 × String) (c : Nat) :
    Result (F64 × String) :=
  match score64 svm x c with
  | .error e => .error e
  | .ok s =>
    if F64.lt acc.1 s then
      match index svm.Classes (c : Int) with
      | .error e => .error e
      | .ok name => .ok (s, name)
    else .ok acc

/-- The source's `Predict` (lines 138-158) in binary64: `maxScore := math.Inf(-1)`,
`bestClass := ""`. -/
def Predict64 (svm : LinearSVM64) (x : List F64) : Result String :=
  match (List.range svm.Classes.length).foldlM (predictBody64 svm x) (.negInf, "") with
  | .error e => .error e
  | .ok r => .ok r.2

/-- The initialisation loop of `Train` (lines 48-50) in binary64:
`0.01 * (2*rand.Float64() - 1)`, the `i`-th draw being `rnd i`. -/
def initWeights64 (W : List F64) (rnd : Nat → F64) : List F64 :=
  (List.range W.length).map
    (fun i => F64.mul (F64.lit 1 100) (F64.sub (F64.mul (F64.lit 2 1) (rnd i)) (F64.lit 1 1)))

/-- The label conversion of `Train` (lines 53-56). -/
def toNumeric64 (svm : LinearSVM64) (y : List String) : List Int :=
  y.map (fun label => mapLookup svm.ClassMap label)

/-- The body of the class loop of lines 76-82: `scores[c] = score`. -/
def scoresBody64 (svm : LinearSVM64) (x : List F64) (scores : List F64) (c : Nat) :
    Result (List F64) :=
  match score64 svm x c with
  | .error e => .error e
  | .ok s =>
    if c < scores.length then .ok (scores.set c s) else .error .indexOutOfRange

/-- The score table of one sample (lines 75-82), in binary64. -/
def computeScores64 (svm : LinearSVM64) (x : List F64) : Result (List F64) :=
  (List.range svm.Classes.length).foldlM (scoresBody64 svm x)
    (List.replicate svm.Classes.length (.fin 0))

/-- One iteration of the scan of lines 87-92, in binary64. -/
def selectBody64 (scores : List F64) (trueClass : Int) (acc : F64 × Int) (c : Nat) :
    Result (F64 × Int) :=
  if (c : Int) ≠ trueClass then
    match index scores (c : Int) with
    | .error e => .error e
    | .ok sc => if F64.lt acc.1 sc then .ok (sc, (c : Int)) else .ok acc
  else .ok acc

/-- The competitor selection of lines 85-92, in binary64: `(maxScore, maxScoreIdx)`. -/
def selectMax64 (nClasses : Nat) (scores : List F64) (trueClass : Int) :
    Result (F64 × Int) :=
  match index scores trueClass with
  | .error e => .error e
  | .ok st => (List.range nClasses).foldlM (selectBody64 scores trueClass) (st, trueClass)

/-- The decay `w - lr*λ*w` of lines 105-106, 115 and 110, 118, in binary64 (the product
`lr*λ*w` associates to the left). -/
def decay64 (svm : LinearSVM64) (w : F64) : F64 :=
  F64.sub w (F64.mul (F64.mul svm.SVMLearningRate svm.SVMLambda) w)

/-- The body of the feature loop of the `margin > 0` branch (lines 101-107), in binary64. -/
def hingeBody64 (svm : LinearSVM64) (x : List F64) (trueClass maxScoreIdx : Int)
    (W : List F64) (f : Nat) : Result (List F64) :=
  match index x (f : Int) with
  | .error e => .error e
  | .ok xf =>
    match assignOp64 W (cell64 trueClass svm.FeatureDim (f : Int))
        (fun w => F64.add w (F64.mul svm.SVMLearningRate xf)) with
    | .error e => .error e
    | .ok W1 =>
      match assignOp64 W1 (cell64 maxScoreIdx svm.FeatureDim (f : Int))
          (fun w => F64.sub w (F64.mul svm.SVMLearningRate xf)) with
      | .error e => .error e
      | .ok W2 =>
        match assignOp64 W2 (cell64 trueClass svm.FeatureDim (f : Int)) (decay64 svm) with
        | .error e => .error e
        | .ok W3 => assignOp64 W3 (cell64 maxScoreIdx svm.FeatureDim (f : Int)) (decay64 svm)

/-- The feature loop of the `margin > 0` branch (lines 100-108), in binary64. -/
def hingeLoop64 (svm : LinearSVM64) (x : List F64) (trueClass maxScoreIdx : Int) :
    Result (List F64) :=
  (List.range svm.FeatureDim.toNat).foldlM (hingeBody64 svm x trueClass maxScoreIdx)
    svm.Weights

/-- The statement of line 115 for the cell of class `c` and feature `f`, in binary64. -/
def decayCell64 (svm : LinearSVM64) (f : Nat) (W : List F64) (c : Nat) : Result (List F64) :=
  assignOp64 W (cell64 (c : Int) svm.FeatureDim (f : Int)) (decay64 svm)

/-- The inner class loop of the `else` branch (lines 114-116) for one feature. -/
def decayBody64 (svm : LinearSVM64) (W : List F64) (f : Nat) : Result (List F64) :=
  (List.range svm.Classes.length).foldlM (decayCell64 svm f) W

/-- The decay-only loop nest of the `else` branch (lines 113-117), in binary64. -/
def decayLoop64 (svm : LinearSVM64) : Result (List F64) :=
  (List.range svm.FeatureDim.toNat).foldlM (decayBody64 svm) svm.Weights

/-- The body of the sample loop of `Train` (lines 74-119) in binary64. -/
def trainStep64 (svm : LinearSVM64) (loss : F64) (x : List F64) (trueClass : Int) :
    Result (LinearSVM64 × F64) :=
  match computeScores64 svm x with
  | .error e => .error e
  | .ok scores =>
    match selectMax64 svm.Classes.length scores trueClass with
    | .error e => .error e
    | .ok (maxScore, maxScoreIdx) =>
      match index scores trueClass with
      | .error e => .error e
      | .ok st =>
        let margin := F64.add (F64.sub maxScore st) (F64.lit 1 1)
        if F64.lt (.fin 0) margin then
          match hingeLoop64 svm x trueClass maxScoreIdx with
          | .error e => .error e
          | .ok W =>
            .ok ({ svm with
                    Weights := W
                    Bias := decay64 svm (F64.add svm.Bias svm.SVMLearningRate) },
                 F64.add loss margin)
        else
          match decayLoop64 svm with
          | .error e => .error e
          | .ok W => .ok ({ svm with Weights := W, Bias := decay64 svm svm.Bias }, loss)

/-- The body of the sample loop for the index `idx` (lines 71-72 and the step). -/
def epochBody64 (X : List (List F64)) (yNumeric : List Int) (st : LinearSVM64 × F64)
    (idx : Nat) : Result (LinearSVM64 × F64) :=
  match index X (idx : Int) with
  | .error e => .error e
  | .ok x =>
    match index yNumeric (idx : Int) with
    | .error e => .error e
    | .ok trueClass => trainStep64 st.1 st.2 x trueClass

/-- The sample loop of one epoch (lines 61-120), in binary64. -/
def runEpoch64 (svm : LinearSVM64) (X : List (List F64)) (yNumeric : List Int) :
    Result (LinearSVM64 × F64) :=
  (List.range X.length).foldlM (epochBody64 X yNumeric) (svm, .fin 0)

/-- The epoch loop of `Train` (lines 60-134) in binary64, with `n` epochs left:
`loss /= float64(len(X))`, then the test `math.Abs(prevLoss-loss) < svm.SVMTolerance`. -/
def epochLoop64 (X : List (List F64)) (yNumeric : List Int) :
    Nat → F64 → LinearSVM64 → Result LinearSVM64
  | 0, _, svm => .ok svm
  | n + 1, prevLoss, svm =>
    match runEpoch64 svm X yNumeric with
    | .error e => .error e
    | .ok (svm1, loss) =>
      if F64.lt (F64.abs (F64.sub prevLoss (F64.div loss (F64.lit (X.length : Int) 1))))
          svm1.SVMTolerance then .ok svm1
      else epochLoop64 X yNumeric n (F64.div loss (F64.lit (X.length : Int) 1)) svm1

/-- The source's `Train` (lines 43-135) in binary64. -/
def Train64 (svm : LinearSVM64) (X : List (List F64)) (y : List String) (rnd : Nat → F64) :
    Result LinearSVM64 :=
  epochLoop64 X (toNumeric64 svm y) svm.SVMEpochs.toNat .posInf
    { svm with Weights := initWeights64 svm.Weights rnd }

/-- The weights and the bias of an outcome, for comparison. -/
def params64 (r : Result LinearSVM64) : Result (List F64 × F64) :=
  match r with
  | .error e => .error e
  | .ok svm => .ok (svm.Weights, svm.Bias)

/-- The exact rational value of a finite `float64` (`0` for NaN and the infinities). -/
def F64.toRat : F64 → ℚ
  | .fin k => (k : ℚ) / 2 ^ 1074
  | _ => 0

/-- The exact-arithmetic reading of a binary64 classifier state: every `float64` field
replaced by its rational value. -/
def exactSVM (svm : LinearSVM64) : LinearSVM :=
  { Weights := svm.Weights.map F64.toRat
    Bias := svm.Bias.toRat
    Classes := svm.Classes
    ClassMap := svm.ClassMap
    FeatureDim := svm.FeatureDim
    SVMLearningRate := svm.SVMLearningRate.toRat
    SVMLambda := svm.SVMLambda.toRat
    SVMTolerance := svm.SVMTolerance.toRat
    SVMEpochs := svm.SVMEpochs }

/-- The weights, the bias and the accumulated loss of the outcome of a step. -/
def stepOutcome64 (r : Result (LinearSVM64 × F64)) : Result (List F64 × F64 × F64) :=
  match r with
  | .error e => .error e
  | .ok p => .ok (p.1.Weights, p.1.Bias, p.2)

/-- A binary64 classifier with classes `["A","B"]`, one feature, bias 0, `lr = 1`, `λ = 0`
and the two weights `wA`, `wB`. -/
def pairSVM64 (wA wB : F64) : LinearSVM64 :=
  { Weights := [wA, wB]
    Bias := F64.lit 0 1
    Classes := ["A", "B"]
    ClassMap := buildClassMap ["A", "B"]
    FeatureDim := 1
    SVMLearningRate := F64.lit 1 1
    SVMLambda := F64.lit 0 1
    SVMTolerance := F64.lit 0 1
    SVMEpochs := 1 }

/-- A one-class binary64 classifier whose only weight is `-2^1023`. -/
def overflowSVM : LinearSVM64 :=
  { pairSVM64 (F64.lit 0 1) (F64.lit 0 1) with
    Weights := [F64.lit (-(2 ^ 1023)) 1], Classes := ["A"], ClassMap := buildClassMap ["A"] }

/-- A two-class, three-feature binary64 classifier with rows `[2^53, 1, -2^53]` and
`[1/2, 0, 0]`. -/
def cancelSVM : LinearSVM64 :=
  { pairSVM64 (F64.lit 0 1) (F64.lit 0 1) with
    Weights := [F64.lit (2 ^ 53) 1, F64.lit 1 1, F64.lit (-(2 ^ 53)) 1,
                F64.lit 1 2, F64.lit 0 1, F64.lit 0 1]
    FeatureDim := 3 }

/-- The binary64 classifier with weights `[2^53, 2^54]`: adding 1 to either is absorbed. -/
def absorbSVM : LinearSVM64 :=
  pairSVM64 (F64.lit (2 ^ 53) 1) (F64.lit (2 ^ 54) 1)

/-- The binary64 classifier with weights `[1, 0]`. -/
def unitSVM64 : LinearSVM64 :=
  pairSVM64 (F64.lit 1 1) (F64.lit 0 1)

/-- The binary64 classifier with the all-zero weight matrix, `lr = 2` and `λ = 1/4`. -/
def zeroSVM64 : LinearSVM64 :=
  { pairSVM64 (F64.lit 0 1) (F64.lit 0 1) with
    SVMLearningRate := F64.lit 2 1, SVMLambda := F64.lit 1 4 }

/-- A binary64 classifier after some earlier learning: weights `[wA, -3]` and bias `b`. -/
def learnedSVM64 (wA b : F64) : LinearSVM64 :=
  { pairSVM64 wA (F64.lit (-3) 1) with Bias := b }

/-- Draws `1/2, 3/4, 3/4, ...`: binary64 initial weights `0, 0.005, 0.005, ...`. -/
def draws64 (i : Nat) : F64 :=
  if i = 0 then F64.lit 1 2 else F64.lit 3 4

/-- The score table of the sample `x` recomputed on the classifier a step returns. -/
def scoresAfter64 (r : Result (LinearSVM64 × F64)) (x : List F64) : Result (List F64) :=
  match r with
  | .error e => .error e
  | .ok p => computeScores64 p.1 x

/-- The call `Train(X, y)` followed by `Predict(x)` on the trained classifier, in binary64. -/
def trainPredict64 (svm : LinearSVM64) (X : List (List F64)) (y : List String)
    (rnd : Nat → F64) (x : List F64) : Result String :=
  match Train64 svm X y rnd with
  | .error e => .error e
  | .ok svm1 => Predict64 svm1 x

/-- The end-to-end scenario in binary64: `New(["A","B"], 2, 0.1, 0.01, 1e-6, 200)` trained on
`X = [[1,1],[-1,-1]]`, `y = ["A","B"]` with the draws `rnd`. -/
def scenario64 (rnd : Nat → F64) : Result LinearSVM64 :=
  match NewLinearSVM64 ["A", "B"] 2 (F64.lit 1 10) (F64.lit 1 100) (F64.lit 1 1000000) 200 with
  | .error e => .error e
  | .ok svm0 =>
    Train64 svm0 [[F64.lit 1 1, F64.lit 1 1], [F64.lit (-1) 1, F64.lit (-1) 1]] ["A", "B"] rnd

/-- The prediction for `x` after the binary64 end-to-end scenario. -/
def scenarioPredict64 (rnd : Nat → F64) (x : List F64) : Result String :=
  match scenario64 rnd with
  | .error e => .error e
  | .ok svm1 => Predict64 svm1 x

/-- The classifier `sampleSVM` with the tolerance `0.1` and an epoch budget of 5. -/
def fiveSVM : LinearSVM :=
  { sampleSVM with SVMTolerance := 1 / 10, SVMEpochs := 5 }

/-- The per-epoch average losses of an outcome of `TrainTrace`. -/
def lossesOf (r : Result (LinearSVM × List Loss)) : Result (List Loss) :=
  match r with
  | .error e => .error e
  | .ok p => .ok p.2

/-! ## Basic facts about the embedding -/

@[simp] theorem ok_bind {ε α β : Type} (a : α) (f : α → Except ε β) :
    (Except.ok a >>= f) = f a := rfl

@[simp] theorem error_bind {ε α β : Type} (e : ε) (f : α → Except ε β) :
    ((Except.error e : Except ε α) >>= f) = Except.error e := rfl

theorem foldlM_range_succ {σ : Type} (body : σ → Nat → Result σ) (n : Nat) (s : σ) :
    (List.range (n + 1)).foldlM body s =
      (List.range n).foldlM body s >>= fun s1 => body s1 n := by
  rw [List.range_succ, List.foldlM_append]
  simp

theorem index_natCast {α : Type} (s : List α) (n : Nat) (d : α) (h : n < s.length) :
    index s (n : Int) = .ok (s.getD n d) := by
  unfold index
  simp [List.getD, List.getElem?_eq_getElem h]

theorem index_natCast_error {α : Type} (s : List α) (n : Nat) (h : s.length ≤ n) :
    index s (n : Int) = .error .indexOutOfRange := by
  unfold index
  simp [List.getElem?_eq_none h]

theorem index_neg {α : Type} (s : List α) (i : Int) (h : i < 0) :
    index s i = .error .indexOutOfRange := by
  unfold index
  simp [h]

theorem cell_lt (svm : LinearSVM) (hwf : WellFormed svm) (c f : Nat)
    (hc : c < svm.Classes.length) (hf : f < svm.FeatureDim.toNat) :
    c * svm.FeatureDim.toNat + f < svm.Weights.length := by
  obtain ⟨h0, h1⟩ := hwf
  have h2 : svm.Weights.length = svm.FeatureDim.toNat * svm.Classes.length := by
    have : ((svm.FeatureDim.toNat : Nat) : Int) = svm.FeatureDim := Int.toNat_of_nonneg h0
    zify; rw [this]; exact h1
  rw [h2]
  calc c * svm.FeatureDim.toNat + f < c * svm.FeatureDim.toNat + svm.FeatureDim.toNat := by omega
    _ = (c + 1) * svm.FeatureDim.toNat := by ring
    _ ≤ svm.Classes.length * svm.FeatureDim.toNat := Nat.mul_le_mul_right _ hc
    _ = svm.FeatureDim.toNat * svm.Classes.length := by ring

theorem cell_cast (svm : LinearSVM) (h0 : 0 ≤ svm.FeatureDim) (c f : Nat) :
    (c : Int) * svm.FeatureDim + (f : Int) = ((c * svm.FeatureDim.toNat + f : Nat) : Int) := by
  push_cast
  rw [Int.toNat_of_nonneg h0]

theorem score_upto (svm : LinearSVM) (x : List ℚ) (c : Nat) (hwf : WellFormed svm)
    (hc : c < svm.Classes.length) (hx : svm.FeatureDim ≤ (x.length : Int)) (k : Nat)
    (hk : k ≤ svm.FeatureDim.toNat) :
    (List.range k).foldlM (scoreBody svm x c) svm.Bias
      = .ok (svm.Bias + ∑ f ∈ Finset.range k, weightAt svm c f * x.getD f 0) := by
  induction k with
  | zero => simp; rfl
  | succ k ih =>
    have hk1 : k < svm.FeatureDim.toNat := hk
    rw [foldlM_range_succ, ih (by omega)]
    have hcell := cell_lt svm hwf c k hc hk1
    have hxk : k < x.length := by
      have := hwf.1
      omega
    simp only [ok_bind, scoreBody]
    rw [cell_cast svm hwf.1, index_natCast _ _ 0 hcell, index_natCast _ _ 0 hxk]
    simp [Finset.sum_range_succ, weightAt, add_assoc]

theorem score_eq (svm : LinearSVM) (x : List ℚ) (c : Nat) (hwf : WellFormed svm)
    (hc : c < svm.Classes.length) (hx : svm.FeatureDim ≤ (x.length : Int)) :
    score svm x c = .ok (scoreSpec svm x c) :=
  score_upto svm x c hwf hc hx _ le_rfl


theorem predict_upto (svm : LinearSVM) (x : List ℚ) (hwf : WellFormed svm)
    (hx : svm.FeatureDim ≤ (x.length : Int)) (k : Nat) (hk : k ≤ svm.Classes.length) :
    ∃ acc, (List.range k).foldlM (predictBody svm x) (none, "") = .ok acc ∧
      ((k = 0 ∧ acc = (none, "")) ∨
        ∃ c, c < k ∧ acc = (some (scoreSpec svm x c), svm.Classes.getD c "") ∧
          (∀ c1, c1 < k → scoreSpec svm x c1 ≤ scoreSpec svm x c) ∧
          (∀ c1, c1 < c → scoreSpec svm x c1 < scoreSpec svm x c)) := by
  induction k with
  | zero => exact ⟨(none, ""), by simp; rfl, Or.inl ⟨rfl, rfl⟩⟩
  | succ k ih =>
    have hk1 : k < svm.Classes.length := hk
    obtain ⟨acc, hacc, hinv⟩ := ih (by omega)
    rw [foldlM_range_succ, hacc]
    simp only [ok_bind, predictBody, score_eq svm x k hwf hk1 hx,
      index_natCast svm.Classes k "" hk1]
    rcases hinv with ⟨hk0, rfl⟩ | ⟨c, hck, rfl, hmax, hfirst⟩
    · subst hk0
      refine ⟨_, by simp [gtMax], Or.inr ⟨0, by omega, rfl, ?_, ?_⟩⟩
      · intro c1 hc1
        have : c1 = 0 := by omega
        subst this; exact le_rfl
      · intro c1 hc1; omega
    · by_cases hgt : scoreSpec svm x k > scoreSpec svm x c
      · refine ⟨_, by simp [gtMax, hgt], Or.inr ⟨k, by omega, rfl, ?_, ?_⟩⟩
        · intro c1 hc1
          rcases Nat.lt_succ_iff_lt_or_eq.mp hc1 with h | h
          · exact le_of_lt (lt_of_le_of_lt (hmax c1 h) hgt)
          · subst h; exact le_rfl
        · intro c1 hc1
          exact lt_of_le_of_lt (hmax c1 hc1) hgt
      · refine ⟨_, by simp [gtMax, hgt], Or.inr ⟨c, by omega, rfl, ?_, hfirst⟩⟩
        intro c1 hc1
        rcases Nat.lt_succ_iff_lt_or_eq.mp hc1 with h | h
        · exact hmax c1 h
        · subst h; exact not_lt.mp hgt

/-- C1 (amended): over exact arithmetic, for a well-formed classifier with at least one class
and a feature vector of length `FeatureDim`, `Predict` returns `Classes[c]` for the smallest
class index `c` whose score `Bias + Σ_f Weights[c*FeatureDim+f]*x[f]` is the maximum over all
classes (so the lower-indexed of two classes with the same maximal score). -/
theorem Predict_returns_first_argmax (svm : LinearSVM) (x : List ℚ) (hwf : WellFormed svm)
    (hne : svm.Classes ≠ []) (hx : (x.length : Int) = svm.FeatureDim) :
    ∃ (c : Nat) (hc : c < svm.Classes.length),
      Predict svm x = .ok svm.Classes[c] ∧
      score svm x c = .ok (scoreSpec svm x c) ∧
      (∀ c1, c1 < svm.Classes.length → scoreSpec svm x c1 ≤ scoreSpec svm x c) ∧
      (∀ c1, c1 < c → scoreSpec svm x c1 < scoreSpec svm x c) := by
  obtain ⟨acc, hacc, hinv⟩ := predict_upto svm x hwf (le_of_eq hx.symm) _ le_rfl
  have hpos : 0 < svm.Classes.length := List.length_pos.mpr hne
  rcases hinv with ⟨h0, _⟩ | ⟨c, hc, rfl, hmax, hfirst⟩
  · omega
  · have hc1 : c < svm.Classes.length := hc
    exact ⟨c, hc1, by simp [Predict, hacc, List.getElem?_eq_getElem hc1],
      score_eq svm x c hwf hc1 (le_of_eq hx.symm), hmax, hfirst⟩

theorem batch_upto (svm : LinearSVM) (X : List (List ℚ)) (k : Nat) (hk : k ≤ X.length) :
    ∀ ps : List String,
      (List.range k).foldlM (batchBody svm X)
        (List.replicate X.length "") = .ok ps ↔
      (ps.length = X.length ∧
        (∀ i, i < k → Predict svm (X.getD i []) = .ok (ps.getD i "")) ∧
        (∀ i, k ≤ i → ps.getD i "" = "")) := by
  induction k with
  | zero =>
    intro ps
    simp only [List.range_zero, List.foldlM_nil]
    constructor
    · intro h
      have h1 : List.replicate X.length "" = ps := by injection h
      subst h1
      refine ⟨by simp, by intro i hi; omega, ?_⟩
      intro i _
      simp [List.getD, List.getElem?_replicate]
      split <;> rfl
    · rintro ⟨hl, -, hz⟩
      have : ps = List.replicate X.length "" := by
        apply List.ext_getElem (by simp [hl])
        intro i h1 h2
        have := hz i (Nat.zero_le _)
        rw [List.getD_eq_getElem _ _ h1] at this
        simp [this]
      rw [this]; rfl
  | succ k ih =>
    intro ps
    have hk1 : k < X.length := hk
    rw [foldlM_range_succ]
    have ih1 := ih (by omega)
    cases hfold : (List.range k).foldlM (batchBody svm X)
        (List.replicate X.length "") with
    | error e =>
      simp only [error_bind]
      constructor
      · intro h; cases h
      · rintro ⟨hl, hp, hz⟩
        exfalso
        have := (ih1 (ps.set k "")).mpr ⟨by simp [hl], ?_, ?_⟩
        · rw [hfold] at this; cases this
        · intro i hi
          rw [hp i (by omega)]
          simp [List.getD, List.getElem?_set, show k ≠ i by omega]
        · intro i hi
          rcases Nat.eq_or_lt_of_le hi with h | h
          · subst h
            simp [List.getD, List.getElem?_set]
            split <;> rfl
          · have := hz i h
            simpa [List.getD, List.getElem?_set, show k ≠ i by omega] using this
    | ok q =>
      obtain ⟨hql, hqp, hqz⟩ := (ih1 q).mp hfold
      simp only [ok_bind, batchBody, index_natCast X k [] hk1]
      cases hpk : Predict svm (X.getD k []) with
      | error e =>
        simp only []
        constructor
        · intro h; cases h
        · rintro ⟨_, hp, _⟩
          have := hp k (by omega)
          rw [hpk] at this; cases this
      | ok p =>
        simp only [hql, hk1, if_true]
        constructor
        · intro h
          have h1 : q.set k p = ps := by injection h
          subst h1
          refine ⟨by simp [hql], ?_, ?_⟩
          · intro i hi
            rcases Nat.lt_succ_iff_lt_or_eq.mp hi with h | h
            · rw [hqp i h]
              simp [List.getD, List.getElem?_set, show k ≠ i by omega]
            · subst h
              rw [hpk]
              simp [List.getD, List.getElem?_set, hql, hk1]
          · intro i hi
            have := hqz i (by omega)
            simpa [List.getD, List.getElem?_set, show k ≠ i by omega] using this
        · rintro ⟨hl, hp, hz⟩
          have : q.set k p = ps := by
            apply List.ext_getElem (by simp [hql, hl])
            intro i h1 h2
            simp only [List.length_set] at h1
            by_cases hik : i = k
            · subst hik
              have := hp i (by omega)
              rw [hpk, List.getD_eq_getElem _ _ h2] at this
              simp only [List.getElem_set_self]
              injection this
            · rw [List.getElem_set_ne (Ne.symm hik)]
              by_cases hlt : i < k
              · have e1 := hp i (by omega)
                have e2 := hqp i hlt
                rw [e2, List.getD_eq_getElem _ _ h2, List.getD_eq_getElem _ _ (by omega)] at e1
                injection e1
              · have e1 := hz i (by omega)
                have e2 := hqz i (by omega)
                rw [List.getD_eq_getElem _ _ h2] at e1
                rw [List.getD_eq_getElem _ _ (by omega)] at e2
                rw [e1, e2]
          rw [this]

/-- C2: `PredictBatch X` returns exactly the list of the labels `Predict` returns on the rows
of `X`, in order: it returns `ps` if and only if `ps` is as long as `X` and
`Predict (X[i])` returns `ps[i]` for every index `i`. -/
theorem PredictBatch_eq_ok_iff (svm : LinearSVM) (X : List (List ℚ)) (ps : List String) :
    PredictBatch svm X = .ok ps ↔
      ps.length = X.length ∧
        ∀ (i : Nat) (hX : i < X.length) (hp : i < ps.length),
          Predict svm X[i] = .ok ps[i] := by
  unfold PredictBatch
  rw [batch_upto svm X X.length le_rfl ps]
  constructor
  · rintro ⟨hl, hp, -⟩
    refine ⟨hl, ?_⟩
    intro i hX hps
    have := hp i hX
    rwa [List.getD_eq_getElem _ _ hX, List.getD_eq_getElem _ _ hps] at this
  · rintro ⟨hl, hp⟩
    refine ⟨hl, ?_, ?_⟩
    · intro i hi
      have := hp i hi (by omega)
      rwa [List.getD_eq_getElem _ _ hi, List.getD_eq_getElem _ _ (by omega)]
    · intro i hi
      simp [List.getD, List.getElem?_eq_none (by omega : ps.length ≤ i)]

theorem classMap_fold_absent (l : List String) (n : Nat) (m : String → Option Int)
    (key : String) (h : key ∉ l) :
    (l.enumFrom n).foldl (fun m p => mapInsert m p.2 (p.1 : Int)) m key = m key := by
  induction l generalizing n m with
  | nil => rfl
  | cons a t ih =>
    simp only [List.mem_cons, not_or] at h
    simp only [List.enumFrom_cons, List.foldl_cons]
    rw [ih (n + 1) _ h.2]
    simp [mapInsert, h.1]

theorem classMap_fold_present (l : List String) (n : Nat) (m : String → Option Int)
    (key : String) (h : key ∈ l) :
    ∃ j, l[j]? = some key ∧
      (l.enumFrom n).foldl (fun m p => mapInsert m p.2 (p.1 : Int)) m key
        = some ((n + j : Nat) : Int) ∧
      ∀ k, l[k]? = some key → k ≤ j := by
  induction l generalizing n m with
  | nil => simp at h
  | cons a t ih =>
    simp only [List.enumFrom_cons, List.foldl_cons]
    by_cases ht : key ∈ t
    · obtain ⟨j, hj, hres, hlast⟩ := ih (n + 1) (mapInsert m a (n : Int)) ht
      refine ⟨j + 1, by simpa using hj, ?_, ?_⟩
      · rw [hres]; congr 2; omega
      · intro k hk
        cases k with
        | zero => omega
        | succ k =>
          have := hlast k (by simpa using hk)
          omega
    · have ha : key = a := by
        rcases List.mem_cons.mp h with h1 | h1
        · exact h1
        · exact absurd h1 ht
      refine ⟨0, by simp [ha], ?_, ?_⟩
      · rw [classMap_fold_absent t (n + 1) _ key ht]
        simp [mapInsert, ha]
      · intro k hk
        cases k with
        | zero => exact le_rfl
        | succ k =>
          exfalso
          have : t[k]? = some key := by simpa using hk
          obtain ⟨hlt, heq⟩ := List.getElem?_eq_some_iff.mp this
          exact ht (heq ▸ List.getElem_mem hlt)

theorem NewLinearSVM_ok (classes : List String) (featureDim : Int)
    (lr lam tol : ℚ) (epochs : Int) (hdim : 0 ≤ featureDim) :
    NewLinearSVM classes featureDim lr lam tol epochs =
      .ok { Weights := List.replicate (featureDim * (classes.length : Int)).toNat 0
            Bias := 0
            Classes := classes
            ClassMap := buildClassMap classes
            FeatureDim := featureDim
            SVMEpochs := epochs
            SVMLearningRate := lr
            SVMLambda := lam
            SVMTolerance := tol } := by
  have hnn : 0 ≤ featureDim * (classes.length : Int) :=
    mul_nonneg hdim (Int.natCast_nonneg _)
  simp only [NewLinearSVM, not_lt.mpr hnn, if_false]

/-- The constructor over unbounded integers: for `featureDim >= 0`, `NewLinearSVM` returns a
classifier with `featureDim * len(classes)` weights, all zero, zero bias, and the class
list, feature dimension and the four hyperparameters exactly as passed. -/
theorem NewLinearSVM_fields (classes : List String) (featureDim : Int)
    (lr lam tol : ℚ) (epochs : Int) (hdim : 0 ≤ featureDim) :
    ∃ svm, NewLinearSVM classes featureDim lr lam tol epochs = .ok svm ∧
      (svm.Weights.length : Int) = featureDim * (classes.length : Int) ∧
      (∀ w, w ∈ svm.Weights → w = 0) ∧
      svm.Bias = 0 ∧ svm.Classes = classes ∧ svm.FeatureDim = featureDim ∧
      svm.SVMLearningRate = lr ∧ svm.SVMLambda = lam ∧ svm.SVMTolerance = tol ∧
      svm.SVMEpochs = epochs := by
  have hnn : 0 ≤ featureDim * (classes.length : Int) :=
    mul_nonneg hdim (Int.natCast_nonneg _)
  refine ⟨_, NewLinearSVM_ok classes featureDim lr lam tol epochs hdim, ?_, ?_, rfl, rfl,
    rfl, rfl, rfl, rfl, rfl⟩
  · simp only [List.length_replicate]
    exact Int.toNat_of_nonneg hnn
  · intro w hw
    exact (List.mem_replicate.mp hw).2

/-- C10: in the classifier `NewLinearSVM` returns, `ClassMap[classes[i]]` is the largest
index `j` with `classes[j] == classes[i]`, `ClassMap` has no key outside `classes`, and for
a duplicate-free class list `ClassMap[classes[i]] == i`. -/
theorem NewLinearSVM_classMap (classes : List String) (featureDim : Int)
    (lr lam tol : ℚ) (epochs : Int) (hdim : 0 ≤ featureDim) :
    ∃ svm, NewLinearSVM classes featureDim lr lam tol epochs = .ok svm ∧
      (∀ (i : Nat) (hi : i < classes.length),
        ∃ (j : Nat) (hj : j < classes.length),
          svm.ClassMap classes[i] = some (j : Int) ∧ classes[j] = classes[i] ∧
          ∀ (k : Nat) (hk : k < classes.length), classes[k] = classes[i] → k ≤ j) ∧
      (∀ key, key ∉ classes → svm.ClassMap key = none) ∧
      (classes.Nodup → ∀ (i : Nat) (hi : i < classes.length),
        svm.ClassMap classes[i] = some (i : Int)) := by
  have hnn : 0 ≤ featureDim * (classes.length : Int) :=
    mul_nonneg hdim (Int.natCast_nonneg _)
  have hlast : ∀ (i : Nat) (hi : i < classes.length),
      ∃ (j : Nat) (hj : j < classes.length),
        buildClassMap classes classes[i] = some (j : Int) ∧ classes[j] = classes[i] ∧
        ∀ (k : Nat) (hk : k < classes.length), classes[k] = classes[i] → k ≤ j := by
    intro i hi
    obtain ⟨j, hj, hres, hmax⟩ :=
      classMap_fold_present classes 0 (fun _ => none) classes[i] (List.getElem_mem hi)
    obtain ⟨hjlt, hjeq⟩ := List.getElem?_eq_some_iff.mp hj
    refine ⟨j, hjlt, ?_, hjeq, ?_⟩
    · simpa [buildClassMap, List.enum] using hres
    · intro k hk hke
      exact hmax k (List.getElem?_eq_some_iff.mpr ⟨hk, hke⟩)
  refine ⟨_, NewLinearSVM_ok classes featureDim lr lam tol epochs hdim, hlast, ?_, ?_⟩
  · intro key hkey
    exact classMap_fold_absent classes 0 (fun _ => none) key hkey
  · intro hnd i hi
    obtain ⟨j, hj, hres, heq, -⟩ := hlast i hi
    have : j = i := (List.Nodup.getElem_inj_iff hnd).mp heq
    subst this
    exact hres

theorem scores_upto (svm : LinearSVM) (x : List ℚ) (hwf : WellFormed svm)
    (hx : svm.FeatureDim ≤ (x.length : Int)) (k : Nat) (hk : k ≤ svm.Classes.length) :
    (List.range k).foldlM (scoresBody svm x) (List.replicate svm.Classes.length 0) =
      .ok ((List.range svm.Classes.length).map
        (fun c => if c < k then scoreSpec svm x c else 0)) := by
  induction k with
  | zero =>
    simp only [List.range_zero, List.foldlM_nil, Nat.not_lt_zero, if_false]
    congr 1
    apply List.ext_getElem (by simp)
    intro i h1 h2
    simp
  | succ k ih =>
    have hk1 : k < svm.Classes.length := hk
    rw [foldlM_range_succ, ih (by omega)]
    simp only [ok_bind, scoresBody, score_eq svm x k hwf hk1 hx, List.length_map,
      List.length_range, hk1, if_true]
    congr 1
    apply List.ext_getElem (by simp)
    intro i h1 h2
    simp only [List.length_map, List.length_range] at h2
    rw [List.getElem_set]
    by_cases hki : k = i
    · subst hki
      simp
    · simp only [hki, if_false, List.getElem_map, List.getElem_range]
      by_cases hik : i < k
      · rw [if_pos hik, if_pos (by omega)]
      · rw [if_neg hik, if_neg (by omega)]

theorem computeScores_eq (svm : LinearSVM) (x : List ℚ) (hwf : WellFormed svm)
    (hx : svm.FeatureDim ≤ (x.length : Int)) :
    computeScores svm x = .ok ((List.range svm.Classes.length).map (scoreSpec svm x)) := by
  unfold computeScores
  rw [scores_upto svm x hwf hx _ le_rfl]
  congr 1
  apply List.map_congr_left
  intro c hc
  rw [if_pos (List.mem_range.mp hc)]

theorem getD_range_map (g : Nat → ℚ) (n c : Nat) (hc : c < n) :
    ((List.range n).map g).getD c 0 = g c := by
  simp [List.getD, hc]

theorem select_upto (n : Nat) (scores : List ℚ) (hlen : scores.length = n) (t : Nat)
    (ht : t < n) (k : Nat) (hk : k ≤ n) :
    ∃ (ms : ℚ) (mi : Nat),
      (List.range k).foldlM (selectBody scores (t : Int)) (scores.getD t 0, (t : Int))
        = .ok (ms, (mi : Int)) ∧
      mi < n ∧ ms = scores.getD mi 0 ∧ scores.getD t 0 ≤ ms ∧
      (∀ c, c < k → scores.getD c 0 ≤ ms) ∧
      (mi ≠ t → mi < k ∧ scores.getD t 0 < ms ∧ ∀ c, c < mi → scores.getD c 0 < ms) := by
  induction k with
  | zero =>
    exact ⟨_, t, rfl, ht, rfl, le_rfl, by intro c hc; omega, by intro h; exact absurd rfl h⟩
  | succ k ih =>
    have hk1 : k < n := hk
    obtain ⟨ms, mi, hfold, hmi, hms, htle, hmax, hne⟩ := ih (by omega)
    rw [foldlM_range_succ, hfold]
    simp only [ok_bind, selectBody]
    by_cases hkt : k = t
    · subst hkt
      refine ⟨ms, mi, by simp, hmi, hms, htle, ?_, ?_⟩
      · intro c hc
        rcases Nat.lt_succ_iff_lt_or_eq.mp hc with h | h
        · exact hmax c h
        · subst h; exact htle
      · intro h
        obtain ⟨h1, h2, h3⟩ := hne h
        exact ⟨by omega, h2, h3⟩
    · have hcast : ((k : Int) ≠ (t : Int)) := by exact_mod_cast hkt
      rw [index_natCast scores k 0 (by omega)]
      simp only [hcast, ne_eq, not_false_eq_true, if_true]
      by_cases hgt : scores.getD k 0 > ms
      · refine ⟨scores.getD k 0, k, by dsimp only; rw [if_pos hgt], hk1, rfl, le_of_lt (lt_of_le_of_lt htle hgt),
          ?_, ?_⟩
        · intro c hc
          rcases Nat.lt_succ_iff_lt_or_eq.mp hc with h | h
          · exact le_of_lt (lt_of_le_of_lt (hmax c h) hgt)
          · subst h; exact le_rfl
        · intro _
          exact ⟨by omega, lt_of_le_of_lt htle hgt,
            fun c hc => lt_of_le_of_lt (hmax c hc) hgt⟩
      · refine ⟨ms, mi, by dsimp only; rw [if_neg hgt], hmi, hms, htle, ?_, ?_⟩
        · intro c hc
          rcases Nat.lt_succ_iff_lt_or_eq.mp hc with h | h
          · exact hmax c h
          · subst h; exact not_lt.mp hgt
        · intro h
          obtain ⟨h1, h2, h3⟩ := hne h
          exact ⟨by omega, h2, h3⟩

theorem selectMax_spec (n : Nat) (scores : List ℚ) (hlen : scores.length = n) (t : Nat)
    (ht : t < n) :
    ∃ (ms : ℚ) (mi : Nat),
      selectMax n scores (t : Int) = .ok (ms, (mi : Int)) ∧
      mi < n ∧ ms = scores.getD mi 0 ∧ scores.getD t 0 ≤ ms ∧
      (∀ c, c < n → scores.getD c 0 ≤ ms) ∧
      (mi ≠ t → scores.getD t 0 < ms ∧ ∀ c, c < mi → scores.getD c 0 < ms) := by
  obtain ⟨ms, mi, hfold, hmi, hms, htle, hmax, hne⟩ :=
    select_upto n scores hlen t ht n le_rfl
  refine ⟨ms, mi, ?_, hmi, hms, htle, hmax, fun h => (hne h).2⟩
  unfold selectMax
  rw [index_natCast scores t 0 (by omega)]
  exact hfold

theorem getD_set_self (s : List ℚ) (i : Nat) (a : ℚ) (h : i < s.length) :
    (s.set i a).getD i 0 = a := by
  simp [List.getD, List.getElem?_set, h]

theorem getD_set_ne (s : List ℚ) (i j : Nat) (a : ℚ) (h : i ≠ j) :
    (s.set i a).getD j 0 = s.getD j 0 := by
  simp [List.getD, List.getElem?_set, h]

theorem assignOp_natCast (s : List ℚ) (i : Nat) (g : ℚ → ℚ) (h : i < s.length) :
    assignOp s (i : Int) g = .ok (s.set i (g (s.getD i 0))) := by
  unfold assignOp
  rw [index_natCast s i 0 h]
  simp

theorem cell_inj (n c f c1 f1 : Nat) (hf : f < n) (hf1 : f1 < n)
    (h : c * n + f = c1 * n + f1) : c = c1 ∧ f = f1 := by
  have hmod : (c * n + f) % n = (c1 * n + f1) % n := by rw [h]
  rw [Nat.mul_add_mod_of_lt hf, Nat.mul_add_mod_of_lt hf1] at hmod
  subst hmod
  have hn : 0 < n := by omega
  have : c * n = c1 * n := by omega
  exact ⟨Nat.eq_of_mul_eq_mul_right hn this, rfl⟩

theorem hingeBody_spec (svm : LinearSVM) (x : List ℚ) (W : List ℚ) (it im k : Nat)
    (tI mI : Int) (hit : tI * svm.FeatureDim + (k : Int) = (it : Int))
    (him : mI * svm.FeatureDim + (k : Int) = (im : Int))
    (hlt : it < W.length) (hlm : im < W.length) (hk : k < x.length) :
    ∃ W4, hingeBody svm x tI mI W k = .ok W4 ∧ W4.length = W.length ∧
      (∀ j, j ≠ it → j ≠ im → W4.getD j 0 = W.getD j 0) ∧
      (it ≠ im →
        W4.getD it 0 = (1 - svm.SVMLearningRate * svm.SVMLambda) *
          (W.getD it 0 + svm.SVMLearningRate * x.getD k 0) ∧
        W4.getD im 0 = (1 - svm.SVMLearningRate * svm.SVMLambda) *
          (W.getD im 0 - svm.SVMLearningRate * x.getD k 0)) ∧
      (it = im →
        W4.getD it 0 = (1 - svm.SVMLearningRate * svm.SVMLambda) ^ 2 * W.getD it 0) := by
  unfold hingeBody
  rw [index_natCast x k 0 hk, hit, him]
  simp only []
  rw [assignOp_natCast _ _ _ hlt]
  simp only []
  rw [assignOp_natCast _ _ _ (by simpa using hlm)]
  simp only []
  rw [assignOp_natCast _ _ _ (by simpa using hlt)]
  simp only []
  rw [assignOp_natCast _ _ _ (by simpa using hlm)]
  refine ⟨_, rfl, by simp, ?_, ?_, ?_⟩
  · intro j hj1 hj2
    rw [getD_set_ne _ _ _ _ (Ne.symm hj2), getD_set_ne _ _ _ _ (Ne.symm hj1),
      getD_set_ne _ _ _ _ (Ne.symm hj2), getD_set_ne _ _ _ _ (Ne.symm hj1)]
  · intro hne
    have hne1 : im ≠ it := Ne.symm hne
    constructor
    · rw [getD_set_ne _ _ _ _ hne1, getD_set_self _ _ _ (by simpa using hlt),
        getD_set_ne _ _ _ _ hne1, getD_set_self _ _ _ hlt]
      ring
    · rw [getD_set_self _ _ _ (by simpa using hlm), getD_set_ne _ _ _ _ hne,
        getD_set_self _ _ _ (by simpa using hlm), getD_set_ne _ _ _ _ hne]
      ring
  · intro heq
    subst heq
    rw [getD_set_self _ _ _ (by simpa using hlt), getD_set_self _ _ _ (by simpa using hlt),
      getD_set_self _ _ _ (by simpa using hlt), getD_set_self _ _ _ hlt]
    ring

theorem hinge_upto (svm : LinearSVM) (x : List ℚ) (hwf : WellFormed svm) (t m : Nat)
    (ht : t < svm.Classes.length) (hm : m < svm.Classes.length)
    (hx : svm.FeatureDim ≤ (x.length : Int)) (k : Nat) (hk : k ≤ svm.FeatureDim.toNat) :
    ∃ Wk, (List.range k).foldlM (hingeBody svm x (t : Int) (m : Int)) svm.Weights = .ok Wk ∧
      Wk.length = svm.Weights.length ∧
      ∀ c f, c < svm.Classes.length → f < svm.FeatureDim.toNat →
        Wk.getD (c * svm.FeatureDim.toNat + f) 0 =
          if f < k then hingeCell svm x t m c f else weightAt svm c f := by
  induction k with
  | zero =>
    exact ⟨svm.Weights, rfl, rfl, by intro c f _ _; simp [weightAt]⟩
  | succ k ih =>
    have hk1 : k < svm.FeatureDim.toNat := hk
    obtain ⟨Wk, hfold, hlen, hinv⟩ := ih (by omega)
    have hxk : k < x.length := by
      have := hwf.1
      omega
    obtain ⟨W4, hbody, hlen4, hother, hne, heq⟩ :=
      hingeBody_spec svm x Wk (t * svm.FeatureDim.toNat + k) (m * svm.FeatureDim.toNat + k) k
        (t : Int) (m : Int) (cell_cast svm hwf.1 t k) (cell_cast svm hwf.1 m k)
        (by rw [hlen]; exact cell_lt svm hwf t k ht hk1)
        (by rw [hlen]; exact cell_lt svm hwf m k hm hk1) hxk
    rw [foldlM_range_succ, hfold]
    refine ⟨W4, by simpa using hbody, by rw [hlen4, hlen], ?_⟩
    intro c f hc hf
    have hkk : ¬ k < k := lt_irrefl k
    have hWt := hinv t k ht hk1
    have hWm := hinv m k hm hk1
    rw [if_neg hkk] at hWt hWm
    by_cases h1 : c * svm.FeatureDim.toNat + f = t * svm.FeatureDim.toNat + k
    · obtain ⟨hct, hfk⟩ := cell_inj _ _ _ _ _ hf hk1 h1
      subst hct; subst hfk
      rw [if_pos (Nat.lt_succ_self _)]
      by_cases htm : m = c
      · subst htm
        rw [heq rfl, hWt]
        simp [hingeCell]
      · have hcells : c * svm.FeatureDim.toNat + f ≠ m * svm.FeatureDim.toNat + f := by
          intro h
          exact htm (cell_inj _ _ _ _ _ hf hf h).1.symm
        rw [(hne hcells).1, hWt]
        simp [hingeCell, htm]
    · by_cases h2 : c * svm.FeatureDim.toNat + f = m * svm.FeatureDim.toNat + k
      · obtain ⟨hcm, hfk⟩ := cell_inj _ _ _ _ _ hf hk1 h2
        subst hcm; subst hfk
        have hct : c ≠ t := by
          intro h
          exact h1 (by rw [h])
        rw [if_pos (Nat.lt_succ_self _), (hne (Ne.symm h1)).2, hWm]
        simp [hingeCell, hct]
      · rw [hother _ h1 h2, hinv c f hc hf]
        by_cases hfk : f < k
        · rw [if_pos hfk, if_pos (by omega)]
        · rw [if_neg hfk]
          by_cases hfk1 : f = k
          · subst hfk1
            have hct : c ≠ t := fun h => h1 (by rw [h])
            have hcm : c ≠ m := fun h => h2 (by rw [h])
            rw [if_pos (Nat.lt_succ_self _)]
            simp [hingeCell, hct, hcm]
          · rw [if_neg (by omega)]

theorem hingeLoop_spec (svm : LinearSVM) (x : List ℚ) (hwf : WellFormed svm) (t m : Nat)
    (ht : t < svm.Classes.length) (hm : m < svm.Classes.length)
    (hx : svm.FeatureDim ≤ (x.length : Int)) :
    ∃ W1, hingeLoop svm x (t : Int) (m : Int) = .ok W1 ∧
      W1.length = svm.Weights.length ∧
      ∀ c f, c < svm.Classes.length → f < svm.FeatureDim.toNat →
        W1.getD (c * svm.FeatureDim.toNat + f) 0 = hingeCell svm x t m c f := by
  obtain ⟨W1, hfold, hlen, hinv⟩ := hinge_upto svm x hwf t m ht hm hx _ le_rfl
  refine ⟨W1, hfold, hlen, ?_⟩
  intro c f hc hf
  rw [hinv c f hc hf, if_pos hf]

theorem trainStep_spec (svm : LinearSVM) (loss : ℚ) (x : List ℚ) (t : Nat)
    (hwf : WellFormed svm) (ht : t < svm.Classes.length)
    (hx : svm.FeatureDim ≤ (x.length : Int)) :
    ∃ (m : Nat) (W1 : List ℚ),
      selectMax svm.Classes.length ((List.range svm.Classes.length).map (scoreSpec svm x))
          (t : Int) = .ok (scoreSpec svm x m, (m : Int)) ∧
      trainStep svm loss x (t : Int) =
        .ok ({ svm with
                Weights := W1
                Bias := (1 - svm.SVMLearningRate * svm.SVMLambda) *
                  (svm.Bias + svm.SVMLearningRate) },
             loss + (scoreSpec svm x m - scoreSpec svm x t + 1)) ∧
      m < svm.Classes.length ∧
      (∀ c, c < svm.Classes.length → scoreSpec svm x c ≤ scoreSpec svm x m) ∧
      (m ≠ t → scoreSpec svm x t < scoreSpec svm x m ∧
        ∀ c, c < m → scoreSpec svm x c < scoreSpec svm x m) ∧
      W1.length = svm.Weights.length ∧
      ∀ c f, c < svm.Classes.length → f < svm.FeatureDim.toNat →
        W1.getD (c * svm.FeatureDim.toNat + f) 0 = hingeCell svm x t m c f := by
  obtain ⟨ms, m, hsel, hm, hms, htle, hmax, hne⟩ :=
    selectMax_spec svm.Classes.length ((List.range svm.Classes.length).map (scoreSpec svm x))
      (by simp) t ht
  rw [getD_range_map _ _ _ hm] at hms
  rw [getD_range_map _ _ _ ht] at htle
  subst hms
  obtain ⟨W1, hloop, hlen, hcells⟩ := hingeLoop_spec svm x hwf t m ht hm hx
  refine ⟨m, W1, hsel, ?_, hm, ?_, ?_, hlen, hcells⟩
  · unfold trainStep
    rw [computeScores_eq svm x hwf hx]
    simp only []
    rw [hsel]
    simp only []
    rw [index_natCast _ t 0 (by simpa using ht), getD_range_map _ _ _ ht]
    simp only []
    have hpos : scoreSpec svm x m - scoreSpec svm x t + 1 > 0 := by linarith
    rw [if_pos hpos, hloop]
    simp only []
    congr 3
    ring
  · intro c hc
    have := hmax c hc
    rwa [getD_range_map _ _ _ hc] at this
  · intro hmt
    obtain ⟨h1, h2⟩ := hne hmt
    rw [getD_range_map _ _ _ ht] at h1
    refine ⟨h1, ?_⟩
    intro c hc
    have := h2 c hc
    rwa [getD_range_map _ _ _ (by omega)] at this

/-- C4 (amended): hinge update with a real competitor, over exact arithmetic.  For a
well-formed classifier, a sample `x` of length `FeatureDim` and a true class `t` that some
class strictly outscores, the
step selects a class `m != t` of maximal score, sets every `weights[t][f]` to
`(1 - lr*λ) * (old + lr*x[f])` and every `weights[m][f]` to `(1 - lr*λ) * (old - lr*x[f])`,
leaves all other rows unchanged, sets the bias to `(1 - lr*λ) * (old bias + lr)` and adds
`score(x,m) - score(x,t) + 1`, computed from the old weights, to the loss. -/
theorem trainStep_competitor (svm : LinearSVM) (loss : ℚ) (x : List ℚ) (t : Nat)
    (hwf : WellFormed svm) (ht : t < svm.Classes.length)
    (hx : (x.length : Int) = svm.FeatureDim)
    (hcomp : ∃ c, c < svm.Classes.length ∧ scoreSpec svm x t < scoreSpec svm x c) :
    ∃ (m : Nat) (svm1 : LinearSVM),
      m < svm.Classes.length ∧ m ≠ t ∧ scoreSpec svm x t < scoreSpec svm x m ∧
      computeScores svm x = .ok ((List.range svm.Classes.length).map (scoreSpec svm x)) ∧
      selectMax svm.Classes.length ((List.range svm.Classes.length).map (scoreSpec svm x))
          (t : Int) = .ok (scoreSpec svm x m, (m : Int)) ∧
      trainStep svm loss x (t : Int) =
        .ok (svm1, loss + (scoreSpec svm x m - scoreSpec svm x t + 1)) ∧
      (∀ f, f < svm.FeatureDim.toNat →
        weightAt svm1 t f = (1 - svm.SVMLearningRate * svm.SVMLambda) *
          (weightAt svm t f + svm.SVMLearningRate * x.getD f 0) ∧
        weightAt svm1 m f = (1 - svm.SVMLearningRate * svm.SVMLambda) *
          (weightAt svm m f - svm.SVMLearningRate * x.getD f 0)) ∧
      (∀ c f, c < svm.Classes.length → c ≠ t → c ≠ m → f < svm.FeatureDim.toNat →
        weightAt svm1 c f = weightAt svm c f) ∧
      svm1.Weights.length = svm.Weights.length ∧
      svm1.Bias = (1 - svm.SVMLearningRate * svm.SVMLambda) *
        (svm.Bias + svm.SVMLearningRate) := by
  obtain ⟨m, W1, hsel, hstep, hm, hmax, hne, hlen, hcells⟩ :=
    trainStep_spec svm loss x t hwf ht (le_of_eq hx.symm)
  have hmt : m ≠ t := by
    rintro rfl
    obtain ⟨c, hc, hlt⟩ := hcomp
    exact absurd (hmax c hc) (not_le.mpr hlt)
  refine ⟨m, _, hm, hmt, (hne hmt).1, computeScores_eq svm x hwf (le_of_eq hx.symm), hsel,
    hstep, ?_, ?_, hlen, rfl⟩
  · intro f hf
    constructor
    · show W1.getD (t * svm.FeatureDim.toNat + f) 0 = _
      rw [hcells t f ht hf]
      simp [hingeCell, hmt]
    · show W1.getD (m * svm.FeatureDim.toNat + f) 0 = _
      rw [hcells m f hm hf]
      simp [hingeCell, hmt]
  · intro c f hc hct hcm hf
    show W1.getD (c * svm.FeatureDim.toNat + f) 0 = _
    rw [hcells c f hc hf]
    simp [hingeCell, hct, hcm]

/-- C5 (amended): degenerate hinge update, over exact arithmetic.  For a well-formed
classifier, a sample `x` of length `FeatureDim` and a true class `t` that no class strictly
outscores, the scan selects
`t` itself, the margin is exactly 1 and is added to the loss, every `weights[t][f]` becomes
`(1 - lr*λ)^2 * old`, every other row is unchanged and the bias becomes
`(1 - lr*λ) * (old bias + lr)`. -/
theorem trainStep_degenerate (svm : LinearSVM) (loss : ℚ) (x : List ℚ) (t : Nat)
    (hwf : WellFormed svm) (ht : t < svm.Classes.length)
    (hx : (x.length : Int) = svm.FeatureDim)
    (hnone : ∀ c, c < svm.Classes.length → scoreSpec svm x c ≤ scoreSpec svm x t) :
    ∃ svm1 : LinearSVM,
      computeScores svm x = .ok ((List.range svm.Classes.length).map (scoreSpec svm x)) ∧
      selectMax svm.Classes.length ((List.range svm.Classes.length).map (scoreSpec svm x))
          (t : Int) = .ok (scoreSpec svm x t, (t : Int)) ∧
      scoreSpec svm x t - scoreSpec svm x t + 1 = 1 ∧
      trainStep svm loss x (t : Int) = .ok (svm1, loss + 1) ∧
      (∀ f, f < svm.FeatureDim.toNat →
        weightAt svm1 t f =
          (1 - svm.SVMLearningRate * svm.SVMLambda) ^ 2 * weightAt svm t f) ∧
      (∀ c f, c < svm.Classes.length → c ≠ t → f < svm.FeatureDim.toNat →
        weightAt svm1 c f = weightAt svm c f) ∧
      svm1.Weights.length = svm.Weights.length ∧
      svm1.Bias = (1 - svm.SVMLearningRate * svm.SVMLambda) *
        (svm.Bias + svm.SVMLearningRate) := by
  obtain ⟨m, W1, hsel, hstep, hm, hmax, hne, hlen, hcells⟩ :=
    trainStep_spec svm loss x t hwf ht (le_of_eq hx.symm)
  have hmt : m = t := by
    by_contra h
    exact absurd (hnone m hm) (not_le.mpr (hne h).1)
  subst hmt
  refine ⟨{ svm with
              Weights := W1
              Bias := (1 - svm.SVMLearningRate * svm.SVMLambda) *
                (svm.Bias + svm.SVMLearningRate) },
    computeScores_eq svm x hwf (le_of_eq hx.symm), hsel, by ring, ?_, ?_, ?_, hlen, rfl⟩
  · rw [hstep]
    congr 2
    ring
  · intro f hf
    show W1.getD (m * svm.FeatureDim.toNat + f) 0 = _
    rw [hcells m f hm hf]
    simp [hingeCell]
  · intro c f hc hct hf
    show W1.getD (c * svm.FeatureDim.toNat + f) 0 = _
    rw [hcells c f hc hf]
    simp [hingeCell, hct]

theorem scoreSpec_after (svm : LinearSVM) (x : List ℚ) (W1 : List ℚ) (b1 : ℚ) (t m c : Nat)
    (hc : c < svm.Classes.length)
    (hcells : ∀ c f, c < svm.Classes.length → f < svm.FeatureDim.toNat →
      W1.getD (c * svm.FeatureDim.toNat + f) 0 = hingeCell svm x t m c f) :
    scoreSpec { svm with Weights := W1, Bias := b1 } x c =
      b1 + ∑ f ∈ Finset.range svm.FeatureDim.toNat, hingeCell svm x t m c f * x.getD f 0 := by
  unfold scoreSpec
  congr 1
  apply Finset.sum_congr rfl
  intro f hf
  show W1.getD (c * svm.FeatureDim.toNat + f) 0 * _ = _
  rw [hcells c f hc (Finset.mem_range.mp hf)]

theorem gap_after (svm : LinearSVM) (x : List ℚ) (t m : Nat) (hmt : m ≠ t) :
    (∑ f ∈ Finset.range svm.FeatureDim.toNat, hingeCell svm x t m t f * x.getD f 0) -
      (∑ f ∈ Finset.range svm.FeatureDim.toNat, hingeCell svm x t m m f * x.getD f 0) =
    (1 - svm.SVMLearningRate * svm.SVMLambda) *
      ((scoreSpec svm x t - scoreSpec svm x m) +
        2 * svm.SVMLearningRate *
          ∑ f ∈ Finset.range svm.FeatureDim.toNat, x.getD f 0 * x.getD f 0) := by
  unfold scoreSpec
  rw [add_sub_add_left_eq_sub, ← Finset.sum_sub_distrib, ← Finset.sum_sub_distrib,
    Finset.mul_sum, ← Finset.sum_add_distrib, Finset.mul_sum]
  apply Finset.sum_congr rfl
  intro f _
  simp only [hingeCell, hmt, if_true, if_false]
  ring

theorem sumsq_pos_of_gap (svm : LinearSVM) (x : List ℚ) (t m : Nat)
    (hgap : scoreSpec svm x t < scoreSpec svm x m) :
    0 < ∑ f ∈ Finset.range svm.FeatureDim.toNat, x.getD f 0 * x.getD f 0 := by
  have hnn : ∀ f ∈ Finset.range svm.FeatureDim.toNat, 0 ≤ x.getD f 0 * x.getD f 0 :=
    fun f _ => mul_self_nonneg _
  rcases (Finset.sum_nonneg hnn).lt_or_eq with h | h
  · exact h
  · exfalso
    have hz := (Finset.sum_eq_zero_iff_of_nonneg hnn).mp h.symm
    have hx0 : ∀ f ∈ Finset.range svm.FeatureDim.toNat, x.getD f 0 = 0 :=
      fun f hf => mul_self_eq_zero.mp (hz f hf)
    have e1 : ∀ c, scoreSpec svm x c = svm.Bias := by
      intro c
      unfold scoreSpec
      rw [Finset.sum_eq_zero (fun f hf => by rw [hx0 f hf, mul_zero]), add_zero]
    rw [e1 t, e1 m] at hgap
    exact lt_irrefl _ hgap

/-- C6 (amended): over exact arithmetic, for a well-formed classifier with `lr > 0`,
`λ >= 0` and `lr*λ <= 1`, and a sample whose true class `t` is strictly outscored by some
class, after the step the score gap `score(x,t) - score(x,m)` to the selected competitor `m`
is strictly greater than before the step. -/
theorem trainStep_gap_increases (svm : LinearSVM) (loss : ℚ) (x : List ℚ) (t : Nat)
    (hwf : WellFormed svm) (ht : t < svm.Classes.length)
    (hx : (x.length : Int) = svm.FeatureDim)
    (hcomp : ∃ c, c < svm.Classes.length ∧ scoreSpec svm x t < scoreSpec svm x c)
    (hlr : 0 < svm.SVMLearningRate) (hlam : 0 ≤ svm.SVMLambda)
    (hdec : svm.SVMLearningRate * svm.SVMLambda ≤ 1) :
    ∃ (m : Nat) (svm1 : LinearSVM) (loss1 : ℚ),
      m ≠ t ∧
      selectMax svm.Classes.length ((List.range svm.Classes.length).map (scoreSpec svm x))
          (t : Int) = .ok (scoreSpec svm x m, (m : Int)) ∧
      trainStep svm loss x (t : Int) = .ok (svm1, loss1) ∧
      scoreSpec svm x t - scoreSpec svm x m < scoreSpec svm1 x t - scoreSpec svm1 x m := by
  obtain ⟨m, W1, hsel, hstep, hm, hmax, hne, hlen, hcells⟩ :=
    trainStep_spec svm loss x t hwf ht (le_of_eq hx.symm)
  have hmt : m ≠ t := by
    rintro rfl
    obtain ⟨c, hc, hlt⟩ := hcomp
    exact absurd (hmax c hc) (not_le.mpr hlt)
  refine ⟨m, _, _, hmt, hsel, hstep, ?_⟩
  rw [scoreSpec_after svm x W1 _ t m t ht hcells, scoreSpec_after svm x W1 _ t m m hm hcells,
    add_sub_add_left_eq_sub, gap_after svm x t m hmt]
  have hgap := (hne hmt).1
  have hS := sumsq_pos_of_gap svm x t m hgap
  have hd0 : 0 ≤ 1 - svm.SVMLearningRate * svm.SVMLambda := by linarith
  have hd1 : 0 ≤ svm.SVMLearningRate * svm.SVMLambda := mul_nonneg (le_of_lt hlr) hlam
  have hB : 0 < 2 * svm.SVMLearningRate *
      ∑ f ∈ Finset.range svm.FeatureDim.toNat, x.getD f 0 * x.getD f 0 :=
    mul_pos (by linarith) hS
  have hA : 0 < scoreSpec svm x m - scoreSpec svm x t := by linarith
  rcases le_total (scoreSpec svm x m - scoreSpec svm x t)
      (2 * svm.SVMLearningRate *
        ∑ f ∈ Finset.range svm.FeatureDim.toNat, x.getD f 0 * x.getD f 0) with h | h
  · nlinarith [mul_nonneg hd0 (sub_nonneg.mpr h), mul_nonneg hd1 (le_of_lt hA)]
  · nlinarith [mul_nonneg hd1 (sub_nonneg.mpr h), mul_nonneg hd0 (le_of_lt hB),
      mul_nonneg hd1 (le_of_lt hB)]

theorem sameConfig_refl (a : LinearSVM) : SameConfig a a :=
  ⟨rfl, rfl, rfl, rfl, rfl, rfl, rfl, rfl⟩

theorem sameConfig_trans {a b c : LinearSVM} (h1 : SameConfig a b) (h2 : SameConfig b c) :
    SameConfig a c := by
  obtain ⟨a1, a2, a3, a4, a5, a6, a7, a8⟩ := h1
  obtain ⟨b1, b2, b3, b4, b5, b6, b7, b8⟩ := h2
  exact ⟨b1.trans a1, b2.trans a2, b3.trans a3, b4.trans a4, b5.trans a5, b6.trans a6,
    b7.trans a7, b8.trans a8⟩

theorem wellFormed_of_sameConfig {a b : LinearSVM} (h : SameConfig a b) (hwf : WellFormed a) :
    WellFormed b := by
  obtain ⟨h1, _, h3, _, _, _, _, h8⟩ := h
  unfold WellFormed at *
  rw [h1, h3, h8]
  exact hwf

theorem trainStep_ok (svm : LinearSVM) (loss : ℚ) (x : List ℚ) (t : Int)
    (hwf : WellFormed svm) (ht0 : 0 ≤ t) (ht : t < (svm.Classes.length : Int))
    (hx : (x.length : Int) = svm.FeatureDim) :
    ∃ svm1 loss1, trainStep svm loss x t = .ok (svm1, loss1) ∧ SameConfig svm svm1 := by
  obtain ⟨n, rfl⟩ := Int.eq_ofNat_of_zero_le ht0
  obtain ⟨m, W1, -, hstep, -, -, -, hlen, -⟩ :=
    trainStep_spec svm loss x n hwf (by exact_mod_cast ht) (le_of_eq hx.symm)
  exact ⟨_, _, hstep, rfl, rfl, rfl, rfl, rfl, rfl, rfl, hlen⟩

theorem epoch_upto (svm : LinearSVM) (X : List (List ℚ)) (yNumeric : List Int)
    (hwf : WellFormed svm) (hv : ValidData svm X yNumeric) (k : Nat) (hk : k ≤ X.length) :
    ∃ svm1 loss1, (List.range k).foldlM (epochBody X yNumeric) (svm, 0) = .ok (svm1, loss1) ∧
      SameConfig svm svm1 := by
  induction k with
  | zero => exact ⟨svm, 0, rfl, sameConfig_refl svm⟩
  | succ k ih =>
    have hk1 : k < X.length := hk
    obtain ⟨svm1, loss1, hfold, hsame⟩ := ih (by omega)
    obtain ⟨hlen, hrows, hlabels⟩ := hv
    have hky : k < yNumeric.length := by omega
    have hxmem : X.getD k [] ∈ X := by
      rw [List.getD_eq_getElem _ _ hk1]; exact List.getElem_mem hk1
    have htmem : yNumeric.getD k 0 ∈ yNumeric := by
      rw [List.getD_eq_getElem _ _ hky]; exact List.getElem_mem hky
    obtain ⟨ht0, ht⟩ := hlabels _ htmem
    obtain ⟨svm2, loss2, hstep, hsame2⟩ :=
      trainStep_ok svm1 loss1 (X.getD k []) (yNumeric.getD k 0) (wellFormed_of_sameConfig hsame hwf) ht0
        (by rw [hsame.1]; exact ht) (by rw [hsame.2.2.1]; exact hrows _ hxmem)
    rw [foldlM_range_succ, hfold]
    simp only [ok_bind, epochBody, index_natCast X k [] hk1, index_natCast yNumeric k 0 hky]
    exact ⟨svm2, loss2, hstep, sameConfig_trans hsame hsame2⟩

theorem runEpoch_ok (svm : LinearSVM) (X : List (List ℚ)) (yNumeric : List Int)
    (hwf : WellFormed svm) (hv : ValidData svm X yNumeric) :
    ∃ svm1 loss1, runEpoch svm X yNumeric = .ok (svm1, loss1) ∧ SameConfig svm svm1 :=
  epoch_upto svm X yNumeric hwf hv _ le_rfl

theorem validData_of_sameConfig {a b : LinearSVM} (h : SameConfig a b) (X : List (List ℚ))
    (yNumeric : List Int) (hv : ValidData a X yNumeric) : ValidData b X yNumeric := by
  obtain ⟨h1, h2, h3⟩ := hv
  refine ⟨h1, ?_, ?_⟩
  · rw [h.2.2.1]; exact h2
  · rw [h.1]; exact h3

theorem stopsAtFrom_cons_succ (prev avg : Loss) (tol : ℚ) (tr : List Loss) (e : Nat) :
    stopsAtFrom prev tol (avg :: tr) (e + 1) = stopsAtFrom avg tol tr e := by
  unfold stopsAtFrom
  cases e with
  | zero => simp
  | succ e => simp

/-- The test of line 125 holds at epoch `e` of a run iff `e >= 1`, both `L_(e-1)` and `L_e`
are finite and `|L_(e-1) - L_e| < tol`. -/
theorem stopsAt_iff (tol : ℚ) (tr : List Loss) (e : Nat) :
    stopsAt tol tr e = true ↔
      1 ≤ e ∧ ∃ p l, tr.getD (e - 1) .nan = .fin p ∧ tr.getD e .nan = .fin l ∧
        |p - l| < tol := by
  unfold stopsAt stopsAtFrom
  cases e with
  | zero => simp [converged]
  | succ e =>
    simp only [Nat.succ_ne_zero, if_false, Nat.add_sub_cancel, Nat.le_add_left, true_and]
    cases h1 : tr.getD e .nan <;> cases h2 : tr.getD (e + 1) .nan <;> simp [converged]

theorem epochLoop_spec (X : List (List ℚ)) (yNumeric : List Int) (n : Nat) :
    ∀ (prev : Loss) (svm : LinearSVM), WellFormed svm → ValidData svm X yNumeric →
      ∃ svmF tr, epochLoop X yNumeric n prev svm = .ok (svmF, tr) ∧ SameConfig svm svmF ∧
        tr.length ≤ n ∧
        iterEpochs X yNumeric tr.length svm = .ok (svmF, tr) ∧
        (∀ e, e + 1 < tr.length → stopsAtFrom prev svm.SVMTolerance tr e = false) ∧
        (tr.length < n →
          1 ≤ tr.length ∧ stopsAtFrom prev svm.SVMTolerance tr (tr.length - 1) = true) := by
  induction n with
  | zero =>
    intro prev svm _ _
    exact ⟨svm, [], rfl, sameConfig_refl svm, le_rfl, rfl, by intro e he; simp at he,
      by intro h; simp at h⟩
  | succ n ih =>
    intro prev svm hwf hv
    obtain ⟨svm1, loss, hrun, hsame⟩ := runEpoch_ok svm X yNumeric hwf hv
    have htol : svm1.SVMTolerance = svm.SVMTolerance := hsame.2.2.2.2.2.1
    by_cases hconv : converged prev (average loss X.length) svm.SVMTolerance = true
    · refine ⟨svm1, [average loss X.length], ?_, hsame, by simp, ?_, ?_, ?_⟩
      · simp only [epochLoop, hrun, htol, hconv, if_true]
      · simp only [List.length_singleton, iterEpochs, hrun]
      · intro e he; simp at he
      · intro _
        refine ⟨le_rfl, ?_⟩
        simpa [stopsAtFrom] using hconv
    · obtain ⟨svmF, tr, hloop, hsame2, hlen, hiter, hno, hstop⟩ :=
        ih (average loss X.length) svm1 (wellFormed_of_sameConfig hsame hwf)
          (validData_of_sameConfig hsame X yNumeric hv)
      rw [htol] at hno hstop
      refine ⟨svmF, average loss X.length :: tr, ?_, sameConfig_trans hsame hsame2, by simpa using hlen,
        ?_, ?_, ?_⟩
      · simp only [epochLoop, hrun, htol, hconv, hloop]
        simp
      · simp only [List.length_cons, iterEpochs, hrun, hiter]
      · intro e he
        cases e with
        | zero => simpa [stopsAtFrom] using hconv
        | succ e =>
          rw [stopsAtFrom_cons_succ]
          exact hno e (by simpa using he)
      · intro hlt
        simp only [List.length_cons] at hlt
        obtain ⟨h1, h2⟩ := hstop (by omega)
        refine ⟨by simp, ?_⟩
        simp only [List.length_cons, Nat.add_sub_cancel]
        obtain ⟨k, hk⟩ : ∃ k, tr.length = k + 1 := ⟨tr.length - 1, by omega⟩
        rw [hk] at h2 ⊢
        rw [stopsAtFrom_cons_succ]
        simpa using h2

/-- C8: convergence rule of `Train`, with `L_e` the `e`-th entry of the trace `tr` of
per-epoch average losses.  On a well-formed classifier and data meeting the caller contract,
`Train` returns after `k = len(tr) <= SVMEpochs` epochs in exactly the state the first `k`
epochs produce, with no update after them; at no epoch `e >= 1` before the last executed one
are `L_(e-1)` and `L_e` numbers with `|L_(e-1) - L_e| < SVMTolerance`; if `k < SVMEpochs`
(an early stop) then `k >= 2`, so the stop is not at epoch 0, and at the last executed epoch
`k-1` the losses `L_(k-2)`, `L_(k-1)` are numbers with `|L_(k-2) - L_(k-1)| < SVMTolerance`;
so without such an epoch exactly `SVMEpochs` epochs run; and with `SVMEpochs >= 2` the
epochs 0 and 1 are both executed. -/
theorem Train_convergence_rule (svm : LinearSVM) (X : List (List ℚ)) (y : List String)
    (rnd : Nat → ℚ) (hwf : WellFormed svm) (hv : ValidData svm X (toNumeric svm y)) :
    ∃ svmF tr, TrainTrace svm X y rnd = .ok (svmF, tr) ∧
      Train svm X y rnd = .ok svmF ∧
      tr.length ≤ svm.SVMEpochs.toNat ∧
      iterEpochs X (toNumeric svm y) tr.length
        { svm with Weights := initWeights svm.Weights rnd } = .ok (svmF, tr) ∧
      (∀ e, 1 ≤ e → e + 1 < tr.length →
        ¬ ∃ p l, tr.getD (e - 1) .nan = .fin p ∧ tr.getD e .nan = .fin l ∧
          |p - l| < svm.SVMTolerance) ∧
      (tr.length < svm.SVMEpochs.toNat →
        2 ≤ tr.length ∧
        ∃ p l, tr.getD (tr.length - 2) .nan = .fin p ∧
          tr.getD (tr.length - 1) .nan = .fin l ∧ |p - l| < svm.SVMTolerance) ∧
      (tr.length = svm.SVMEpochs.toNat ∨
        ∃ p l, tr.getD (tr.length - 2) .nan = .fin p ∧
          tr.getD (tr.length - 1) .nan = .fin l ∧ |p - l| < svm.SVMTolerance) ∧
      (2 ≤ svm.SVMEpochs → 2 ≤ tr.length) := by
  have hwf0 : WellFormed { svm with Weights := initWeights svm.Weights rnd } := by
    refine ⟨hwf.1, ?_⟩
    show ((initWeights svm.Weights rnd).length : Int) = _
    simp only [initWeights, List.length_map, List.length_range]
    exact hwf.2
  obtain ⟨svmF, tr, hloop, -, hlen, hiter, hno, hstop⟩ :=
    epochLoop_spec X (toNumeric svm y) svm.SVMEpochs.toNat .posInf
      { svm with Weights := initWeights svm.Weights rnd } hwf0 hv
  have hlast : tr.length < svm.SVMEpochs.toNat →
      2 ≤ tr.length ∧
      ∃ p l, tr.getD (tr.length - 2) .nan = .fin p ∧
        tr.getD (tr.length - 1) .nan = .fin l ∧ |p - l| < svm.SVMTolerance := by
    intro hlt
    obtain ⟨h1, h2⟩ := hstop hlt
    obtain ⟨he, p, l, hp, hl, hpl⟩ := (stopsAt_iff svm.SVMTolerance tr (tr.length - 1)).mp h2
    have h2len : 2 ≤ tr.length := by omega
    have hidx : tr.length - 1 - 1 = tr.length - 2 := by omega
    rw [hidx] at hp
    exact ⟨h2len, p, l, hp, hl, hpl⟩
  have hT : TrainTrace svm X y rnd = .ok (svmF, tr) := hloop
  refine ⟨svmF, tr, hT, ?_, hlen, hiter, ?_, hlast, ?_, ?_⟩
  · simp only [Train, hT]
  · intro e he1 he hex
    have hfalse := hno e he
    have htrue : stopsAt svm.SVMTolerance tr e = true :=
      (stopsAt_iff svm.SVMTolerance tr e).mpr ⟨he1, hex⟩
    simp only [stopsAt] at htrue
    rw [hfalse] at htrue
    cases htrue
  · by_cases hlt : tr.length < svm.SVMEpochs.toNat
    · exact Or.inr (hlast hlt).2
    · exact Or.inl (by omega)
  · intro h2
    by_cases hlt : tr.length < svm.SVMEpochs.toNat
    · exact (hlast hlt).1
    · omega

/-- C6 (as stated) fails: (1) on `sampleSVM`, sample `[1]` with true class 1, no class
outscores the true class, the `margin > 0` branch runs with `bestIdx == t` and the gap to
the selected class is 0 before and after; (2) on `steepSVM` (`lr*λ = 3`), sample `[1]` with
true class 0, class 1 is a real competitor and the gap drops from `-1` to `-2`; (3) in
binary64, on `absorbSVM` (weights `[2^53, 2^54]`, `lr = 1 > 0`, `λ = 0`), sample `[1]` with
true class 0, class 1 is a real competitor, but the updates `2^53 + 1` and `2^54 - 1` are
absorbed by rounding and the recomputed scores, hence the gap, are the same as before. -/
theorem trainStep_gap_counterexample :
    (selectMax 2 [scoreSpec sampleSVM [1] 0, scoreSpec sampleSVM [1] 1] 1 = .ok (1, 1) ∧
      trainStep sampleSVM 0 [1] 1 =
        .ok ({ sampleSVM with Weights := [0, 998001 / 1000000], Bias := 999 / 10000 }, 1) ∧
      ¬ (scoreSpec sampleSVM [1] 1 - scoreSpec sampleSVM [1] 1 <
          scoreSpec { sampleSVM with Weights := [0, 998001 / 1000000], Bias := 999 / 10000 }
              [1] 1 -
            scoreSpec { sampleSVM with Weights := [0, 998001 / 1000000], Bias := 999 / 10000 }
              [1] 1)) ∧
    (selectMax 2 [scoreSpec steepSVM [1] 0, scoreSpec steepSVM [1] 1] 0 = .ok (1, 1) ∧
      trainStep steepSVM 0 [1] 0 =
        .ok ({ steepSVM with Weights := [-2, 0], Bias := -2 }, 2) ∧
      ¬ (scoreSpec steepSVM [1] 0 - scoreSpec steepSVM [1] 1 <
          scoreSpec { steepSVM with Weights := [-2, 0], Bias := -2 } [1] 0 -
            scoreSpec { steepSVM with Weights := [-2, 0], Bias := -2 } [1] 1)) ∧
    (F64.lt (F64.lit 0 1) absorbSVM.SVMLearningRate = true ∧
      absorbSVM.SVMLambda = F64.lit 0 1 ∧
      computeScores64 absorbSVM [F64.lit 1 1] =
        .ok [F64.lit (2 ^ 53) 1, F64.lit (2 ^ 54) 1] ∧
      selectMax64 2 [F64.lit (2 ^ 53) 1, F64.lit (2 ^ 54) 1] 0 =
        .ok (F64.lit (2 ^ 54) 1, 1) ∧
      scoresAfter64 (trainStep64 absorbSVM (F64.lit 0 1) [F64.lit 1 1] 0) [F64.lit 1 1] =
        .ok [F64.lit (2 ^ 53) 1, F64.lit (2 ^ 54) 1]) := by
  refine ⟨⟨?_, ?_, ?_⟩, ⟨?_, ?_, ?_⟩, by decide!⟩
  · simp [selectMax, selectBody, index, scoreSpec, weightAt, sampleSVM, List.range_succ,
      Finset.sum_range_succ]
    norm_num
  · simp [trainStep, computeScores, scoresBody, score, scoreBody, selectMax, selectBody,
      hingeLoop, hingeBody, assignOp, index, sampleSVM, List.range_succ]
    norm_num
  · simp
  · simp [selectMax, selectBody, index, scoreSpec, weightAt, sampleSVM, steepSVM,
      List.range_succ, Finset.sum_range_succ]
  · simp [trainStep, computeScores, scoresBody, score, scoreBody, selectMax, selectBody,
      hingeLoop, hingeBody, assignOp, index, sampleSVM, steepSVM, List.range_succ]
    norm_num
  · simp [scoreSpec, weightAt, sampleSVM, steepSVM, Finset.sum_range_succ]

/-- C7 fails on the code: on `marginSVM` and the sample `[1]` with true class 0, the true
class outscores the only other class by `3/2 >= 1`, so the glossary's hinge loss
`max(0, score(competitor) - score(true) + 1)` is 0; yet the step adds 1 to the loss and
runs the `margin > 0` update (bias moved by `lr`, row 0 decayed twice, row 1 untouched)
instead of the decay-only update, whose weights would be `decayLoop marginSVM`. -/
theorem trainStep_satisfied_margin_still_hinge :
    scoreSpec marginSVM [1] 1 + 1 ≤ scoreSpec marginSVM [1] 0 ∧
    max 0 (scoreSpec marginSVM [1] 1 - scoreSpec marginSVM [1] 0 + 1) = 0 ∧
    trainStep marginSVM 0 [1] 0 =
      .ok ({ marginSVM with Weights := [998001 / 500000, 1 / 2], Bias := 999 / 10000 }, 1) ∧
    decayLoop marginSVM = .ok [999 / 500, 999 / 2000] := by
  refine ⟨?_, ?_, ?_, ?_⟩
  · simp [scoreSpec, weightAt, marginSVM, sampleSVM, Finset.sum_range_succ]
    norm_num
  · simp [scoreSpec, weightAt, marginSVM, sampleSVM, Finset.sum_range_succ]
    norm_num
  · simp [trainStep, computeScores, scoresBody, score, scoreBody, selectMax, selectBody,
      hingeLoop, hingeBody, assignOp, index, marginSVM, sampleSVM, List.range_succ]
    norm_num
  · simp [decayLoop, decayBody, decayCell, assignOp, index, marginSVM, sampleSVM,
      List.range_succ]
    norm_num

theorem scenario_wellFormed {s : LinearSVM} (h : Scenario s) : WellFormed s := by
  obtain ⟨h1, h2, -, -, h5⟩ := h
  unfold WellFormed
  rw [h1, h2, h5]
  decide

theorem scenario_score_pos {s : LinearSVM} (h : Scenario s) (c : Nat) :
    scoreSpec s [1, 1] c = s.Bias + rowSum s c := by
  obtain ⟨-, h2, -, -, -⟩ := h
  simp [scoreSpec, rowSum, h2, Finset.sum_range_succ]

theorem scenario_score_neg {s : LinearSVM} (h : Scenario s) (c : Nat) :
    scoreSpec s [-1, -1] c = s.Bias - rowSum s c := by
  obtain ⟨-, h2, -, -, -⟩ := h
  simp [scoreSpec, rowSum, h2, Finset.sum_range_succ]
  ring

theorem scenario_step (s : LinearSVM) (loss : ℚ) (x : List ℚ) (t : Nat) (h : Scenario s)
    (hx : x.length = 2) (ht : t < 2) :
    ∃ (m : Nat) (s1 : LinearSVM) (loss1 : ℚ),
      trainStep s loss x (t : Int) = .ok (s1, loss1) ∧ Scenario s1 ∧ m < 2 ∧
      (m ≠ t → scoreSpec s x t < scoreSpec s x m) ∧
      (m = t → ∀ c, c < 2 → scoreSpec s x c ≤ scoreSpec s x t) ∧
      ∀ c, c < 2 → rowSum s1 c = hingeCell s x t m c 0 + hingeCell s x t m c 1 := by
  have hwf := scenario_wellFormed h
  obtain ⟨h1, h2, h3, h4, h5⟩ := h
  have hnc : s.Classes.length = 2 := by rw [h1]; rfl
  obtain ⟨m, W1, -, hstep, hm, hmax, hne, hlen, hcells⟩ :=
    trainStep_spec s loss x t hwf (by omega) (by rw [h2, hx]; norm_num)
  refine ⟨m, _, _, hstep, ⟨h1, h2, h3, h4, by rw [← h5]; exact hlen⟩, by omega,
    fun hmt => (hne hmt).1, ?_, ?_⟩
  · rintro rfl c hc
    exact hmax c (by omega)
  · intro c hc
    have e0 := hcells c 0 (by omega) (by rw [h2]; decide)
    have e1 := hcells c 1 (by omega) (by rw [h2]; decide)
    simp only [rowSum, weightAt]
    rw [e0, e1]

theorem scenario_step_pos (s : LinearSVM) (loss : ℚ) (h : Scenario s) :
    ∃ (s1 : LinearSVM) (loss1 : ℚ),
      trainStep s loss [1, 1] 0 = .ok (s1, loss1) ∧ Scenario s1 ∧
      ((rowSum s 0 < rowSum s 1 ∧ rowSum s1 0 = 999 / 1000 * (rowSum s 0 + 1 / 5) ∧
          rowSum s1 1 = 999 / 1000 * (rowSum s 1 - 1 / 5)) ∨
        (rowSum s 1 ≤ rowSum s 0 ∧ rowSum s1 0 = (999 / 1000) ^ 2 * rowSum s 0 ∧
          rowSum s1 1 = rowSum s 1)) := by
  obtain ⟨m, s1, loss1, hstep, hs1, hm, hne, heq, hrows⟩ :=
    scenario_step s loss [1, 1] 0 h rfl (by decide)
  refine ⟨s1, loss1, by simpa using hstep, hs1, ?_⟩
  have r0 := hrows 0 (by decide)
  have r1 := hrows 1 (by decide)
  have h3 := h.2.2.1
  have h4 := h.2.2.2.1
  have hm2 : m = 0 ∨ m = 1 := by omega
  rcases hm2 with rfl | rfl
  · right
    have := heq rfl 1 (by decide)
    rw [scenario_score_pos h, scenario_score_pos h] at this
    refine ⟨by linarith, ?_, ?_⟩
    · rw [r0]; simp only [hingeCell, h3, h4, rowSum]; norm_num; ring
    · rw [r1]; simp [hingeCell, rowSum]
  · left
    have := hne (by decide)
    rw [scenario_score_pos h, scenario_score_pos h] at this
    refine ⟨by linarith, ?_, ?_⟩
    · rw [r0]; simp only [hingeCell, h3, h4, rowSum]; norm_num; ring
    · rw [r1]; simp only [hingeCell, h3, h4, rowSum]; norm_num; ring

theorem scenario_step_neg (s : LinearSVM) (loss : ℚ) (h : Scenario s) :
    ∃ (s1 : LinearSVM) (loss1 : ℚ),
      trainStep s loss [-1, -1] 1 = .ok (s1, loss1) ∧ Scenario s1 ∧
      ((rowSum s 0 < rowSum s 1 ∧ rowSum s1 0 = 999 / 1000 * (rowSum s 0 + 1 / 5) ∧
          rowSum s1 1 = 999 / 1000 * (rowSum s 1 - 1 / 5)) ∨
        (rowSum s 1 ≤ rowSum s 0 ∧ rowSum s1 0 = rowSum s 0 ∧
          rowSum s1 1 = (999 / 1000) ^ 2 * rowSum s 1)) := by
  obtain ⟨m, s1, loss1, hstep, hs1, hm, hne, heq, hrows⟩ :=
    scenario_step s loss [-1, -1] 1 h rfl (by decide)
  refine ⟨s1, loss1, by simpa using hstep, hs1, ?_⟩
  have r0 := hrows 0 (by decide)
  have r1 := hrows 1 (by decide)
  have h3 := h.2.2.1
  have h4 := h.2.2.2.1
  have hm2 : m = 0 ∨ m = 1 := by omega
  rcases hm2 with rfl | rfl
  · left
    have := hne (by decide)
    rw [scenario_score_neg h, scenario_score_neg h] at this
    refine ⟨by linarith, ?_, ?_⟩
    · rw [r0]; simp only [hingeCell, h3, h4, rowSum]; norm_num; ring
    · rw [r1]; simp only [hingeCell, h3, h4, rowSum]; norm_num; ring
  · right
    have := heq rfl 0 (by decide)
    rw [scenario_score_neg h, scenario_score_neg h] at this
    refine ⟨by linarith, ?_, ?_⟩
    · rw [r0]; simp [hingeCell, rowSum]
    · rw [r1]; simp only [hingeCell, h3, h4, rowSum]; norm_num; ring

theorem scenario_epoch (s : LinearSVM) (h : Scenario s) :
    ∃ (s1 s2 : LinearSVM) (loss2 : ℚ),
      runEpoch s [[1, 1], [-1, -1]] [0, 1] = .ok (s2, loss2) ∧ Scenario s2 ∧
      ((rowSum s 0 < rowSum s 1 ∧ rowSum s1 0 = 999 / 1000 * (rowSum s 0 + 1 / 5) ∧
          rowSum s1 1 = 999 / 1000 * (rowSum s 1 - 1 / 5)) ∨
        (rowSum s 1 ≤ rowSum s 0 ∧ rowSum s1 0 = (999 / 1000) ^ 2 * rowSum s 0 ∧
          rowSum s1 1 = rowSum s 1)) ∧
      ((rowSum s1 0 < rowSum s1 1 ∧ rowSum s2 0 = 999 / 1000 * (rowSum s1 0 + 1 / 5) ∧
          rowSum s2 1 = 999 / 1000 * (rowSum s1 1 - 1 / 5)) ∨
        (rowSum s1 1 ≤ rowSum s1 0 ∧ rowSum s2 0 = rowSum s1 0 ∧
          rowSum s2 1 = (999 / 1000) ^ 2 * rowSum s1 1)) := by
  obtain ⟨s1, l1, hstep1, hs1, hr1⟩ := scenario_step_pos s 0 h
  obtain ⟨s2, l2, hstep2, hs2, hr2⟩ := scenario_step_neg s1 l1 hs1
  refine ⟨s1, s2, l2, ?_, hs2, hr1, hr2⟩
  simp [runEpoch, List.range_succ, epochBody, index, hstep1, hstep2]

theorem scenario_epoch_gap (s : LinearSVM) (h : Scenario s)
    (hgap : rowSum s 1 < rowSum s 0) (hle : rowSum s 0 ≤ 100) :
    ∃ (s2 : LinearSVM) (loss2 : ℚ),
      runEpoch s [[1, 1], [-1, -1]] [0, 1] = .ok (s2, loss2) ∧ Scenario s2 ∧
      rowSum s2 1 < rowSum s2 0 ∧ rowSum s2 0 ≤ 100 := by
  obtain ⟨s1, s2, l2, hrun, hs2, hr1, hr2⟩ := scenario_epoch s h
  refine ⟨s2, l2, hrun, hs2, ?_⟩
  norm_num at hr1 hr2
  rcases hr1 with ⟨a, b, c⟩ | ⟨a, b, c⟩ <;> rcases hr2 with ⟨d, e, f⟩ | ⟨d, e, f⟩ <;>
    constructor <;> linarith

theorem scenario_epoch_first (s : LinearSVM) (h : Scenario s)
    (hA : |rowSum s 0| ≤ 1 / 50) (hB : |rowSum s 1| ≤ 1 / 50)
    (hne : ¬ (rowSum s 0 = rowSum s 1 ∧ rowSum s 0 ≤ 0)) :
    ∃ (s2 : LinearSVM) (loss2 : ℚ),
      runEpoch s [[1, 1], [-1, -1]] [0, 1] = .ok (s2, loss2) ∧ Scenario s2 ∧
      rowSum s2 1 < rowSum s2 0 ∧ rowSum s2 0 ≤ 100 := by
  obtain ⟨s1, s2, l2, hrun, hs2, hr1, hr2⟩ := scenario_epoch s h
  refine ⟨s2, l2, hrun, hs2, ?_⟩
  obtain ⟨hA1, hA2⟩ := abs_le.mp hA
  obtain ⟨hB1, hB2⟩ := abs_le.mp hB
  norm_num at hr1 hr2
  rcases hr1 with ⟨a, b, c⟩ | ⟨a, b, c⟩ <;> rcases hr2 with ⟨d, e, f⟩ | ⟨d, e, f⟩
  · constructor <;> linarith
  · constructor <;> linarith
  · constructor <;> linarith
  · have hlt : rowSum s 1 < rowSum s 0 := by
      rcases a.lt_or_eq with h1 | h1
      · exact h1
      · exfalso
        apply hne
        refine ⟨h1.symm, ?_⟩
        linarith
    constructor <;> linarith

theorem scenario_epoch_tie (s : LinearSVM) (h : Scenario s)
    (htie : rowSum s 0 = rowSum s 1) (hle : rowSum s 0 ≤ 0) :
    ∃ (s2 : LinearSVM) (loss2 : ℚ),
      runEpoch s [[1, 1], [-1, -1]] [0, 1] = .ok (s2, loss2) ∧ Scenario s2 ∧
      rowSum s2 0 = rowSum s2 1 ∧ rowSum s2 0 ≤ 0 := by
  obtain ⟨s1, s2, l2, hrun, hs2, hr1, hr2⟩ := scenario_epoch s h
  refine ⟨s2, l2, hrun, hs2, ?_⟩
  norm_num at hr1 hr2
  rcases hr1 with ⟨a, b, c⟩ | ⟨a, b, c⟩ <;> rcases hr2 with ⟨d, e, f⟩ | ⟨d, e, f⟩ <;>
    constructor <;> linarith

theorem epochLoop_invariant (X : List (List ℚ)) (yNumeric : List Int)
    (P : LinearSVM → Prop)
    (hP : ∀ s, P s → ∃ s1 l1, runEpoch s X yNumeric = .ok (s1, l1) ∧ P s1) (n : Nat) :
    ∀ (prev : Loss) (s : LinearSVM), P s →
      ∃ sF tr, epochLoop X yNumeric n prev s = .ok (sF, tr) ∧ P sF := by
  induction n with
  | zero => intro prev s hs; exact ⟨s, [], rfl, hs⟩
  | succ n ih =>
    intro prev s hs
    obtain ⟨s1, l1, hrun, hs1⟩ := hP s hs
    by_cases hconv : converged prev (average l1 X.length) s1.SVMTolerance = true
    · exact ⟨s1, [average l1 X.length], by simp only [epochLoop, hrun, hconv, if_true], hs1⟩
    · obtain ⟨sF, tr, hloop, hsF⟩ := ih (average l1 X.length) s1 hs1
      exact ⟨sF, average l1 X.length :: tr,
        by simp only [epochLoop, hrun, hconv, hloop]; simp, hsF⟩

theorem epochLoop_establishes (X : List (List ℚ)) (yNumeric : List Int)
    (P Q : LinearSVM → Prop)
    (hQ : ∀ s, Q s → ∃ s1 l1, runEpoch s X yNumeric = .ok (s1, l1) ∧ P s1)
    (hP : ∀ s, P s → ∃ s1 l1, runEpoch s X yNumeric = .ok (s1, l1) ∧ P s1) (n : Nat)
    (prev : Loss) (s : LinearSVM) (hs : Q s) :
    ∃ sF tr, epochLoop X yNumeric (n + 1) prev s = .ok (sF, tr) ∧ P sF := by
  obtain ⟨s1, l1, hrun, hs1⟩ := hQ s hs
  by_cases hconv : converged prev (average l1 X.length) s1.SVMTolerance = true
  · exact ⟨s1, [average l1 X.length], by simp only [epochLoop, hrun, hconv, if_true], hs1⟩
  · obtain ⟨sF, tr, hloop, hsF⟩ :=
      epochLoop_invariant X yNumeric P hP n (average l1 X.length) s1 hs1
    exact ⟨sF, average l1 X.length :: tr,
        by simp only [epochLoop, hrun, hconv, hloop]; simp, hsF⟩

theorem scenario_predict (s : LinearSVM) (h : Scenario s) (x : List ℚ) (hx : x.length = 2) :
    ∃ c, c < 2 ∧ Predict s x = .ok (["A", "B"].getD c "") ∧
      (∀ c1, c1 < 2 → scoreSpec s x c1 ≤ scoreSpec s x c) ∧
      (∀ c1, c1 < c → scoreSpec s x c1 < scoreSpec s x c) := by
  have hwf := scenario_wellFormed h
  obtain ⟨h1, h2, -, -, -⟩ := h
  have hnc : s.Classes.length = 2 := by rw [h1]; rfl
  obtain ⟨acc, hacc, hinv⟩ :=
    predict_upto s x hwf (by rw [h2, hx]; norm_num) s.Classes.length le_rfl
  rcases hinv with ⟨h0, _⟩ | ⟨c, hc, rfl, hmax, hfirst⟩
  · omega
  · refine ⟨c, by omega, ?_, fun c1 hc1 => hmax c1 (by omega), hfirst⟩
    simp only [Predict, hacc]
    rw [h1]

theorem scenario_predict_pos (s : LinearSVM) (h : Scenario s)
    (hle : rowSum s 1 ≤ rowSum s 0) : Predict s [1, 1] = .ok "A" := by
  obtain ⟨c, hc, hp, -, hfirst⟩ := scenario_predict s h [1, 1] rfl
  have hc2 : c = 0 ∨ c = 1 := by omega
  rcases hc2 with rfl | rfl
  · simpa using hp
  · exfalso
    have := hfirst 0 (by decide)
    rw [scenario_score_pos h, scenario_score_pos h] at this
    linarith

theorem scenario_predict_neg (s : LinearSVM) (h : Scenario s) :
    (rowSum s 1 < rowSum s 0 → Predict s [-1, -1] = .ok "B") ∧
      (rowSum s 0 = rowSum s 1 → Predict s [-1, -1] = .ok "A") := by
  obtain ⟨c, hc, hp, hmax, hfirst⟩ := scenario_predict s h [-1, -1] rfl
  have hc2 : c = 0 ∨ c = 1 := by omega
  constructor
  · intro hlt
    rcases hc2 with rfl | rfl
    · exfalso
      have := hmax 1 (by decide)
      rw [scenario_score_neg h, scenario_score_neg h] at this
      linarith
    · simpa using hp
  · intro heq
    rcases hc2 with rfl | rfl
    · simpa using hp
    · exfalso
      have := hfirst 0 (by decide)
      rw [scenario_score_neg h, scenario_score_neg h] at this
      linarith

theorem scenarioStart_rows (rnd : Nat → ℚ) :
    Scenario (scenarioStart rnd) ∧
      rowSum (scenarioStart rnd) 0 = 1 / 100 * (2 * rnd 0 - 1) + 1 / 100 * (2 * rnd 1 - 1) ∧
      rowSum (scenarioStart rnd) 1 = 1 / 100 * (2 * rnd 2 - 1) + 1 / 100 * (2 * rnd 3 - 1) := by
  refine ⟨⟨rfl, rfl, rfl, rfl, by simp [scenarioStart, initWeights]⟩, ?_, ?_⟩
  · simp [rowSum, weightAt, scenarioStart, initWeights, List.range_succ]
  · simp [rowSum, weightAt, scenarioStart, initWeights, List.range_succ]

theorem scenario_toNumeric (rnd : Nat → ℚ) :
    toNumeric (scenarioStart rnd) ["A", "B"] = [0, 1] := by
  simp [toNumeric, mapLookup, scenarioStart, buildClassMap, mapInsert, List.enum]

theorem scenario_train_core (rnd : Nat → ℚ) (hr : ∀ i, 0 ≤ rnd i ∧ rnd i ≤ 1) :
    ∃ svm0 svm1,
      NewLinearSVM ["A", "B"] 2 (1 / 10) (1 / 100) (1 / 1000000) 200 = .ok svm0 ∧
      { svm0 with Weights := initWeights svm0.Weights rnd } = scenarioStart rnd ∧
      Train svm0 [[1, 1], [-1, -1]] ["A", "B"] rnd = .ok svm1 ∧
      Scenario svm1 ∧
      (¬ (rowSum (scenarioStart rnd) 0 = rowSum (scenarioStart rnd) 1 ∧
            rowSum (scenarioStart rnd) 0 ≤ 0) →
        rowSum svm1 1 < rowSum svm1 0) ∧
      (rowSum (scenarioStart rnd) 0 = rowSum (scenarioStart rnd) 1 ∧
            rowSum (scenarioStart rnd) 0 ≤ 0 →
        rowSum svm1 0 = rowSum svm1 1) := by
  obtain ⟨hscen, hrow0, hrow1⟩ := scenarioStart_rows rnd
  have hA : |rowSum (scenarioStart rnd) 0| ≤ 1 / 50 := by
    rw [hrow0, abs_le]
    constructor <;> linarith [(hr 0).1, (hr 0).2, (hr 1).1, (hr 1).2]
  have hB : |rowSum (scenarioStart rnd) 1| ≤ 1 / 50 := by
    rw [hrow1, abs_le]
    constructor <;> linarith [(hr 2).1, (hr 2).2, (hr 3).1, (hr 3).2]
  have hnew := NewLinearSVM_ok ["A", "B"] 2 (1 / 10) (1 / 100) (1 / 1000000) 200 (by norm_num)
  have htrain : ∀ svmF tr,
      epochLoop [[1, 1], [-1, -1]] [0, 1] (199 + 1) .posInf (scenarioStart rnd)
        = .ok (svmF, tr) →
      Train
        { Weights := List.replicate (2 * ((["A", "B"] : List String).length : Int)).toNat 0
          Bias := 0
          Classes := ["A", "B"]
          ClassMap := buildClassMap ["A", "B"]
          FeatureDim := 2
          SVMEpochs := 200
          SVMLearningRate := 1 / 10
          SVMLambda := 1 / 100
          SVMTolerance := 1 / 1000000 } [[1, 1], [-1, -1]] ["A", "B"] rnd = .ok svmF := by
    intro svmF tr hloop
    have hnum := scenario_toNumeric rnd
    simp only [Train, TrainTrace]
    have e : toNumeric
        { Weights := List.replicate (2 * ((["A", "B"] : List String).length : Int)).toNat 0
          Bias := 0
          Classes := ["A", "B"]
          ClassMap := buildClassMap ["A", "B"]
          FeatureDim := 2
          SVMEpochs := 200
          SVMLearningRate := 1 / 10
          SVMLambda := 1 / 100
          SVMTolerance := 1 / 1000000 } ["A", "B"] = [0, 1] := hnum
    rw [e]
    have e2 : epochLoop [[1, 1], [-1, -1]] [0, 1] (Int.toNat 200) .posInf
        { Weights := initWeights
            (List.replicate (2 * ((["A", "B"] : List String).length : Int)).toNat 0) rnd
          Bias := 0
          Classes := ["A", "B"]
          ClassMap := buildClassMap ["A", "B"]
          FeatureDim := 2
          SVMEpochs := 200
          SVMLearningRate := 1 / 10
          SVMLambda := 1 / 100
          SVMTolerance := 1 / 1000000 } = .ok (svmF, tr) := hloop
    rw [e2]
  by_cases htie : rowSum (scenarioStart rnd) 0 = rowSum (scenarioStart rnd) 1 ∧
      rowSum (scenarioStart rnd) 0 ≤ 0
  · obtain ⟨svmF, tr, hloop, hsF, hFtie, -⟩ :=
      epochLoop_invariant [[1, 1], [-1, -1]] [0, 1]
        (fun s => Scenario s ∧ rowSum s 0 = rowSum s 1 ∧ rowSum s 0 ≤ 0)
        (fun s hs => by
          obtain ⟨s2, l2, h1, h2, h3, h4⟩ := scenario_epoch_tie s hs.1 hs.2.1 hs.2.2
          exact ⟨s2, l2, h1, h2, h3, h4⟩)
        (199 + 1) .posInf (scenarioStart rnd) ⟨hscen, htie.1, htie.2⟩
    exact ⟨_, svmF, hnew, rfl, htrain svmF tr hloop, hsF, fun hn => absurd htie hn,
      fun _ => hFtie⟩
  · obtain ⟨svmF, tr, hloop, hsF, hFgap, -⟩ :=
      epochLoop_establishes [[1, 1], [-1, -1]] [0, 1]
        (fun s => Scenario s ∧ rowSum s 1 < rowSum s 0 ∧ rowSum s 0 ≤ 100)
        (fun s => Scenario s ∧ |rowSum s 0| ≤ 1 / 50 ∧ |rowSum s 1| ≤ 1 / 50 ∧
          ¬ (rowSum s 0 = rowSum s 1 ∧ rowSum s 0 ≤ 0))
        (fun s hs => by
          obtain ⟨s2, l2, h1, h2, h3, h4⟩ :=
            scenario_epoch_first s hs.1 hs.2.1 hs.2.2.1 hs.2.2.2
          exact ⟨s2, l2, h1, h2, h3, h4⟩)
        (fun s hs => by
          obtain ⟨s2, l2, h1, h2, h3, h4⟩ := scenario_epoch_gap s hs.1 hs.2.1 hs.2.2
          exact ⟨s2, l2, h1, h2, h3, h4⟩)
        199 .posInf (scenarioStart rnd) ⟨hscen, hA, hB, htie⟩
    exact ⟨_, svmF, hnew, rfl, htrain svmF tr hloop, hsF, fun _ => hFgap,
      fun ht => absurd ht htie⟩

/-- The end-to-end scenario of C3 over exact arithmetic: for every initialisation with
draws in `[0,1]` (weights in `[-0.01, 0.01]`), `Train` returns and afterwards
`Predict([1,1])` returns `"A"`; and `Predict([-1,-1])` returns `"B"` provided the two rows of
the initial weight matrix (`scenarioStart rnd`, the state after the initialisation loop) do
not have the same sum with that sum `<= 0`. -/
theorem Train_scenario (rnd : Nat → ℚ) (hr : ∀ i, 0 ≤ rnd i ∧ rnd i ≤ 1) :
    ∃ svm0 svm1,
      NewLinearSVM ["A", "B"] 2 (1 / 10) (1 / 100) (1 / 1000000) 200 = .ok svm0 ∧
      { svm0 with Weights := initWeights svm0.Weights rnd } = scenarioStart rnd ∧
      Train svm0 [[1, 1], [-1, -1]] ["A", "B"] rnd = .ok svm1 ∧
      Predict svm1 [1, 1] = .ok "A" ∧
      (¬ (rowSum (scenarioStart rnd) 0 = rowSum (scenarioStart rnd) 1 ∧
            rowSum (scenarioStart rnd) 0 ≤ 0) →
        Predict svm1 [-1, -1] = .ok "B") := by
  obtain ⟨svm0, svm1, hnew, hstart, htrain, hscen, hgap, htie⟩ := scenario_train_core rnd hr
  have hle : rowSum svm1 1 ≤ rowSum svm1 0 := by
    by_cases h : rowSum (scenarioStart rnd) 0 = rowSum (scenarioStart rnd) 1 ∧
        rowSum (scenarioStart rnd) 0 ≤ 0
    · exact le_of_eq (htie h).symm
    · exact le_of_lt (hgap h)
  refine ⟨svm0, svm1, hnew, hstart, htrain, scenario_predict_pos svm1 hscen hle, ?_⟩
  intro h
  exact (scenario_predict_neg svm1 hscen).1 (hgap h)

/-- The end-to-end scenario of C3 over exact arithmetic with every draw `1/2`: all four
initial weights are `0` (both row sums are `0`), and after training `Predict([-1,-1])`
returns `"A"`, not `"B"`. -/
theorem Train_scenario_counterexample :
    (∀ i : Nat, (0 : ℚ) ≤ (fun _ => 1 / 2 : Nat → ℚ) i ∧ (fun _ => 1 / 2 : Nat → ℚ) i ≤ 1) ∧
    (scenarioStart (fun _ => 1 / 2)).Weights = [0, 0, 0, 0] ∧
    ∃ svm0 svm1,
      NewLinearSVM ["A", "B"] 2 (1 / 10) (1 / 100) (1 / 1000000) 200 = .ok svm0 ∧
      { svm0 with Weights := initWeights svm0.Weights (fun _ => 1 / 2) } =
        scenarioStart (fun _ => 1 / 2) ∧
      Train svm0 [[1, 1], [-1, -1]] ["A", "B"] (fun _ => 1 / 2) = .ok svm1 ∧
      Predict svm1 [-1, -1] = .ok "A" ∧ Predict svm1 [-1, -1] ≠ .ok "B" := by
  have hr : ∀ i : Nat, (0 : ℚ) ≤ (fun _ => 1 / 2 : Nat → ℚ) i ∧
      (fun _ => 1 / 2 : Nat → ℚ) i ≤ 1 := by
    intro i; norm_num
  obtain ⟨svm0, svm1, h0, hstart, h1, hscen, -, h4⟩ :=
    scenario_train_core (fun _ => 1 / 2) hr
  obtain ⟨-, hrow0, hrow1⟩ := scenarioStart_rows (fun _ => 1 / 2)
  have htie := h4 ⟨by rw [hrow0, hrow1], by rw [hrow0]; norm_num⟩
  have hA := (scenario_predict_neg svm1 hscen).2 htie
  refine ⟨hr, ?_, svm0, svm1, h0, hstart, h1, hA, ?_⟩
  · simp [scenarioStart, initWeights, List.range_succ]
  · rw [hA]
    intro h
    injection h with h
    revert h
    decide

/-! ## Concrete instances -/

theorem sampleSVM_scores :
    scoreSpec sampleSVM [1] 0 = 0 ∧ scoreSpec sampleSVM [1] 1 = 1 := by
  constructor <;> simp [scoreSpec, weightAt, sampleSVM, Finset.sum_range_succ]

/-- Instance of C1 on `sampleSVM` and the input `[1]`. -/
theorem Predict_returns_first_argmax_witness :
    WellFormed sampleSVM ∧ sampleSVM.Classes ≠ [] ∧
      (([1] : List ℚ).length : Int) = sampleSVM.FeatureDim ∧
      ∃ (c : Nat) (hc : c < sampleSVM.Classes.length),
        Predict sampleSVM [1] = .ok sampleSVM.Classes[c] ∧
        score sampleSVM [1] c = .ok (scoreSpec sampleSVM [1] c) ∧
        (∀ c1, c1 < sampleSVM.Classes.length →
          scoreSpec sampleSVM [1] c1 ≤ scoreSpec sampleSVM [1] c) ∧
        (∀ c1, c1 < c → scoreSpec sampleSVM [1] c1 < scoreSpec sampleSVM [1] c) :=
  ⟨by decide, by decide, by decide,
    Predict_returns_first_argmax sampleSVM [1] (by decide) (by decide) (by decide)⟩

/-- Instance of `Train_scenario` on the draws `sampleDraws`, whose initial row sums are
`0.01` and `-0.01`. -/
theorem Train_scenario_witness :
    (∀ i, 0 ≤ sampleDraws i ∧ sampleDraws i ≤ 1) ∧
      ¬ (rowSum (scenarioStart sampleDraws) 0 = rowSum (scenarioStart sampleDraws) 1 ∧
          rowSum (scenarioStart sampleDraws) 0 ≤ 0) ∧
      ∃ svm0 svm1,
        NewLinearSVM ["A", "B"] 2 (1 / 10) (1 / 100) (1 / 1000000) 200 = .ok svm0 ∧
        { svm0 with Weights := initWeights svm0.Weights sampleDraws } =
          scenarioStart sampleDraws ∧
        Train svm0 [[1, 1], [-1, -1]] ["A", "B"] sampleDraws = .ok svm1 ∧
        Predict svm1 [1, 1] = .ok "A" ∧
        (¬ (rowSum (scenarioStart sampleDraws) 0 = rowSum (scenarioStart sampleDraws) 1 ∧
              rowSum (scenarioStart sampleDraws) 0 ≤ 0) →
          Predict svm1 [-1, -1] = .ok "B") :=
  have hr : ∀ i, 0 ≤ sampleDraws i ∧ sampleDraws i ≤ 1 := by
    intro i
    unfold sampleDraws
    split <;> norm_num
  have hne : ¬ (rowSum (scenarioStart sampleDraws) 0 = rowSum (scenarioStart sampleDraws) 1 ∧
      rowSum (scenarioStart sampleDraws) 0 ≤ 0) := by
    obtain ⟨-, hrow0, -⟩ := scenarioStart_rows sampleDraws
    rw [hrow0]
    simp [sampleDraws]
    norm_num
  ⟨hr, hne, Train_scenario sampleDraws hr⟩

/-- Instance of C4 on `sampleSVM`, the sample `[1]` and the true class 0. -/
theorem trainStep_competitor_witness :
    WellFormed sampleSVM ∧ 0 < sampleSVM.Classes.length ∧
      (([1] : List ℚ).length : Int) = sampleSVM.FeatureDim ∧
      (∃ c, c < sampleSVM.Classes.length ∧
        scoreSpec sampleSVM [1] 0 < scoreSpec sampleSVM [1] c) ∧
      ∃ (m : Nat) (svm1 : LinearSVM),
        m < sampleSVM.Classes.length ∧ m ≠ 0 ∧
        scoreSpec sampleSVM [1] 0 < scoreSpec sampleSVM [1] m ∧
        computeScores sampleSVM [1] =
          .ok ((List.range sampleSVM.Classes.length).map (scoreSpec sampleSVM [1])) ∧
        selectMax sampleSVM.Classes.length
            ((List.range sampleSVM.Classes.length).map (scoreSpec sampleSVM [1]))
            ((0 : Nat) : Int) = .ok (scoreSpec sampleSVM [1] m, (m : Int)) ∧
        trainStep sampleSVM 0 [1] ((0 : Nat) : Int) =
          .ok (svm1, 0 + (scoreSpec sampleSVM [1] m - scoreSpec sampleSVM [1] 0 + 1)) ∧
        (∀ f, f < sampleSVM.FeatureDim.toNat →
          weightAt svm1 0 f = (1 - sampleSVM.SVMLearningRate * sampleSVM.SVMLambda) *
            (weightAt sampleSVM 0 f + sampleSVM.SVMLearningRate * ([1] : List ℚ).getD f 0) ∧
          weightAt svm1 m f = (1 - sampleSVM.SVMLearningRate * sampleSVM.SVMLambda) *
            (weightAt sampleSVM m f -
              sampleSVM.SVMLearningRate * ([1] : List ℚ).getD f 0)) ∧
        (∀ c f, c < sampleSVM.Classes.length → c ≠ 0 → c ≠ m →
          f < sampleSVM.FeatureDim.toNat → weightAt svm1 c f = weightAt sampleSVM c f) ∧
        svm1.Weights.length = sampleSVM.Weights.length ∧
        svm1.Bias = (1 - sampleSVM.SVMLearningRate * sampleSVM.SVMLambda) *
          (sampleSVM.Bias + sampleSVM.SVMLearningRate) :=
  have hcomp : ∃ c, c < sampleSVM.Classes.length ∧
      scoreSpec sampleSVM [1] 0 < scoreSpec sampleSVM [1] c :=
    ⟨1, by decide, by rw [sampleSVM_scores.1, sampleSVM_scores.2]; norm_num⟩
  ⟨by decide, by decide, by decide, hcomp,
    trainStep_competitor sampleSVM 0 [1] 0 (by decide) (by decide) (by decide) hcomp⟩

/-- Instance of C5 on `sampleSVM`, the sample `[1]` and the true class 1. -/
theorem trainStep_degenerate_witness :
    WellFormed sampleSVM ∧ 1 < sampleSVM.Classes.length ∧
      (([1] : List ℚ).length : Int) = sampleSVM.FeatureDim ∧
      (∀ c, c < sampleSVM.Classes.length →
        scoreSpec sampleSVM [1] c ≤ scoreSpec sampleSVM [1] 1) ∧
      ∃ svm1 : LinearSVM,
        computeScores sampleSVM [1] =
          .ok ((List.range sampleSVM.Classes.length).map (scoreSpec sampleSVM [1])) ∧
        selectMax sampleSVM.Classes.length
            ((List.range sampleSVM.Classes.length).map (scoreSpec sampleSVM [1]))
            ((1 : Nat) : Int) = .ok (scoreSpec sampleSVM [1] 1, ((1 : Nat) : Int)) ∧
        scoreSpec sampleSVM [1] 1 - scoreSpec sampleSVM [1] 1 + 1 = 1 ∧
        trainStep sampleSVM 0 [1] ((1 : Nat) : Int) = .ok (svm1, 0 + 1) ∧
        (∀ f, f < sampleSVM.FeatureDim.toNat →
          weightAt svm1 1 f =
            (1 - sampleSVM.SVMLearningRate * sampleSVM.SVMLambda) ^ 2 *
              weightAt sampleSVM 1 f) ∧
        (∀ c f, c < sampleSVM.Classes.length → c ≠ 1 → f < sampleSVM.FeatureDim.toNat →
          weightAt svm1 c f = weightAt sampleSVM c f) ∧
        svm1.Weights.length = sampleSVM.Weights.length ∧
        svm1.Bias = (1 - sampleSVM.SVMLearningRate * sampleSVM.SVMLambda) *
          (sampleSVM.Bias + sampleSVM.SVMLearningRate) :=
  have hnone : ∀ c, c < sampleSVM.Classes.length →
      scoreSpec sampleSVM [1] c ≤ scoreSpec sampleSVM [1] 1 := by
    intro c hc
    have hc2 : c = 0 ∨ c = 1 := by
      have : sampleSVM.Classes.length = 2 := rfl
      omega
    rcases hc2 with rfl | rfl
    · rw [sampleSVM_scores.1, sampleSVM_scores.2]; norm_num
    · exact le_rfl
  ⟨by decide, by decide, by decide, hnone,
    trainStep_degenerate sampleSVM 0 [1] 1 (by decide) (by decide) (by decide) hnone⟩

/-- Instance of C6 (amended) on `sampleSVM`, the sample `[1]` and the true class 0. -/
theorem trainStep_gap_increases_witness :
    WellFormed sampleSVM ∧ 0 < sampleSVM.Classes.length ∧
      (([1] : List ℚ).length : Int) = sampleSVM.FeatureDim ∧
      (∃ c, c < sampleSVM.Classes.length ∧
        scoreSpec sampleSVM [1] 0 < scoreSpec sampleSVM [1] c) ∧
      0 < sampleSVM.SVMLearningRate ∧ 0 ≤ sampleSVM.SVMLambda ∧
      sampleSVM.SVMLearningRate * sampleSVM.SVMLambda ≤ 1 ∧
      ∃ (m : Nat) (svm1 : LinearSVM) (loss1 : ℚ),
        m ≠ 0 ∧
        selectMax sampleSVM.Classes.length
            ((List.range sampleSVM.Classes.length).map (scoreSpec sampleSVM [1]))
            ((0 : Nat) : Int) = .ok (scoreSpec sampleSVM [1] m, (m : Int)) ∧
        trainStep sampleSVM 0 [1] ((0 : Nat) : Int) = .ok (svm1, loss1) ∧
        scoreSpec sampleSVM [1] 0 - scoreSpec sampleSVM [1] m <
          scoreSpec svm1 [1] 0 - scoreSpec svm1 [1] m :=
  have hcomp : ∃ c, c < sampleSVM.Classes.length ∧
      scoreSpec sampleSVM [1] 0 < scoreSpec sampleSVM [1] c :=
    ⟨1, by decide, by rw [sampleSVM_scores.1, sampleSVM_scores.2]; norm_num⟩
  have hlr : 0 < sampleSVM.SVMLearningRate := by simp [sampleSVM]
  have hlam : 0 ≤ sampleSVM.SVMLambda := by simp [sampleSVM]
  have hdec : sampleSVM.SVMLearningRate * sampleSVM.SVMLambda ≤ 1 := by
    simp [sampleSVM]; norm_num
  ⟨by decide, by decide, by decide, hcomp, hlr, hlam, hdec,
    trainStep_gap_increases sampleSVM 0 [1] 0 (by decide) (by decide) (by decide) hcomp hlr
      hlam hdec⟩

/-- Instance of C8 with an early stop: `fiveSVM` (tolerance `0.1`, budget of 5 epochs)
trained on the single sample `([1], "B")` has the average losses `1` and `1.000009995`, and
stops after epoch 1. -/
theorem Train_convergence_rule_witness :
    WellFormed fiveSVM ∧ ValidData fiveSVM [[1]] (toNumeric fiveSVM ["B"]) ∧
      lossesOf (TrainTrace fiveSVM [[1]] ["B"] sampleDraws) =
        .ok [.fin 1, .fin (200001999 / 200000000)] ∧
      ([Loss.fin 1, Loss.fin (200001999 / 200000000)].length < fiveSVM.SVMEpochs.toNat) ∧
      ∃ svmF tr, TrainTrace fiveSVM [[1]] ["B"] sampleDraws = .ok (svmF, tr) ∧
        Train fiveSVM [[1]] ["B"] sampleDraws = .ok svmF ∧
        tr.length ≤ fiveSVM.SVMEpochs.toNat ∧
        iterEpochs [[1]] (toNumeric fiveSVM ["B"]) tr.length
          { fiveSVM with Weights := initWeights fiveSVM.Weights sampleDraws }
            = .ok (svmF, tr) ∧
        (∀ e, 1 ≤ e → e + 1 < tr.length →
          ¬ ∃ p l, tr.getD (e - 1) .nan = .fin p ∧ tr.getD e .nan = .fin l ∧
            |p - l| < fiveSVM.SVMTolerance) ∧
        (tr.length < fiveSVM.SVMEpochs.toNat →
          2 ≤ tr.length ∧
          ∃ p l, tr.getD (tr.length - 2) .nan = .fin p ∧
            tr.getD (tr.length - 1) .nan = .fin l ∧ |p - l| < fiveSVM.SVMTolerance) ∧
        (tr.length = fiveSVM.SVMEpochs.toNat ∨
          ∃ p l, tr.getD (tr.length - 2) .nan = .fin p ∧
            tr.getD (tr.length - 1) .nan = .fin l ∧ |p - l| < fiveSVM.SVMTolerance) ∧
        (2 ≤ fiveSVM.SVMEpochs → 2 ≤ tr.length) :=
  have hv : ValidData fiveSVM [[1]] (toNumeric fiveSVM ["B"]) := by
    simp [ValidData, toNumeric, mapLookup, fiveSVM, sampleSVM, buildClassMap, mapInsert,
      List.enum]
  ⟨by decide, hv, by decide!, by decide,
    Train_convergence_rule fiveSVM [[1]] ["B"] sampleDraws (by decide) hv⟩

/-- Instance of `NewLinearSVM_fields` on the arguments of the end-to-end scenario. -/
theorem NewLinearSVM_fields_witness :
    (0 : Int) ≤ 2 ∧
      ∃ svm, NewLinearSVM ["A", "B"] 2 (1 / 10) (1 / 100) (1 / 1000000) 200 = .ok svm ∧
        (svm.Weights.length : Int) = 2 * ((["A", "B"] : List String).length : Int) ∧
        (∀ w, w ∈ svm.Weights → w = 0) ∧
        svm.Bias = 0 ∧ svm.Classes = ["A", "B"] ∧ svm.FeatureDim = 2 ∧
        svm.SVMLearningRate = 1 / 10 ∧ svm.SVMLambda = 1 / 100 ∧
        svm.SVMTolerance = 1 / 1000000 ∧ svm.SVMEpochs = 200 :=
  ⟨by decide,
    NewLinearSVM_fields ["A", "B"] 2 (1 / 10) (1 / 100) (1 / 1000000) 200 (by decide)⟩

/-- Instance of C10 on a class list with a duplicate. -/
theorem NewLinearSVM_classMap_witness :
    (0 : Int) ≤ 1 ∧
      ∃ svm, NewLinearSVM ["A", "B", "A"] 1 (1 / 10) (1 / 100) (1 / 1000000) 5 = .ok svm ∧
        (∀ (i : Nat) (hi : i < (["A", "B", "A"] : List String).length),
          ∃ (j : Nat) (hj : j < (["A", "B", "A"] : List String).length),
            svm.ClassMap (["A", "B", "A"] : List String)[i] = some (j : Int) ∧
            (["A", "B", "A"] : List String)[j] = (["A", "B", "A"] : List String)[i] ∧
            ∀ (k : Nat) (hk : k < (["A", "B", "A"] : List String).length),
              (["A", "B", "A"] : List String)[k] = (["A", "B", "A"] : List String)[i] →
                k ≤ j) ∧
        (∀ key, key ∉ (["A", "B", "A"] : List String) → svm.ClassMap key = none) ∧
        ((["A", "B", "A"] : List String).Nodup →
          ∀ (i : Nat) (hi : i < (["A", "B", "A"] : List String).length),
            svm.ClassMap (["A", "B", "A"] : List String)[i] = some (i : Int)) :=
  ⟨by decide,
    NewLinearSVM_classMap ["A", "B", "A"] 1 (1 / 10) (1 / 100) (1 / 1000000) 5 (by decide)⟩

/-- C15: for a classifier whose `Classes` list is empty, `Predict` returns the empty string
on every input. -/
theorem Predict_empty_classes (svm : LinearSVM) (x : List ℚ) (h : svm.Classes = []) :
    Predict svm x = .ok "" := by
  unfold Predict
  rw [h]
  rfl

/-- Instance of C15 on `emptySVM` and a three-element input. -/
theorem Predict_empty_classes_witness :
    emptySVM.Classes = [] ∧ Predict emptySVM [1, 2, 3] = .ok "" :=
  ⟨rfl, Predict_empty_classes emptySVM [1, 2, 3] rfl⟩

/-- C18: competitor selection.  For a score table over at least one class and a true class
`t`, the scan returns `(maxScore, maxScoreIdx)` where `maxScore = scores[maxScoreIdx]` is
the maximum over all classes; `maxScoreIdx == t` when `scores[t]` is maximal, otherwise it
is the smallest index attaining the maximum; and `maxScoreIdx != t` exactly when some class
strictly outscores `t`. -/
theorem selectMax_competitor (scores : List ℚ) (t : Nat) (ht : t < scores.length) :
    ∃ (ms : ℚ) (mi : Nat),
      selectMax scores.length scores (t : Int) = .ok (ms, (mi : Int)) ∧
      mi < scores.length ∧ ms = scores.getD mi 0 ∧
      (∀ c, c < scores.length → scores.getD c 0 ≤ ms) ∧
      ((∀ c, c < scores.length → scores.getD c 0 ≤ scores.getD t 0) → mi = t) ∧
      (¬ (∀ c, c < scores.length → scores.getD c 0 ≤ scores.getD t 0) →
        ∀ c, c < mi → scores.getD c 0 < ms) ∧
      (mi ≠ t ↔ ∃ c, c < scores.length ∧ scores.getD t 0 < scores.getD c 0) := by
  obtain ⟨ms, mi, hsel, hmi, hms, htle, hmax, hne⟩ :=
    selectMax_spec scores.length scores rfl t ht
  have hmaxt : (∀ c, c < scores.length → scores.getD c 0 ≤ scores.getD t 0) → mi = t := by
    intro hall
    by_contra hmt
    have h1 := (hne hmt).1
    have h2 := hall mi hmi
    rw [← hms] at h2
    exact absurd h1 (not_lt.mpr h2)
  refine ⟨ms, mi, hsel, hmi, hms, hmax, hmaxt, ?_, ?_⟩
  · intro hnot
    have hmt : mi ≠ t := by
      rintro rfl
      apply hnot
      intro c hc
      rw [← hms]
      exact hmax c hc
    exact (hne hmt).2
  · constructor
    · intro hmt
      exact ⟨mi, hmi, by rw [← hms]; exact (hne hmt).1⟩
    · rintro ⟨c, hc, hlt⟩ hmt
      subst hmt
      have := hmax c hc
      rw [hms] at this
      exact absurd hlt (not_lt.mpr this)

/-- Instance of C18 on the score table `[0, 3, 3]` with true class 0. -/
theorem selectMax_competitor_witness :
    0 < ([0, 3, 3] : List ℚ).length ∧
      ∃ (ms : ℚ) (mi : Nat),
        selectMax ([0, 3, 3] : List ℚ).length [0, 3, 3] ((0 : Nat) : Int) =
          .ok (ms, (mi : Int)) ∧
        mi < ([0, 3, 3] : List ℚ).length ∧ ms = ([0, 3, 3] : List ℚ).getD mi 0 ∧
        (∀ c, c < ([0, 3, 3] : List ℚ).length → ([0, 3, 3] : List ℚ).getD c 0 ≤ ms) ∧
        ((∀ c, c < ([0, 3, 3] : List ℚ).length →
            ([0, 3, 3] : List ℚ).getD c 0 ≤ ([0, 3, 3] : List ℚ).getD 0 0) → mi = 0) ∧
        (¬ (∀ c, c < ([0, 3, 3] : List ℚ).length →
            ([0, 3, 3] : List ℚ).getD c 0 ≤ ([0, 3, 3] : List ℚ).getD 0 0) →
          ∀ c, c < mi → ([0, 3, 3] : List ℚ).getD c 0 < ms) ∧
        (mi ≠ 0 ↔ ∃ c, c < ([0, 3, 3] : List ℚ).length ∧
          ([0, 3, 3] : List ℚ).getD 0 0 < ([0, 3, 3] : List ℚ).getD c 0) :=
  ⟨by decide, selectMax_competitor [0, 3, 3] 0 (by decide)⟩

theorem converged_nan (prev : Loss) (tol : ℚ) : converged prev .nan tol = false := by
  cases prev <;> rfl

theorem epochLoop_no_samples (yNumeric : List Int) (n : Nat) :
    ∀ (prev : Loss) (svm : LinearSVM),
      ∃ tr, epochLoop [] yNumeric n prev svm = .ok (svm, tr) ∧ tr.length = n := by
  induction n with
  | zero => intro prev svm; exact ⟨[], rfl, rfl⟩
  | succ n ih =>
    intro prev svm
    obtain ⟨tr, htr, hlen⟩ := ih .nan svm
    have hrun : runEpoch svm [] yNumeric = .ok (svm, 0) := rfl
    have havg : average 0 ([] : List (List ℚ)).length = .nan := rfl
    refine ⟨.nan :: tr, ?_, by simp [hlen]⟩
    simp only [epochLoop, hrun, havg, converged_nan, htr]
    simp

/-- C12: the initialisation step of `Train`.  With draws in `[0,1)`, every weight is
overwritten with `0.01*(2r-1)` for its own draw `r` and so lies in `[-0.01, 0.01]`; the
epochs start from that matrix and the old bias; and when `SVMEpochs <= 0` or `X` is empty
`Train` returns with exactly the initialised weights and the bias it had before. -/
theorem Train_initialisation (svm : LinearSVM) (X : List (List ℚ)) (y : List String)
    (rnd : Nat → ℚ) (hr : ∀ i, 0 ≤ rnd i ∧ rnd i < 1) :
    (initWeights svm.Weights rnd).length = svm.Weights.length ∧
    (∀ i, i < svm.Weights.length →
      (initWeights svm.Weights rnd).getD i 0 = 1 / 100 * (2 * rnd i - 1) ∧
      -(1 / 100) ≤ (initWeights svm.Weights rnd).getD i 0 ∧
      (initWeights svm.Weights rnd).getD i 0 ≤ 1 / 100) ∧
    TrainTrace svm X y rnd =
      epochLoop X (toNumeric svm y) svm.SVMEpochs.toNat .posInf
        { svm with Weights := initWeights svm.Weights rnd } ∧
    (svm.SVMEpochs ≤ 0 ∨ X = [] →
      ∃ svmF, Train svm X y rnd = .ok svmF ∧
        svmF.Weights = initWeights svm.Weights rnd ∧ svmF.Bias = svm.Bias) := by
  have hget : ∀ i, i < svm.Weights.length →
      (initWeights svm.Weights rnd).getD i 0 = 1 / 100 * (2 * rnd i - 1) := by
    intro i hi
    simp [initWeights, List.getD, hi]
  refine ⟨by simp [initWeights], ?_, rfl, ?_⟩
  · intro i hi
    rw [hget i hi]
    obtain ⟨h0, h1⟩ := hr i
    refine ⟨rfl, by linarith, by linarith⟩
  · rintro (hep | hX)
    · refine ⟨{ svm with Weights := initWeights svm.Weights rnd }, ?_, rfl, rfl⟩
      have hz : svm.SVMEpochs.toNat = 0 := Int.toNat_eq_zero.mpr hep
      simp only [Train, TrainTrace, hz, epochLoop]
    · subst hX
      obtain ⟨tr, htr, -⟩ :=
        epochLoop_no_samples (toNumeric svm y) svm.SVMEpochs.toNat .posInf
          { svm with Weights := initWeights svm.Weights rnd }
      refine ⟨{ svm with Weights := initWeights svm.Weights rnd }, ?_, rfl, rfl⟩
      simp only [Train, TrainTrace, htr]

/-- Instance of C12 on `sampleSVM` with an empty training set and the draws `sampleDraws`. -/
theorem Train_initialisation_witness :
    (∀ i, 0 ≤ sampleDraws i ∧ sampleDraws i < 1) ∧
      (initWeights sampleSVM.Weights sampleDraws).length = sampleSVM.Weights.length ∧
      (∀ i, i < sampleSVM.Weights.length →
        (initWeights sampleSVM.Weights sampleDraws).getD i 0 =
          1 / 100 * (2 * sampleDraws i - 1) ∧
        -(1 / 100) ≤ (initWeights sampleSVM.Weights sampleDraws).getD i 0 ∧
        (initWeights sampleSVM.Weights sampleDraws).getD i 0 ≤ 1 / 100) ∧
      TrainTrace sampleSVM [] [] sampleDraws =
        epochLoop [] (toNumeric sampleSVM []) sampleSVM.SVMEpochs.toNat .posInf
          { sampleSVM with Weights := initWeights sampleSVM.Weights sampleDraws } ∧
      (sampleSVM.SVMEpochs ≤ 0 ∨ ([] : List (List ℚ)) = [] →
        ∃ svmF, Train sampleSVM [] [] sampleDraws = .ok svmF ∧
          svmF.Weights = initWeights sampleSVM.Weights sampleDraws ∧
          svmF.Bias = sampleSVM.Bias) :=
  have hr : ∀ i, 0 ≤ sampleDraws i ∧ sampleDraws i < 1 := by
    intro i
    unfold sampleDraws
    split <;> norm_num
  ⟨hr, Train_initialisation sampleSVM [] [] sampleDraws hr⟩

theorem trainStart_sameConfig (svm : LinearSVM) (rnd : Nat → ℚ) :
    SameConfig svm (trainStart svm rnd) :=
  ⟨rfl, rfl, rfl, rfl, rfl, rfl, rfl, by simp [trainStart, initWeights]⟩

theorem trainTrace_spec (svm : LinearSVM) (X : List (List ℚ)) (y : List String)
    (rnd : Nat → ℚ) (hwf : WellFormed svm) (hv : ValidData svm X (toNumeric svm y)) :
    ∃ svmF tr, TrainTrace svm X y rnd = .ok (svmF, tr) ∧ Train svm X y rnd = .ok svmF ∧
      SameConfig svm svmF ∧ tr.length ≤ svm.SVMEpochs.toNat ∧
      iterEpochs X (toNumeric svm y) tr.length (trainStart svm rnd) = .ok (svmF, tr) := by
  have hs := trainStart_sameConfig svm rnd
  obtain ⟨svmF, tr, hloop, hsame, hlen, hiter, -, -⟩ :=
    epochLoop_spec X (toNumeric svm y) svm.SVMEpochs.toNat .posInf (trainStart svm rnd)
      (wellFormed_of_sameConfig hs hwf) (validData_of_sameConfig hs X _ hv)
  have hT : TrainTrace svm X y rnd = .ok (svmF, tr) := hloop
  exact ⟨svmF, tr, hT, by simp only [Train, hT], sameConfig_trans hs hsame, hlen, hiter⟩

theorem toNumeric_knownLabels (svm : LinearSVM) (y : List String)
    (hzero : mapLookup svm.ClassMap (svm.Classes.getD 0 "") = 0) :
    toNumeric svm (knownLabels svm y) = toNumeric svm y := by
  unfold toNumeric knownLabels
  rw [List.map_map]
  apply List.map_congr_left
  intro label _
  simp only [Function.comp]
  cases h : svm.ClassMap label with
  | none =>
    simp only [Option.isSome_none, Bool.false_eq_true, if_false]
    rw [hzero]
    unfold mapLookup
    rw [h]
    rfl
  | some v => simp

/-- C11: unknown labels train row 0.  For a classifier with at least one class and
`ClassMap[Classes[0]] == 0`, every label absent from `ClassMap` converts to the numeric
label 0 exactly like `Classes[0]`, so `Train(X, y)` and `Train(X, y')`, `y'` being `y` with
the absent labels replaced by `Classes[0]`, have the same outcome (same weights and bias);
and on a well-formed classifier with rows of length `FeatureDim`, a label for every row and
in-range indices for the known labels, `Train(X, y)` returns whatever labels are unknown. -/
theorem Train_unknown_labels (svm : LinearSVM) (X : List (List ℚ)) (y : List String)
    (rnd : Nat → ℚ) (hne : svm.Classes ≠ [])
    (hzero : mapLookup svm.ClassMap (svm.Classes.getD 0 "") = 0) :
    (∀ label, svm.ClassMap label = none → mapLookup svm.ClassMap label = 0) ∧
    toNumeric svm (knownLabels svm y) = toNumeric svm y ∧
    Train svm X y rnd = Train svm X (knownLabels svm y) rnd ∧
    (WellFormed svm → (∀ x ∈ X, (x.length : Int) = svm.FeatureDim) →
      X.length ≤ y.length →
      (∀ label ∈ y, ∀ v, svm.ClassMap label = some v →
        0 ≤ v ∧ v < (svm.Classes.length : Int)) →
      ∃ svmF, Train svm X y rnd = .ok svmF ∧
        Train svm X (knownLabels svm y) rnd = .ok svmF) := by
  have hnum := toNumeric_knownLabels svm y hzero
  have heq : Train svm X y rnd = Train svm X (knownLabels svm y) rnd := by
    simp only [Train, TrainTrace, hnum]
  refine ⟨?_, hnum, heq, ?_⟩
  · intro label h
    simp [mapLookup, h]
  · intro hwf hrows hlen hknown
    have hpos : 0 < svm.Classes.length := List.length_pos.mpr hne
    have hv : ValidData svm X (toNumeric svm y) := by
      refine ⟨by simpa [toNumeric] using hlen, hrows, ?_⟩
      intro t ht
      simp only [toNumeric, List.mem_map] at ht
      obtain ⟨label, hl, rfl⟩ := ht
      cases h : svm.ClassMap label with
      | none =>
        simp only [mapLookup, h, Option.getD_none]
        exact ⟨le_rfl, by exact_mod_cast hpos⟩
      | some v =>
        simp only [mapLookup, h, Option.getD_some]
        exact hknown label hl v h
    obtain ⟨svmF, tr, -, hT, -, -, -⟩ := trainTrace_spec svm X y rnd hwf hv
    exact ⟨svmF, hT, by rw [← heq]; exact hT⟩

/-- Instance of C11 on `sampleSVM` trained on the single sample `([1], "Z")`, whose label is
not a class name. -/
theorem Train_unknown_labels_witness :
    sampleSVM.Classes ≠ [] ∧
      mapLookup sampleSVM.ClassMap (sampleSVM.Classes.getD 0 "") = 0 ∧
      sampleSVM.ClassMap "Z" = none ∧
      (∀ label, sampleSVM.ClassMap label = none → mapLookup sampleSVM.ClassMap label = 0) ∧
      toNumeric sampleSVM (knownLabels sampleSVM ["Z"]) = toNumeric sampleSVM ["Z"] ∧
      Train sampleSVM [[1]] ["Z"] sampleDraws =
        Train sampleSVM [[1]] (knownLabels sampleSVM ["Z"]) sampleDraws ∧
      (WellFormed sampleSVM →
        (∀ x ∈ ([[1]] : List (List ℚ)), (x.length : Int) = sampleSVM.FeatureDim) →
        ([[1]] : List (List ℚ)).length ≤ (["Z"] : List String).length →
        (∀ label ∈ (["Z"] : List String), ∀ v, sampleSVM.ClassMap label = some v →
          0 ≤ v ∧ v < (sampleSVM.Classes.length : Int)) →
        ∃ svmF, Train sampleSVM [[1]] ["Z"] sampleDraws = .ok svmF ∧
          Train sampleSVM [[1]] (knownLabels sampleSVM ["Z"]) sampleDraws = .ok svmF) :=
  have hzero : mapLookup sampleSVM.ClassMap (sampleSVM.Classes.getD 0 "") = 0 := by
    simp [mapLookup, sampleSVM, buildClassMap, mapInsert, List.enum]
  have hZ : sampleSVM.ClassMap "Z" = none := by
    simp [sampleSVM, buildClassMap, mapInsert, List.enum]
  ⟨by decide, hzero, hZ,
    Train_unknown_labels sampleSVM [[1]] ["Z"] sampleDraws (by decide) hzero⟩

theorem foldlM_invariant {σ : Type} (P : σ → Prop) (body : σ → Nat → Result σ)
    (hbody : ∀ s i s1, P s → body s i = .ok s1 → P s1) (l : List Nat) :
    ∀ s s1, P s → l.foldlM body s = .ok s1 → P s1 := by
  induction l with
  | nil =>
    intro s s1 hs h
    have : s = s1 := by injection h
    rw [← this]; exact hs
  | cons a t ih =>
    intro s s1 hs h
    rw [List.foldlM_cons] at h
    cases hb : body s a with
    | error e => rw [hb] at h; cases h
    | ok s2 =>
      rw [hb] at h
      exact ih s2 s1 (hbody s a s2 hs hb) h

theorem assignOp_length (s : List ℚ) (i : Int) (g : ℚ → ℚ) (s1 : List ℚ)
    (h : assignOp s i g = .ok s1) : s1.length = s.length := by
  unfold assignOp at h
  cases hi : index s i with
  | error e => rw [hi] at h; cases h
  | ok v =>
    rw [hi] at h
    have : s.set i.toNat (g v) = s1 := by injection h
    rw [← this]; simp

theorem hingeBody_length (svm : LinearSVM) (x : List ℚ) (t m : Int) (W : List ℚ) (f : Nat)
    (W1 : List ℚ) (h : hingeBody svm x t m W f = .ok W1) : W1.length = W.length := by
  unfold hingeBody at h
  cases hx : index x (f : Int) with
  | error e => rw [hx] at h; cases h
  | ok xf =>
    rw [hx] at h
    simp only [] at h
    cases h1 : assignOp W (t * svm.FeatureDim + (f : Int))
        (fun w => w + svm.SVMLearningRate * xf) with
    | error e => rw [h1] at h; cases h
    | ok Wa =>
      rw [h1] at h
      simp only [] at h
      cases h2 : assignOp Wa (m * svm.FeatureDim + (f : Int))
          (fun w => w - svm.SVMLearningRate * xf) with
      | error e => rw [h2] at h; cases h
      | ok Wb =>
        rw [h2] at h
        simp only [] at h
        cases h3 : assignOp Wb (t * svm.FeatureDim + (f : Int))
            (fun w => w - svm.SVMLearningRate * svm.SVMLambda * w) with
        | error e => rw [h3] at h; cases h
        | ok Wc =>
          rw [h3] at h
          simp only [] at h
          rw [assignOp_length _ _ _ _ h, assignOp_length _ _ _ _ h3,
            assignOp_length _ _ _ _ h2, assignOp_length _ _ _ _ h1]

theorem hingeLoop_length (svm : LinearSVM) (x : List ℚ) (t m : Int) (W1 : List ℚ)
    (h : hingeLoop svm x t m = .ok W1) : W1.length = svm.Weights.length :=
  foldlM_invariant (fun W => W.length = svm.Weights.length) (hingeBody svm x t m)
    (fun W f W2 hW hb => (hingeBody_length svm x t m W f W2 hb).trans hW)
    _ svm.Weights W1 rfl h

theorem decayLoop_length (svm : LinearSVM) (W1 : List ℚ) (h : decayLoop svm = .ok W1) :
    W1.length = svm.Weights.length :=
  foldlM_invariant (fun W => W.length = svm.Weights.length) (decayBody svm)
    (fun W f W2 hW hb =>
      foldlM_invariant (fun W3 => W3.length = svm.Weights.length) (decayCell svm f)
        (fun _ _ _ hW3 hc => (assignOp_length _ _ _ _ hc).trans hW3)
        _ W W2 hW hb)
    _ svm.Weights W1 rfl h

theorem trainStep_frame (svm : LinearSVM) (loss : ℚ) (x : List ℚ) (t : Int)
    (svm1 : LinearSVM) (loss1 : ℚ) (h : trainStep svm loss x t = .ok (svm1, loss1)) :
    SameConfig svm svm1 := by
  unfold trainStep at h
  cases h1 : computeScores svm x with
  | error e => rw [h1] at h; cases h
  | ok scores =>
    rw [h1] at h
    simp only [] at h
    cases h2 : selectMax svm.Classes.length scores t with
    | error e => rw [h2] at h; cases h
    | ok r =>
      obtain ⟨ms, mi⟩ := r
      rw [h2] at h
      simp only [] at h
      cases h3 : index scores t with
      | error e => rw [h3] at h; cases h
      | ok st =>
        rw [h3] at h
        simp only [] at h
        by_cases hm : ms - st + 1 > 0
        · rw [if_pos hm] at h
          cases h4 : hingeLoop svm x t mi with
          | error e => rw [h4] at h; cases h
          | ok W =>
            rw [h4] at h
            simp only [] at h
            have hlen := hingeLoop_length svm x t mi W h4
            injection h with h
            injection h with ha hb
            rw [← ha]
            exact ⟨rfl, rfl, rfl, rfl, rfl, rfl, rfl, hlen⟩
        · rw [if_neg hm] at h
          cases h4 : decayLoop svm with
          | error e => rw [h4] at h; cases h
          | ok W =>
            rw [h4] at h
            simp only [] at h
            have hlen := decayLoop_length svm W h4
            injection h with h
            injection h with ha hb
            rw [← ha]
            exact ⟨rfl, rfl, rfl, rfl, rfl, rfl, rfl, hlen⟩

theorem runEpoch_frame (svm : LinearSVM) (X : List (List ℚ)) (yNumeric : List Int)
    (svm1 : LinearSVM) (loss1 : ℚ) (h : runEpoch svm X yNumeric = .ok (svm1, loss1)) :
    SameConfig svm svm1 :=
  foldlM_invariant (fun st : LinearSVM × ℚ => SameConfig svm st.1) (epochBody X yNumeric)
    (fun st idx st1 hst hb => by
      unfold epochBody at hb
      cases hx : index X (idx : Int) with
      | error e => rw [hx] at hb; cases hb
      | ok x =>
        rw [hx] at hb
        simp only [] at hb
        cases hy : index yNumeric (idx : Int) with
        | error e => rw [hy] at hb; cases hb
        | ok t =>
          rw [hy] at hb
          simp only [] at hb
          obtain ⟨s2, l2⟩ := st1
          exact sameConfig_trans hst (trainStep_frame st.1 st.2 x t s2 l2 hb))
    _ (svm, 0) (svm1, loss1) (sameConfig_refl svm) h

theorem epochLoop_frame (X : List (List ℚ)) (yNumeric : List Int) (n : Nat) :
    ∀ (prev : Loss) (svm svmF : LinearSVM) (tr : List Loss),
      epochLoop X yNumeric n prev svm = .ok (svmF, tr) → SameConfig svm svmF := by
  induction n with
  | zero =>
    intro prev svm svmF tr h
    simp only [epochLoop] at h
    injection h with h
    injection h with ha hb
    rw [← ha]; exact sameConfig_refl svm
  | succ n ih =>
    intro prev svm svmF tr h
    simp only [epochLoop] at h
    cases hrun : runEpoch svm X yNumeric with
    | error e => rw [hrun] at h; cases h
    | ok r =>
      obtain ⟨svm1, loss⟩ := r
      rw [hrun] at h
      simp only [] at h
      have hs1 := runEpoch_frame svm X yNumeric svm1 loss hrun
      by_cases hc : converged prev (average loss X.length) svm1.SVMTolerance = true
      · rw [if_pos hc] at h
        injection h with h
        injection h with ha hb
        rw [← ha]; exact hs1
      · rw [if_neg hc] at h
        cases hrec : epochLoop X yNumeric n (average loss X.length) svm1 with
        | error e => rw [hrec] at h; cases h
        | ok r2 =>
          obtain ⟨svm2, tr2⟩ := r2
          rw [hrec] at h
          simp only [] at h
          injection h with h
          injection h with ha hb
          rw [← ha]
          exact sameConfig_trans hs1 (ih _ svm1 svm2 tr2 hrec)

theorem train_frame (svm : LinearSVM) (X : List (List ℚ)) (y : List String)
    (rnd : Nat → ℚ) (svmF : LinearSVM) (h : Train svm X y rnd = .ok svmF) :
    SameConfig svm svmF := by
  unfold Train at h
  cases hT : TrainTrace svm X y rnd with
  | error e => rw [hT] at h; cases h
  | ok r =>
    obtain ⟨s, tr⟩ := r
    rw [hT] at h
    simp only [] at h
    have : s = svmF := by injection h
    subst this
    exact sameConfig_trans (trainStart_sameConfig svm rnd)
      (epochLoop_frame X (toNumeric svm y) _ _ _ _ _ hT)

theorem classMapConsistent_of_sameConfig {a b : LinearSVM} (h : SameConfig a b)
    (hc : ClassMapConsistent a) : ClassMapConsistent b := by
  obtain ⟨h1, h2, -⟩ := h
  intro i hi
  have hi1 : i < a.Classes.length := by rw [← h1]; exact hi
  have := hc i hi1
  simp only [h1, h2]
  exact this

/-- C14: frame of `Train`.  Whenever `Train` returns, `Classes`, `ClassMap`, `FeatureDim`,
the four hyperparameters and the length of `Weights` are as before the call, so
`len(Weights) == FeatureDim*len(Classes)` and the consistency of `ClassMap` with `Classes`
are kept; and on a well-formed classifier with valid `(X, y)` it does return. -/
theorem Train_frame (svm : LinearSVM) (X : List (List ℚ)) (y : List String)
    (rnd : Nat → ℚ) :
    (∀ svmF, Train svm X y rnd = .ok svmF →
      svmF.Classes = svm.Classes ∧ svmF.ClassMap = svm.ClassMap ∧
      svmF.FeatureDim = svm.FeatureDim ∧ svmF.SVMLearningRate = svm.SVMLearningRate ∧
      svmF.SVMLambda = svm.SVMLambda ∧ svmF.SVMTolerance = svm.SVMTolerance ∧
      svmF.SVMEpochs = svm.SVMEpochs ∧ svmF.Weights.length = svm.Weights.length ∧
      (WellFormed svm → WellFormed svmF) ∧
      (ClassMapConsistent svm → ClassMapConsistent svmF)) ∧
    (WellFormed svm → ValidData svm X (toNumeric svm y) →
      ∃ svmF, Train svm X y rnd = .ok svmF) := by
  constructor
  · intro svmF h
    have hs := train_frame svm X y rnd svmF h
    obtain ⟨h1, h2, h3, h4, h5, h6, h7, h8⟩ := hs
    exact ⟨h1, h2, h3, h4, h5, h6, h7, h8,
      wellFormed_of_sameConfig ⟨h1, h2, h3, h4, h5, h6, h7, h8⟩,
      classMapConsistent_of_sameConfig ⟨h1, h2, h3, h4, h5, h6, h7, h8⟩⟩
  · intro hwf hv
    obtain ⟨svmF, tr, -, hT, -, -, -⟩ := trainTrace_spec svm X y rnd hwf hv
    exact ⟨svmF, hT⟩

/-- Instance of C14 on `sampleSVM` trained on the single sample `([1], "B")`. -/
theorem Train_frame_witness :
    WellFormed sampleSVM ∧ ClassMapConsistent sampleSVM ∧
      ValidData sampleSVM [[1]] (toNumeric sampleSVM ["B"]) ∧
      ∃ svmF, Train sampleSVM [[1]] ["B"] sampleDraws = .ok svmF ∧
        svmF.Classes = sampleSVM.Classes ∧ svmF.ClassMap = sampleSVM.ClassMap ∧
        svmF.FeatureDim = sampleSVM.FeatureDim ∧
        svmF.SVMLearningRate = sampleSVM.SVMLearningRate ∧
        svmF.SVMLambda = sampleSVM.SVMLambda ∧
        svmF.SVMTolerance = sampleSVM.SVMTolerance ∧
        svmF.SVMEpochs = sampleSVM.SVMEpochs ∧
        svmF.Weights.length = sampleSVM.Weights.length ∧
        WellFormed svmF ∧ ClassMapConsistent svmF := by
  have hwf : WellFormed sampleSVM := by decide
  have hv : ValidData sampleSVM [[1]] (toNumeric sampleSVM ["B"]) := by
    simp [ValidData, toNumeric, mapLookup, sampleSVM, buildClassMap, mapInsert, List.enum]
  have hc : ClassMapConsistent sampleSVM := by
    intro i hi
    have hi2 : i = 0 ∨ i = 1 := by
      have : sampleSVM.Classes.length = 2 := rfl
      omega
    rcases hi2 with rfl | rfl <;>
      simp [sampleSVM, buildClassMap, mapInsert, List.enum]
  obtain ⟨svmF, hT⟩ := (Train_frame sampleSVM [[1]] ["B"] sampleDraws).2 hwf hv
  obtain ⟨h1, h2, h3, h4, h5, h6, h7, h8, h9, h10⟩ :=
    (Train_frame sampleSVM [[1]] ["B"] sampleDraws).1 svmF hT
  exact ⟨hwf, hc, hv, svmF, hT, h1, h2, h3, h4, h5, h6, h7, h8, h9 hwf, h10 hc⟩

theorem predict_ok (svm : LinearSVM) (x : List ℚ) (hwf : WellFormed svm)
    (hx : svm.FeatureDim ≤ (x.length : Int)) : ∃ label, Predict svm x = .ok label := by
  obtain ⟨acc, hacc, -⟩ := predict_upto svm x hwf hx svm.Classes.length le_rfl
  exact ⟨acc.2, by simp only [Predict, hacc]⟩

theorem buildClassMap_range (classes : List String) (label : String) :
    0 ≤ mapLookup (buildClassMap classes) label ∧
      (classes ≠ [] → mapLookup (buildClassMap classes) label < (classes.length : Int)) := by
  by_cases hmem : label ∈ classes
  · obtain ⟨j, hj, hres, -⟩ := classMap_fold_present classes 0 (fun _ => none) label hmem
    have hjlt : j < classes.length := (List.getElem?_eq_some_iff.mp hj).1
    have hval : buildClassMap classes label = some (j : Int) := by
      simpa [buildClassMap, List.enum] using hres
    simp only [mapLookup, hval, Option.getD_some]
    exact ⟨Int.natCast_nonneg j, fun _ => by exact_mod_cast hjlt⟩
  · have hval : buildClassMap classes label = none :=
      classMap_fold_absent classes 0 (fun _ => none) label hmem
    simp only [mapLookup, hval, Option.getD_none]
    refine ⟨le_rfl, fun hne => ?_⟩
    have : 0 < classes.length := List.length_pos.mpr hne
    exact_mod_cast this

/-- C19: index safety under the caller contract.  For a classifier built by `NewLinearSVM`
from at least one class and `featureDim >= 0`, rows of `X` of length `FeatureDim` and
`len(y) == len(X)` (labels known or not), `Train` returns without a panic, and `Predict`
returns without a panic on every input of length `FeatureDim`, before and after training. -/
theorem Train_Predict_index_safe (classes : List String) (featureDim : Int)
    (lr lam tol : ℚ) (epochs : Int) (X : List (List ℚ)) (y : List String) (rnd : Nat → ℚ)
    (hne : classes ≠ []) (hdim : 0 ≤ featureDim)
    (hrows : ∀ x ∈ X, (x.length : Int) = featureDim) (hlen : y.length = X.length) :
    ∃ svm0 svmF,
      NewLinearSVM classes featureDim lr lam tol epochs = .ok svm0 ∧
      Train svm0 X y rnd = .ok svmF ∧
      ∀ x : List ℚ, (x.length : Int) = featureDim →
        (∃ label, Predict svm0 x = .ok label) ∧ (∃ label, Predict svmF x = .ok label) := by
  have hnew := NewLinearSVM_ok classes featureDim lr lam tol epochs hdim
  have hnn : 0 ≤ featureDim * (classes.length : Int) :=
    mul_nonneg hdim (Int.natCast_nonneg _)
  have hwf : WellFormed
      { Weights := List.replicate (featureDim * (classes.length : Int)).toNat 0
        Bias := 0
        Classes := classes
        ClassMap := buildClassMap classes
        FeatureDim := featureDim
        SVMEpochs := epochs
        SVMLearningRate := lr
        SVMLambda := lam
        SVMTolerance := tol } := by
    refine ⟨hdim, ?_⟩
    simp only [List.length_replicate]
    exact Int.toNat_of_nonneg hnn
  have hv : ValidData
      { Weights := List.replicate (featureDim * (classes.length : Int)).toNat 0
        Bias := 0
        Classes := classes
        ClassMap := buildClassMap classes
        FeatureDim := featureDim
        SVMEpochs := epochs
        SVMLearningRate := lr
        SVMLambda := lam
        SVMTolerance := tol } X
      (toNumeric
        { Weights := List.replicate (featureDim * (classes.length : Int)).toNat 0
          Bias := 0
          Classes := classes
          ClassMap := buildClassMap classes
          FeatureDim := featureDim
          SVMEpochs := epochs
          SVMLearningRate := lr
          SVMLambda := lam
          SVMTolerance := tol } y) := by
    refine ⟨by simp [toNumeric, hlen], hrows, ?_⟩
    intro t ht
    simp only [toNumeric, List.mem_map] at ht
    obtain ⟨label, -, rfl⟩ := ht
    exact ⟨(buildClassMap_range classes label).1, (buildClassMap_range classes label).2 hne⟩
  obtain ⟨svmF, tr, -, hT, hsame, -, -⟩ := trainTrace_spec _ X y rnd hwf hv
  refine ⟨_, svmF, hnew, hT, ?_⟩
  intro x hx
  refine ⟨predict_ok _ x hwf (le_of_eq hx.symm), ?_⟩
  exact predict_ok svmF x (wellFormed_of_sameConfig hsame hwf)
    (by rw [hsame.2.2.1]; exact le_of_eq hx.symm)

/-- Instance of C19 with two classes, one feature and a training set whose second label is
not a class name. -/
theorem Train_Predict_index_safe_witness :
    (["A", "B"] : List String) ≠ [] ∧ (0 : Int) ≤ 1 ∧
      (∀ x ∈ ([[1], [-1]] : List (List ℚ)), (x.length : Int) = 1) ∧
      (["A", "Z"] : List String).length = ([[1], [-1]] : List (List ℚ)).length ∧
      ∃ svm0 svmF,
        NewLinearSVM ["A", "B"] 1 (1 / 10) (1 / 100) (1 / 1000000) 3 = .ok svm0 ∧
        Train svm0 [[1], [-1]] ["A", "Z"] sampleDraws = .ok svmF ∧
        ∀ x : List ℚ, (x.length : Int) = 1 →
          (∃ label, Predict svm0 x = .ok label) ∧ (∃ label, Predict svmF x = .ok label) :=
  have hrows : ∀ x ∈ ([[1], [-1]] : List (List ℚ)), (x.length : Int) = 1 := by
    intro x hx
    simp only [List.mem_cons, List.mem_singleton, List.not_mem_nil, or_false] at hx
    rcases hx with rfl | rfl <;> rfl
  ⟨by decide, by decide, hrows, rfl,
    Train_Predict_index_safe ["A", "B"] 1 (1 / 10) (1 / 100) (1 / 1000000) 3 [[1], [-1]]
      ["A", "Z"] sampleDraws (by decide) (by decide) hrows rfl⟩

theorem index_cases {α : Type} (s : List α) (i : Int) :
    (∃ v, index s i = .ok v) ∨ index s i = .error .indexOutOfRange := by
  unfold index
  by_cases h : i < 0
  · right; simp [h]
  · simp only [h, if_false]
    cases s[i.toNat]? with
    | none => right; rfl
    | some v => left; exact ⟨v, rfl⟩

theorem scoreBody_cases (svm : LinearSVM) (x : List ℚ) (c : Nat) (acc : ℚ) (f : Nat) :
    (∃ v, scoreBody svm x c acc f = .ok v) ∨
      scoreBody svm x c acc f = .error .indexOutOfRange := by
  unfold scoreBody
  rcases index_cases svm.Weights ((c : Int) * svm.FeatureDim + (f : Int)) with ⟨w, hw⟩ | hw
  · rw [hw]
    rcases index_cases x (f : Int) with ⟨xf, hxf⟩ | hxf
    · rw [hxf]; left; exact ⟨_, rfl⟩
    · rw [hxf]; right; rfl
  · rw [hw]; right; rfl

theorem score_upto_cases (svm : LinearSVM) (x : List ℚ) (c : Nat) (k : Nat) :
    (∃ v, (List.range k).foldlM (scoreBody svm x c) svm.Bias = .ok v) ∨
      (List.range k).foldlM (scoreBody svm x c) svm.Bias = .error .indexOutOfRange := by
  induction k with
  | zero => left; exact ⟨svm.Bias, rfl⟩
  | succ k ih =>
    rw [foldlM_range_succ]
    rcases ih with ⟨v, hv⟩ | hv
    · rw [hv]
      simp only [ok_bind]
      exact scoreBody_cases svm x c v k
    · rw [hv]; right; rfl

theorem score_short (svm : LinearSVM) (x : List ℚ) (c : Nat)
    (hshort : (x.length : Int) < svm.FeatureDim) :
    score svm x c = .error .indexOutOfRange := by
  have hlt : x.length < svm.FeatureDim.toNat := by omega
  obtain ⟨d, hd⟩ : ∃ d, svm.FeatureDim.toNat = x.length + 1 + d :=
    ⟨svm.FeatureDim.toNat - (x.length + 1), by omega⟩
  unfold score
  rw [hd]
  clear hd hlt hshort
  induction d with
  | zero =>
    rw [Nat.add_zero, foldlM_range_succ]
    rcases score_upto_cases svm x c x.length with ⟨v, hv⟩ | hv
    · rw [hv]
      simp only [ok_bind, scoreBody]
      rcases index_cases svm.Weights ((c : Int) * svm.FeatureDim + (x.length : Int))
        with ⟨w, hw⟩ | hw
      · rw [hw, index_natCast_error x x.length le_rfl]
      · rw [hw]
    · rw [hv]; rfl
  | succ d ih =>
    rw [← Nat.add_assoc, foldlM_range_succ, ih]
    rfl

theorem foldlM_range_first_error {σ : Type} (body : σ → Nat → Result σ) (s : σ) (e : Panic)
    (n : Nat) (hn : 0 < n) (h : body s 0 = .error e) :
    (List.range n).foldlM body s = .error e := by
  obtain ⟨m, rfl⟩ : ∃ m, n = m + 1 := ⟨n - 1, by omega⟩
  rw [List.range_succ_eq_map, List.foldlM_cons, h]
  rfl

/-- C16 (amended): for a classifier with at least one class, a feature vector `x` shorter
than `FeatureDim` makes `Predict(x)` and every `Train` step on `x` fail with an
index-out-of-range panic. -/
theorem short_input_panics (svm : LinearSVM) (x : List ℚ) (hne : svm.Classes ≠ [])
    (hshort : (x.length : Int) < svm.FeatureDim) :
    Predict svm x = .error .indexOutOfRange ∧
      ∀ (loss : ℚ) (t : Int), trainStep svm loss x t = .error .indexOutOfRange := by
  have hpos : 0 < svm.Classes.length := List.length_pos.mpr hne
  have hscore := score_short svm x 0 hshort
  constructor
  · unfold Predict
    rw [foldlM_range_first_error (predictBody svm x) (none, "") .indexOutOfRange _ hpos
      (by simp only [predictBody, hscore])]
  · intro loss t
    unfold trainStep computeScores
    rw [foldlM_range_first_error (scoresBody svm x) _ .indexOutOfRange _ hpos
      (by simp only [scoresBody, hscore])]

/-- Instance of C16 (amended) on `sampleSVM` (one feature) and the empty input. -/
theorem short_input_panics_witness :
    sampleSVM.Classes ≠ [] ∧ ((([] : List ℚ).length : Int) < sampleSVM.FeatureDim) ∧
      Predict sampleSVM [] = .error .indexOutOfRange ∧
      ∀ (loss : ℚ) (t : Int), trainStep sampleSVM loss [] t = .error .indexOutOfRange :=
  ⟨by decide, by decide, short_input_panics sampleSVM [] (by decide) (by decide)⟩

/-- C16 (as stated) fails: `sampleSVM` has `FeatureDim = 1`, the input `[1, 5]` has length 2,
yet `Predict` returns `"B"` and a `Train` step on it returns a new state: only `x[0]` is
read. -/
theorem long_input_counterexample :
    sampleSVM.Classes ≠ [] ∧ ((([1, 5] : List ℚ).length : Int) ≠ sampleSVM.FeatureDim) ∧
      Predict sampleSVM [1, 5] = .ok "B" ∧
      trainStep sampleSVM 0 [1, 5] 0 =
        .ok ({ sampleSVM with Weights := [999 / 10000, 8991 / 10000], Bias := 999 / 10000 },
          2) := by
  refine ⟨by decide, by decide, ?_, ?_⟩
  · simp [Predict, predictBody, score, scoreBody, index, gtMax, sampleSVM, List.range_succ]
  · simp [trainStep, computeScores, scoresBody, score, scoreBody, selectMax, selectBody,
      hingeLoop, hingeBody, assignOp, index, sampleSVM, List.range_succ]
    norm_num

theorem getD_of_all_zero (W : List ℚ) (hz : ∀ w ∈ W, w = 0) (i : Nat) : W.getD i 0 = 0 := by
  by_cases hi : i < W.length
  · rw [List.getD_eq_getElem _ _ hi]
    exact hz _ (List.getElem_mem hi)
  · simp [List.getD, List.getElem?_eq_none (Nat.le_of_not_lt hi)]

theorem all_zero_of_cells (W : List ℚ) (nF nC : Nat) (hlen : W.length = nF * nC)
    (h : ∀ c f, c < nC → f < nF → W.getD (c * nF + f) 0 = 0) : ∀ w ∈ W, w = 0 := by
  intro w hw
  obtain ⟨i, hi, rfl⟩ := List.getElem_of_mem hw
  have hpos : 0 < nF := by
    rcases Nat.eq_zero_or_pos nF with h0 | h0
    · rw [h0, Nat.zero_mul] at hlen
      omega
    · exact h0
  have hc : i / nF < nC := by
    apply Nat.div_lt_of_lt_mul
    rw [← hlen]; exact hi
  have := h (i / nF) (i % nF) hc (Nat.mod_lt _ hpos)
  rw [Nat.div_add_mod' i nF, List.getD_eq_getElem _ _ hi] at this
  exact this

theorem foldlM_ok_invariant {σ : Type} (P : σ → Prop) (Q : Nat → Prop)
    (body : σ → Nat → Result σ)
    (hbody : ∀ s i, P s → Q i → ∃ s1, body s i = .ok s1 ∧ P s1) (l : List Nat)
    (hQ : ∀ i ∈ l, Q i) : ∀ s, P s → ∃ s1, l.foldlM body s = .ok s1 ∧ P s1 := by
  induction l with
  | nil => intro s hs; exact ⟨s, rfl, hs⟩
  | cons a t ih =>
    intro s hs
    obtain ⟨s1, hb, hs1⟩ := hbody s a hs (hQ a (List.mem_cons_self _ _))
    obtain ⟨s2, hf, hs2⟩ := ih (fun i hi => hQ i (List.mem_cons_of_mem _ hi)) s1 hs1
    exact ⟨s2, by rw [List.foldlM_cons, hb]; exact hf, hs2⟩

theorem wellFormed_length (svm : LinearSVM) (hwf : WellFormed svm) :
    svm.Weights.length = svm.FeatureDim.toNat * svm.Classes.length := by
  obtain ⟨h0, h1⟩ := hwf
  have : ((svm.FeatureDim.toNat : Nat) : Int) = svm.FeatureDim := Int.toNat_of_nonneg h0
  zify; rw [this]; exact h1

theorem decayLoop_zero (svm : LinearSVM) (hwf : WellFormed svm)
    (hz : ∀ w ∈ svm.Weights, w = 0) :
    ∃ W, decayLoop svm = .ok W ∧ (W.length = svm.Weights.length ∧ ∀ w ∈ W, w = 0) := by
  unfold decayLoop
  apply foldlM_ok_invariant
    (fun W : List ℚ => W.length = svm.Weights.length ∧ ∀ w ∈ W, w = 0)
    (fun f => f < svm.FeatureDim.toNat) (decayBody svm) ?_ _
    (fun f hf => List.mem_range.mp hf) svm.Weights ⟨rfl, hz⟩
  intro W f hW hf
  unfold decayBody
  apply foldlM_ok_invariant
    (fun W : List ℚ => W.length = svm.Weights.length ∧ ∀ w ∈ W, w = 0)
    (fun c => c < svm.Classes.length) (decayCell svm f) ?_ _
    (fun c hc => List.mem_range.mp hc) W hW
  intro W1 c hW1 hc
  have hcell : c * svm.FeatureDim.toNat + f < W1.length := by
    rw [hW1.1]; exact cell_lt svm hwf c f hc hf
  refine ⟨W1.set (c * svm.FeatureDim.toNat + f) 0, ?_, by simp [hW1.1], ?_⟩
  · unfold decayCell
    rw [cell_cast svm hwf.1, assignOp_natCast _ _ _ hcell, getD_of_all_zero W1 hW1.2]
    simp
  · intro w hw
    rcases List.mem_or_eq_of_mem_set hw with h | h
    · exact hW1.2 w h
    · exact h

/-- C17 (amended): over exact arithmetic, the zero state is a fixed point.  On a well-formed
classifier whose weights are all zero, the decay-only loop returns the all-zero matrix; every class scores `Bias`, so the
scan selects `bestIdx == t`; and a `Train` step on any valid sample returns a classifier
whose weights are all zero again, only the bias having changed. -/
theorem trainStep_zero_weights (svm : LinearSVM) (loss : ℚ) (x : List ℚ) (t : Nat)
    (hwf : WellFormed svm) (ht : t < svm.Classes.length)
    (hx : (x.length : Int) = svm.FeatureDim) (hz : ∀ w ∈ svm.Weights, w = 0) :
    (∃ W, decayLoop svm = .ok W ∧ W.length = svm.Weights.length ∧ ∀ w ∈ W, w = 0) ∧
    (∀ c, scoreSpec svm x c = svm.Bias) ∧
    selectMax svm.Classes.length ((List.range svm.Classes.length).map (scoreSpec svm x))
        (t : Int) = .ok (svm.Bias, (t : Int)) ∧
    ∃ svm1 loss1, trainStep svm loss x (t : Int) = .ok (svm1, loss1) ∧
      (∀ w ∈ svm1.Weights, w = 0) ∧ SameConfig svm svm1 ∧
      svm1.Bias = (1 - svm.SVMLearningRate * svm.SVMLambda) *
        (svm.Bias + svm.SVMLearningRate) := by
  have hscore : ∀ c, scoreSpec svm x c = svm.Bias := by
    intro c
    unfold scoreSpec
    rw [Finset.sum_eq_zero, add_zero]
    intro f _
    simp only [weightAt, getD_of_all_zero svm.Weights hz, zero_mul]
  obtain ⟨W, hW, hWlen, hWz⟩ := decayLoop_zero svm hwf hz
  obtain ⟨m, W1, hsel, hstep, hm, hmax, hne, hlen, hcells⟩ :=
    trainStep_spec svm loss x t hwf ht (le_of_eq hx.symm)
  have hmt : m = t := by
    by_contra h
    have := (hne h).1
    rw [hscore t, hscore m] at this
    exact lt_irrefl _ this
  subst hmt
  refine ⟨⟨W, hW, hWlen, hWz⟩, hscore, by rw [hsel, hscore m], _, _, hstep, ?_,
    ⟨rfl, rfl, rfl, rfl, rfl, rfl, rfl, hlen⟩, rfl⟩
  apply all_zero_of_cells W1 svm.FeatureDim.toNat svm.Classes.length
    (by rw [hlen]; exact wellFormed_length svm hwf)
  intro c f hc hf
  rw [hcells c f hc hf]
  unfold hingeCell
  simp only [weightAt, getD_of_all_zero svm.Weights hz, mul_zero, if_true]
  by_cases hcm : c = m
  · rw [if_pos hcm]
  · rw [if_neg hcm, if_neg hcm]

/-- Instance of C17 on `zeroSVM`, the sample `[1]` and the true class 1. -/
theorem trainStep_zero_weights_witness :
    WellFormed zeroSVM ∧ 1 < zeroSVM.Classes.length ∧
      (([1] : List ℚ).length : Int) = zeroSVM.FeatureDim ∧
      (∀ w ∈ zeroSVM.Weights, w = 0) ∧
      (∃ W, decayLoop zeroSVM = .ok W ∧ W.length = zeroSVM.Weights.length ∧
        ∀ w ∈ W, w = 0) ∧
      (∀ c, scoreSpec zeroSVM [1] c = zeroSVM.Bias) ∧
      selectMax zeroSVM.Classes.length
          ((List.range zeroSVM.Classes.length).map (scoreSpec zeroSVM [1]))
          ((1 : Nat) : Int) = .ok (zeroSVM.Bias, ((1 : Nat) : Int)) ∧
      ∃ svm1 loss1, trainStep zeroSVM 0 [1] ((1 : Nat) : Int) = .ok (svm1, loss1) ∧
        (∀ w ∈ svm1.Weights, w = 0) ∧ SameConfig zeroSVM svm1 ∧
        svm1.Bias = (1 - zeroSVM.SVMLearningRate * zeroSVM.SVMLambda) *
          (zeroSVM.Bias + zeroSVM.SVMLearningRate) :=
  have hz : ∀ w ∈ zeroSVM.Weights, w = 0 := by
    intro w hw
    simp only [zeroSVM, List.mem_cons, List.mem_singleton, List.not_mem_nil, or_false,
      or_self] at hw
    exact hw
  ⟨by decide, by decide, by decide, hz,
    trainStep_zero_weights zeroSVM 0 [1] 1 (by decide) (by decide) (by decide) hz⟩

theorem trainStep_branch (svm : LinearSVM) (loss : ℚ) (x : List ℚ) (t : Nat)
    (hwf : WellFormed svm) (ht : t < svm.Classes.length)
    (hx : svm.FeatureDim ≤ (x.length : Int)) :
    ∃ (ms : ℚ) (mi : Nat) (W1 : List ℚ),
      selectMax svm.Classes.length ((List.range svm.Classes.length).map (scoreSpec svm x))
          (t : Int) = .ok (ms, (mi : Int)) ∧
      mi < svm.Classes.length ∧ ms = scoreSpec svm x mi ∧
      (∀ c, c < svm.Classes.length → scoreSpec svm x c ≤ ms) ∧
      (mi ≠ t → scoreSpec svm x t < ms ∧ ∀ c, c < mi → scoreSpec svm x c < ms) ∧
      0 ≤ ms - scoreSpec svm x t ∧
      stepGap svm x (t : Int) = .ok (ms - scoreSpec svm x t) ∧
      hingeLoop svm x (t : Int) (mi : Int) = .ok W1 ∧
      W1.length = svm.Weights.length ∧
      trainStep svm loss x (t : Int) =
        .ok ({ svm with Weights := W1, Bias := biasStep svm svm.Bias },
             loss + (ms - scoreSpec svm x t + 1)) := by
  obtain ⟨ms, mi, hsel, hmi, hms, htle, hmax, hne⟩ :=
    selectMax_spec svm.Classes.length ((List.range svm.Classes.length).map (scoreSpec svm x))
      (by simp) t ht
  rw [getD_range_map _ _ _ ht] at htle
  rw [getD_range_map _ _ _ hmi] at hms
  have hmax1 : ∀ c, c < svm.Classes.length → scoreSpec svm x c ≤ ms := by
    intro c hc
    have := hmax c hc
    rwa [getD_range_map _ _ _ hc] at this
  have hne1 : mi ≠ t → scoreSpec svm x t < ms ∧ ∀ c, c < mi → scoreSpec svm x c < ms := by
    intro hmt
    obtain ⟨h1, h2⟩ := hne hmt
    rw [getD_range_map _ _ _ ht] at h1
    refine ⟨h1, fun c hc => ?_⟩
    have := h2 c hc
    rwa [getD_range_map _ _ _ (by omega)] at this
  obtain ⟨W1, hloop, hlen, -⟩ := hingeLoop_spec svm x hwf t mi ht hmi hx
  have hidx : index ((List.range svm.Classes.length).map (scoreSpec svm x)) (t : Int) =
      .ok (scoreSpec svm x t) := by
    rw [index_natCast _ t 0 (by simpa using ht), getD_range_map _ _ _ ht]
  refine ⟨ms, mi, W1, hsel, hmi, hms, hmax1, hne1, by linarith, ?_, hloop, hlen, ?_⟩
  · unfold stepGap
    rw [computeScores_eq svm x hwf hx]
    simp only []
    rw [hsel]
    simp only []
    rw [hidx]
  · unfold trainStep
    rw [computeScores_eq svm x hwf hx]
    simp only []
    rw [hsel]
    simp only []
    rw [hidx]
    simp only []
    have hpos : ms - scoreSpec svm x t + 1 > 0 := by linarith
    rw [if_pos hpos, hloop]
    simp only [biasStep]
    congr 3
    ring

theorem biasStep_congr {a b : LinearSVM} (h : SameConfig a b) : biasStep b = biasStep a := by
  funext v
  simp only [biasStep, h.2.2.2.1, h.2.2.2.2.1]

theorem gaps_upto (svm : LinearSVM) (X : List (List ℚ)) (yNumeric : List Int)
    (hwf : WellFormed svm) (hv : ValidData svm X yNumeric) (k : Nat) (hk : k ≤ X.length) :
    ∃ (svm1 : LinearSVM) (loss gsum : ℚ),
      (List.range k).foldlM (gapBody X yNumeric) (svm, 0, 0) = .ok (svm1, loss, gsum) ∧
      (List.range k).foldlM (epochBody X yNumeric) (svm, 0) = .ok (svm1, loss) ∧
      SameConfig svm svm1 ∧ 0 ≤ gsum ∧ loss = (k : ℚ) + gsum ∧
      svm1.Bias = (biasStep svm)^[k] svm.Bias := by
  induction k with
  | zero =>
    exact ⟨svm, 0, 0, rfl, rfl, sameConfig_refl svm, le_rfl, by simp, rfl⟩
  | succ k ih =>
    have hk1 : k < X.length := hk
    obtain ⟨svm1, loss, gsum, hg, he, hsame, hnn, hloss, hbias⟩ := ih (by omega)
    obtain ⟨hlen, hrows, hlabels⟩ := hv
    have hky : k < yNumeric.length := by omega
    have hxmem : X.getD k [] ∈ X := by
      rw [List.getD_eq_getElem _ _ hk1]; exact List.getElem_mem hk1
    have htmem : yNumeric.getD k 0 ∈ yNumeric := by
      rw [List.getD_eq_getElem _ _ hky]; exact List.getElem_mem hky
    obtain ⟨ht0, ht⟩ := hlabels _ htmem
    obtain ⟨n, hn⟩ := Int.eq_ofNat_of_zero_le ht0
    have hn' : yNumeric.getD k 0 = ((n : Nat) : Int) := hn
    have hnlt : n < svm1.Classes.length := by
      rw [hsame.1]
      rw [hn'] at ht
      exact_mod_cast ht
    obtain ⟨ms, mi, W1, -, -, -, -, -, hgap0, hgap, -, hW1, hstep⟩ :=
      trainStep_branch svm1 loss (X.getD k []) n (wellFormed_of_sameConfig hsame hwf) hnlt
        (by rw [hsame.2.2.1]; exact le_of_eq (hrows _ hxmem).symm)
    refine ⟨{ svm1 with Weights := W1, Bias := biasStep svm1 svm1.Bias },
      loss + (ms - scoreSpec svm1 (X.getD k []) n + 1),
      gsum + (ms - scoreSpec svm1 (X.getD k []) n), ?_, ?_,
      sameConfig_trans hsame ⟨rfl, rfl, rfl, rfl, rfl, rfl, rfl, hW1⟩, by linarith, ?_, ?_⟩
    · rw [foldlM_range_succ, hg]
      simp only [ok_bind, gapBody, index_natCast X k [] hk1, index_natCast yNumeric k 0 hky,
        hn', hgap, hstep]
    · rw [foldlM_range_succ, he]
      simp only [ok_bind, epochBody, index_natCast X k [] hk1,
        index_natCast yNumeric k 0 hky, hn', hstep]
    · rw [hloss]; push_cast; ring
    · rw [Function.iterate_succ_apply', ← hbias, biasStep_congr hsame]

theorem runEpoch_gaps (svm : LinearSVM) (X : List (List ℚ)) (yNumeric : List Int)
    (hwf : WellFormed svm) (hv : ValidData svm X yNumeric) :
    ∃ (svm1 : LinearSVM) (loss gsum : ℚ),
      runEpochGaps svm X yNumeric = .ok (svm1, loss, gsum) ∧
      runEpoch svm X yNumeric = .ok (svm1, loss) ∧
      SameConfig svm svm1 ∧ 0 ≤ gsum ∧ loss = (X.length : ℚ) + gsum ∧
      svm1.Bias = (biasStep svm)^[X.length] svm.Bias :=
  gaps_upto svm X yNumeric hwf hv _ le_rfl

theorem average_of_gaps (X : List (List ℚ)) (loss gsum : ℚ) (hX : X ≠ [])
    (hloss : loss = (X.length : ℚ) + gsum) :
    average loss X.length = .fin (1 + gsum / (X.length : ℚ)) := by
  have hpos : 0 < X.length := List.length_pos.mpr hX
  have hne : (X.length : ℚ) ≠ 0 := by exact_mod_cast (Nat.pos_iff_ne_zero.mp hpos)
  unfold average
  rw [if_neg (Nat.pos_iff_ne_zero.mp hpos), hloss]
  congr 1
  field_simp

theorem iterEpochs_margin (X : List (List ℚ)) (yNumeric : List Int) (n : Nat) :
    ∀ (svm svmF : LinearSVM) (tr : List Loss), WellFormed svm → ValidData svm X yNumeric →
      iterEpochs X yNumeric n svm = .ok (svmF, tr) →
      tr.length = n ∧ (X ≠ [] → ∀ L ∈ tr, ∃ v, L = .fin v ∧ 1 ≤ v) ∧
        svmF.Bias = (biasStep svm)^[n * X.length] svm.Bias := by
  induction n with
  | zero =>
    intro svm svmF tr _ _ h
    simp only [iterEpochs] at h
    injection h with h
    injection h with ha hb
    subst ha; subst hb
    exact ⟨rfl, fun _ L hL => by simp at hL, by simp⟩
  | succ n ih =>
    intro svm svmF tr hwf hv h
    obtain ⟨svm1, loss, gsum, -, hrun, hsame, hnn, hloss, hbias⟩ :=
      runEpoch_gaps svm X yNumeric hwf hv
    simp only [iterEpochs, hrun] at h
    cases hrec : iterEpochs X yNumeric n svm1 with
    | error e => rw [hrec] at h; cases h
    | ok r =>
      obtain ⟨svm2, tr2⟩ := r
      rw [hrec] at h
      simp only [] at h
      injection h with h
      injection h with ha hb
      subst ha; subst hb
      obtain ⟨hlen, hall, hb2⟩ :=
        ih svm1 svm2 tr2 (wellFormed_of_sameConfig hsame hwf)
          (validData_of_sameConfig hsame X yNumeric hv) hrec
      refine ⟨by simp [hlen], ?_, ?_⟩
      · intro hX L hL
        rcases List.mem_cons.mp hL with h1 | h1
        · refine ⟨1 + gsum / (X.length : ℚ), by rw [h1]; exact average_of_gaps X loss gsum hX hloss, ?_⟩
          have : 0 ≤ gsum / (X.length : ℚ) := div_nonneg hnn (Nat.cast_nonneg _)
          linarith
        · exact hall hX L h1
      · rw [hb2, hbias, biasStep_congr hsame, ← Function.iterate_add_apply]
        congr 1
        ring

/-- C20: over exact arithmetic the margin is never below 1.  For a well-formed classifier
state and data meeting the caller contract: (a) on every valid sample the computed margin
`maxScore - scores[trueClass] + 1` is `>= 1` and the step returns the result of the
`margin > 0` branch (weights from the gradient loop, bias `(1 - lr*λ)*(bias + lr)`, loss
increased by the margin); (b) an epoch accumulates `len(X)` plus the sum of the
non-negative gaps `maxScore - scores[trueClass]`, so for non-empty `X` its average loss is
`1 + gaps/len(X)`, and it applies the bias update `len(X)` times; (c) `Train` returns, for
non-empty `X` every epoch's average loss is `>= 1`, and the final bias is the old bias after
one bias update per sample of every executed epoch. -/
theorem margin_at_least_one (svm : LinearSVM) (X : List (List ℚ)) (y : List String)
    (rnd : Nat → ℚ) (hwf : WellFormed svm) (hv : ValidData svm X (toNumeric svm y)) :
    (∀ (loss : ℚ) (x : List ℚ) (t : Nat), t < svm.Classes.length →
      (x.length : Int) = svm.FeatureDim →
      ∃ (ms : ℚ) (mi : Nat) (W1 : List ℚ),
        selectMax svm.Classes.length
            ((List.range svm.Classes.length).map (scoreSpec svm x)) (t : Int)
          = .ok (ms, (mi : Int)) ∧
        stepGap svm x (t : Int) = .ok (ms - scoreSpec svm x t) ∧
        1 ≤ ms - scoreSpec svm x t + 1 ∧
        hingeLoop svm x (t : Int) (mi : Int) = .ok W1 ∧
        trainStep svm loss x (t : Int) =
          .ok ({ svm with Weights := W1, Bias := biasStep svm svm.Bias },
               loss + (ms - scoreSpec svm x t + 1))) ∧
    (∃ (svm1 : LinearSVM) (loss gsum : ℚ),
      runEpochGaps svm X (toNumeric svm y) = .ok (svm1, loss, gsum) ∧
      runEpoch svm X (toNumeric svm y) = .ok (svm1, loss) ∧
      0 ≤ gsum ∧ loss = (X.length : ℚ) + gsum ∧
      (X ≠ [] → average loss X.length = .fin (1 + gsum / (X.length : ℚ))) ∧
      svm1.Bias = (biasStep svm)^[X.length] svm.Bias) ∧
    (∃ (svmF : LinearSVM) (tr : List Loss),
      TrainTrace svm X y rnd = .ok (svmF, tr) ∧
      (X ≠ [] → ∀ L ∈ tr, ∃ v, L = .fin v ∧ 1 ≤ v) ∧
      svmF.Bias = (biasStep svm)^[tr.length * X.length] svm.Bias) := by
  refine ⟨?_, ?_, ?_⟩
  · intro loss x t ht hx
    obtain ⟨ms, mi, W1, hsel, -, -, -, -, hgap0, hgap, hloop, -, hstep⟩ :=
      trainStep_branch svm loss x t hwf ht (le_of_eq hx.symm)
    exact ⟨ms, mi, W1, hsel, hgap, by linarith, hloop, hstep⟩
  · obtain ⟨svm1, loss, gsum, hg, hrun, -, hnn, hloss, hbias⟩ :=
      runEpoch_gaps svm X (toNumeric svm y) hwf hv
    exact ⟨svm1, loss, gsum, hg, hrun, hnn, hloss,
      fun hX => average_of_gaps X loss gsum hX hloss, hbias⟩
  · obtain ⟨svmF, tr, hT, -, -, -, hiter⟩ := trainTrace_spec svm X y rnd hwf hv
    have hs := trainStart_sameConfig svm rnd
    obtain ⟨-, hall, hbias⟩ :=
      iterEpochs_margin X (toNumeric svm y) tr.length (trainStart svm rnd) svmF tr
        (wellFormed_of_sameConfig hs hwf) (validData_of_sameConfig hs X _ hv) hiter
    refine ⟨svmF, tr, hT, hall, ?_⟩
    rw [hbias, biasStep_congr hs]
    rfl

/-- Instance of C20 on `sampleSVM` trained on the single sample `([1], "B")`. -/
theorem margin_at_least_one_witness :
    WellFormed sampleSVM ∧ ValidData sampleSVM [[1]] (toNumeric sampleSVM ["B"]) ∧
      (∀ (loss : ℚ) (x : List ℚ) (t : Nat), t < sampleSVM.Classes.length →
        (x.length : Int) = sampleSVM.FeatureDim →
        ∃ (ms : ℚ) (mi : Nat) (W1 : List ℚ),
          selectMax sampleSVM.Classes.length
              ((List.range sampleSVM.Classes.length).map (scoreSpec sampleSVM x)) (t : Int)
            = .ok (ms, (mi : Int)) ∧
          stepGap sampleSVM x (t : Int) = .ok (ms - scoreSpec sampleSVM x t) ∧
          1 ≤ ms - scoreSpec sampleSVM x t + 1 ∧
          hingeLoop sampleSVM x (t : Int) (mi : Int) = .ok W1 ∧
          trainStep sampleSVM loss x (t : Int) =
            .ok ({ sampleSVM with Weights := W1, Bias := biasStep sampleSVM sampleSVM.Bias },
                 loss + (ms - scoreSpec sampleSVM x t + 1))) ∧
      (∃ (svm1 : LinearSVM) (loss gsum : ℚ),
        runEpochGaps sampleSVM [[1]] (toNumeric sampleSVM ["B"]) = .ok (svm1, loss, gsum) ∧
        runEpoch sampleSVM [[1]] (toNumeric sampleSVM ["B"]) = .ok (svm1, loss) ∧
        0 ≤ gsum ∧ loss = (([[1]] : List (List ℚ)).length : ℚ) + gsum ∧
        (([[1]] : List (List ℚ)) ≠ [] →
          average loss ([[1]] : List (List ℚ)).length =
            .fin (1 + gsum / (([[1]] : List (List ℚ)).length : ℚ))) ∧
        svm1.Bias = (biasStep sampleSVM)^[([[1]] : List (List ℚ)).length] sampleSVM.Bias) ∧
      (∃ (svmF : LinearSVM) (tr : List Loss),
        TrainTrace sampleSVM [[1]] ["B"] sampleDraws = .ok (svmF, tr) ∧
        (([[1]] : List (List ℚ)) ≠ [] → ∀ L ∈ tr, ∃ v, L = .fin v ∧ 1 ≤ v) ∧
        svmF.Bias =
          (biasStep sampleSVM)^[tr.length * ([[1]] : List (List ℚ)).length]
            sampleSVM.Bias) :=
  have hv : ValidData sampleSVM [[1]] (toNumeric sampleSVM ["B"]) := by
    simp [ValidData, toNumeric, mapLookup, sampleSVM, buildClassMap, mapInsert, List.enum]
  ⟨by decide, hv, margin_at_least_one sampleSVM [[1]] ["B"] sampleDraws (by decide) hv⟩

theorem eq_withBias {a b : LinearSVM} (h : SameConfig a b) (hW : b.Weights = a.Weights) :
    b = withBias a b.Bias := by
  obtain ⟨h1, h2, h3, h4, h5, h6, h7, -⟩ := h
  cases a
  cases b
  simp only [withBias] at *
  subst h1 h2 h3 h4 h5 h6 h7 hW
  rfl

theorem withBias_wellFormed (svm : LinearSVM) (b : ℚ) (hwf : WellFormed svm) :
    WellFormed (withBias svm b) := hwf

theorem scoreSpec_withBias (svm : LinearSVM) (b : ℚ) (x : List ℚ) (c : Nat) :
    scoreSpec (withBias svm b) x c = scoreSpec svm x c + (b - svm.Bias) := by
  simp only [scoreSpec, withBias, weightAt]
  ring

theorem trainStep_withBias (svm : LinearSVM) (b loss : ℚ) (x : List ℚ) (t : Nat)
    (hwf : WellFormed svm) (ht : t < svm.Classes.length)
    (hx : svm.FeatureDim ≤ (x.length : Int)) :
    ∃ (svm1 : LinearSVM) (loss1 b1 : ℚ),
      trainStep svm loss x (t : Int) = .ok (svm1, loss1) ∧
      trainStep (withBias svm b) loss x (t : Int) = .ok (withBias svm1 b1, loss1) ∧
      SameConfig svm svm1 := by
  obtain ⟨ms, mi, W1, -, hmi, hms, hmax, hne, -, -, hloop, hlen, hstep⟩ :=
    trainStep_branch svm loss x t hwf ht hx
  obtain ⟨ms2, mi2, W2, -, hmi2, hms2, hmax2, hne2, -, -, hloop2, -, hstep2⟩ :=
    trainStep_branch (withBias svm b) loss x t (withBias_wellFormed svm b hwf) ht hx
  have hmi2' : mi2 < svm.Classes.length := hmi2
  have hmax2' : ∀ c, c < svm.Classes.length → scoreSpec (withBias svm b) x c ≤ ms2 := hmax2
  simp only [scoreSpec_withBias] at hms2 hmax2' hne2 hstep2
  have hidx : mi2 = mi := by
    by_cases h1 : mi = t
    · by_contra h2
      have h3 : mi2 ≠ t := fun h => h2 (h.trans h1.symm)
      have h4 := (hne2 h3).1
      have h5 := hmax mi2 hmi2'
      rw [hms, h1] at h5
      rw [hms2] at h4
      linarith
    · obtain ⟨h3, h4⟩ := hne h1
      by_cases h2 : mi2 = t
      · exfalso
        have h5 := hmax2' mi hmi
        rw [hms2, h2] at h5
        rw [hms] at h3
        linarith
      · obtain ⟨h5, h6⟩ := hne2 h2
        rcases Nat.lt_trichotomy mi mi2 with h | h | h
        · exfalso
          have h7 := h6 mi h
          have h8 := hmax mi2 hmi2'
          rw [hms2] at h7
          rw [hms] at h8
          linarith
        · exact h.symm
        · exfalso
          have h7 := h4 mi2 h
          have h8 := hmax2' mi hmi
          rw [hms] at h7
          rw [hms2] at h8
          linarith
  subst hidx
  have hWeq : W2 = W1 := by
    have e : hingeLoop (withBias svm b) x (t : Int) (mi2 : Int) =
        hingeLoop svm x (t : Int) (mi2 : Int) := rfl
    rw [e, hloop] at hloop2
    injection hloop2 with h
    exact h.symm
  subst hWeq
  refine ⟨_, _, biasStep svm b, hstep, ?_, ⟨rfl, rfl, rfl, rfl, rfl, rfl, rfl, hlen⟩⟩
  rw [hstep2]
  congr 2
  rw [hms2, hms]
  ring

theorem epoch_withBias_upto (svm : LinearSVM) (b : ℚ) (X : List (List ℚ))
    (yNumeric : List Int) (hwf : WellFormed svm) (hv : ValidData svm X yNumeric) (k : Nat)
    (hk : k ≤ X.length) :
    ∃ (svm1 : LinearSVM) (loss1 b1 : ℚ),
      (List.range k).foldlM (epochBody X yNumeric) (svm, 0) = .ok (svm1, loss1) ∧
      (List.range k).foldlM (epochBody X yNumeric) (withBias svm b, 0)
        = .ok (withBias svm1 b1, loss1) ∧
      SameConfig svm svm1 := by
  induction k with
  | zero => exact ⟨svm, 0, b, rfl, rfl, sameConfig_refl svm⟩
  | succ k ih =>
    have hk1 : k < X.length := hk
    obtain ⟨svm1, loss1, b1, hf, hfb, hsame⟩ := ih (by omega)
    obtain ⟨hlen, hrows, hlabels⟩ := hv
    have hky : k < yNumeric.length := by omega
    have hxmem : X.getD k [] ∈ X := by
      rw [List.getD_eq_getElem _ _ hk1]; exact List.getElem_mem hk1
    have htmem : yNumeric.getD k 0 ∈ yNumeric := by
      rw [List.getD_eq_getElem _ _ hky]; exact List.getElem_mem hky
    obtain ⟨ht0, ht⟩ := hlabels _ htmem
    obtain ⟨n, hn⟩ := Int.eq_ofNat_of_zero_le ht0
    have hn' : yNumeric.getD k 0 = ((n : Nat) : Int) := hn
    have hnlt : n < svm1.Classes.length := by
      rw [hsame.1]
      rw [hn'] at ht
      exact_mod_cast ht
    obtain ⟨svm2, loss2, b2, hstep, hstepb, hsame2⟩ :=
      trainStep_withBias svm1 b1 loss1 (X.getD k []) n (wellFormed_of_sameConfig hsame hwf)
        hnlt (by rw [hsame.2.2.1]; exact le_of_eq (hrows _ hxmem).symm)
    refine ⟨svm2, loss2, b2, ?_, ?_, sameConfig_trans hsame hsame2⟩
    · rw [foldlM_range_succ, hf]
      simp only [ok_bind, epochBody, index_natCast X k [] hk1,
        index_natCast yNumeric k 0 hky, hn', hstep]
    · rw [foldlM_range_succ, hfb]
      simp only [ok_bind, epochBody, index_natCast X k [] hk1,
        index_natCast yNumeric k 0 hky, hn', hstepb]

theorem epochLoop_withBias (X : List (List ℚ)) (yNumeric : List Int) (n : Nat) :
    ∀ (prev : Loss) (svm : LinearSVM) (b : ℚ), WellFormed svm → ValidData svm X yNumeric →
      ∃ (svmF : LinearSVM) (bF : ℚ) (tr : List Loss),
        epochLoop X yNumeric n prev svm = .ok (svmF, tr) ∧
        epochLoop X yNumeric n prev (withBias svm b) = .ok (withBias svmF bF, tr) := by
  induction n with
  | zero => intro prev svm b _ _; exact ⟨svm, b, [], rfl, rfl⟩
  | succ n ih =>
    intro prev svm b hwf hv
    obtain ⟨svm1, loss1, b1, hrun, hrunb, hsame⟩ :=
      epoch_withBias_upto svm b X yNumeric hwf hv X.length le_rfl
    have hrun' : runEpoch svm X yNumeric = .ok (svm1, loss1) := hrun
    have hrunb' : runEpoch (withBias svm b) X yNumeric = .ok (withBias svm1 b1, loss1) :=
      hrunb
    have htol : (withBias svm1 b1).SVMTolerance = svm1.SVMTolerance := rfl
    by_cases hconv : converged prev (average loss1 X.length) svm1.SVMTolerance = true
    · refine ⟨svm1, b1, [average loss1 X.length], ?_, ?_⟩
      · simp only [epochLoop, hrun', hconv, if_true]
      · simp only [epochLoop, hrunb', htol, hconv, if_true]
    · obtain ⟨svmF, bF, tr, hloop, hloopb⟩ :=
        ih (average loss1 X.length) svm1 b1 (wellFormed_of_sameConfig hsame hwf)
          (validData_of_sameConfig hsame X yNumeric hv)
      refine ⟨svmF, bF, average loss1 X.length :: tr, ?_, ?_⟩
      · simp only [epochLoop, hrun', hconv, hloop]
        simp
      · simp only [epochLoop, hrunb', htol, hconv, hloopb]
        simp

theorem score_withBias_upto (svm : LinearSVM) (b : ℚ) (x : List ℚ) (c k : Nat) :
    (List.range k).foldlM (scoreBody (withBias svm b) x c) b =
      match (List.range k).foldlM (scoreBody svm x c) svm.Bias with
      | .error e => .error e
      | .ok v => .ok (v + (b - svm.Bias)) := by
  induction k with
  | zero =>
    simp only [List.range_zero, List.foldlM_nil]
    show Except.ok b = Except.ok (svm.Bias + (b - svm.Bias))
    congr 1
    ring
  | succ k ih =>
    rw [foldlM_range_succ, foldlM_range_succ, ih]
    cases (List.range k).foldlM (scoreBody svm x c) svm.Bias with
    | error e => rfl
    | ok v =>
      simp only [ok_bind]
      show scoreBody svm x c (v + (b - svm.Bias)) k = _
      unfold scoreBody
      cases index svm.Weights ((c : Int) * svm.FeatureDim + (k : Int)) with
      | error e => rfl
      | ok w =>
        cases index x (k : Int) with
        | error e => rfl
        | ok xf =>
          simp only []
          congr 1
          ring

theorem score_withBias (svm : LinearSVM) (b : ℚ) (x : List ℚ) (c : Nat) :
    score (withBias svm b) x c =
      match score svm x c with
      | .error e => .error e
      | .ok v => .ok (v + (b - svm.Bias)) :=
  score_withBias_upto svm b x c svm.FeatureDim.toNat

theorem predict_withBias_upto (svm : LinearSVM) (b : ℚ) (x : List ℚ) (k : Nat) :
    (List.range k).foldlM (predictBody (withBias svm b) x) (none, "") =
      match (List.range k).foldlM (predictBody svm x) (none, "") with
      | .error e => .error e
      | .ok acc => .ok (acc.1.map (fun v => v + (b - svm.Bias)), acc.2) := by
  induction k with
  | zero => rfl
  | succ k ih =>
    rw [foldlM_range_succ, foldlM_range_succ, ih]
    cases (List.range k).foldlM (predictBody svm x) (none, "") with
    | error e => rfl
    | ok acc =>
      obtain ⟨mx, name⟩ := acc
      simp only [ok_bind, predictBody, score_withBias]
      cases score svm x k with
      | error e => rfl
      | ok v =>
        simp only []
        have hgt : gtMax (v + (b - svm.Bias)) (mx.map (fun v => v + (b - svm.Bias))) =
            gtMax v mx := by
          cases mx with
          | none => rfl
          | some m => simp [gtMax]
        rw [hgt]
        have hcl : (withBias svm b).Classes = svm.Classes := rfl
        rw [hcl]
        by_cases hg : gtMax v mx = true
        · simp only [hg, if_true]
          cases index svm.Classes (k : Int) with
          | error e => rfl
          | ok nm => rfl
        · simp only [hg]
          rfl

theorem Predict_withBias (svm : LinearSVM) (b : ℚ) (x : List ℚ) :
    Predict (withBias svm b) x = Predict svm x := by
  unfold Predict
  have hcl : (withBias svm b).Classes = svm.Classes := rfl
  rw [hcl, predict_withBias_upto]
  cases (List.range svm.Classes.length).foldlM (predictBody svm x) (none, "") with
  | error e => rfl
  | ok acc => rfl

theorem trainStart_of_sameConfig {a b : LinearSVM} (h : SameConfig a b) (rnd : Nat → ℚ) :
    trainStart b rnd = withBias (trainStart a rnd) b.Bias := by
  have hW : (trainStart b rnd).Weights = (trainStart a rnd).Weights := by
    simp only [trainStart, initWeights, h.2.2.2.2.2.2.2]
  have hs : SameConfig (trainStart a rnd) (trainStart b rnd) :=
    ⟨h.1, h.2.1, h.2.2.1, h.2.2.2.1, h.2.2.2.2.1, h.2.2.2.2.2.1, h.2.2.2.2.2.2.1,
      by rw [hW]⟩
  exact eq_withBias hs hW

/-- C13 (amended): over exact arithmetic, re-training discards prior learning.  For two
classifier states that agree on everything but the values of `Weights` and `Bias`, one of them well-formed, and valid
`(X, y)`, `Train` with the same draws returns for both, with the same per-epoch losses (so
the same number of epochs) and identical final weights; and `Predict` gives the same outcome
on every input in the two resulting states. -/
theorem retrain_discards_prior (svm svm2 : LinearSVM) (X : List (List ℚ)) (y : List String)
    (rnd : Nat → ℚ) (hcfg : SameConfig svm svm2) (hwf : WellFormed svm)
    (hv : ValidData svm X (toNumeric svm y)) :
    ∃ (svmF svmF2 : LinearSVM) (tr : List Loss),
      TrainTrace svm X y rnd = .ok (svmF, tr) ∧ TrainTrace svm2 X y rnd = .ok (svmF2, tr) ∧
      Train svm X y rnd = .ok svmF ∧ Train svm2 X y rnd = .ok svmF2 ∧
      svmF2.Weights = svmF.Weights ∧
      ∀ x : List ℚ, Predict svmF2 x = Predict svmF x := by
  have hs := trainStart_sameConfig svm rnd
  obtain ⟨svmF, bF, tr, hloop, hloopb⟩ :=
    epochLoop_withBias X (toNumeric svm y) svm.SVMEpochs.toNat .posInf (trainStart svm rnd)
      svm2.Bias (wellFormed_of_sameConfig hs hwf) (validData_of_sameConfig hs X _ hv)
  have hT : TrainTrace svm X y rnd = .ok (svmF, tr) := hloop
  have hnum : toNumeric svm2 y = toNumeric svm y := by
    simp only [toNumeric, hcfg.2.1]
  have hT2 : TrainTrace svm2 X y rnd = .ok (withBias svmF bF, tr) := by
    show epochLoop X (toNumeric svm2 y) svm2.SVMEpochs.toNat .posInf (trainStart svm2 rnd) = _
    rw [hnum, hcfg.2.2.2.2.2.2.1, trainStart_of_sameConfig hcfg rnd]
    exact hloopb
  refine ⟨svmF, withBias svmF bF, tr, hT, hT2, by simp only [Train, hT],
    by simp only [Train, hT2], rfl, fun x => Predict_withBias svmF bF x⟩

/-- Instance of C13 on `sampleSVM` and `learnedSVM`, trained on the single sample
`([1], "B")`. -/
theorem retrain_discards_prior_witness :
    SameConfig sampleSVM learnedSVM ∧ WellFormed sampleSVM ∧
      ValidData sampleSVM [[1]] (toNumeric sampleSVM ["B"]) ∧
      ∃ (svmF svmF2 : LinearSVM) (tr : List Loss),
        TrainTrace sampleSVM [[1]] ["B"] sampleDraws = .ok (svmF, tr) ∧
        TrainTrace learnedSVM [[1]] ["B"] sampleDraws = .ok (svmF2, tr) ∧
        Train sampleSVM [[1]] ["B"] sampleDraws = .ok svmF ∧
        Train learnedSVM [[1]] ["B"] sampleDraws = .ok svmF2 ∧
        svmF2.Weights = svmF.Weights ∧
        ∀ x : List ℚ, Predict svmF2 x = Predict svmF x :=
  have hcfg : SameConfig sampleSVM learnedSVM := ⟨rfl, rfl, rfl, rfl, rfl, rfl, rfl, rfl⟩
  have hv : ValidData sampleSVM [[1]] (toNumeric sampleSVM ["B"]) := by
    simp [ValidData, toNumeric, mapLookup, sampleSVM, buildClassMap, mapInsert, List.enum]
  ⟨hcfg, by decide, hv,
    retrain_discards_prior sampleSVM learnedSVM [[1]] ["B"] sampleDraws hcfg (by decide) hv⟩

/-! ## The program on binary64 and 64-bit integers -/

/-- Binary64 values of the constants used below, in units of `2^(-1074)`. -/
theorem lit_values :
    F64.lit 0 1 = .fin 0 ∧ F64.lit 1 1 = .fin (2 ^ 1074) ∧ F64.lit 1 2 = .fin (2 ^ 1073) ∧
    F64.lit (2 ^ 53) 1 = .fin (2 ^ 1127) ∧ F64.lit (-(2 ^ 53)) 1 = .fin (-(2 ^ 1127)) ∧
    F64.lit (2 ^ 54) 1 = .fin (2 ^ 1128) := by
  decide!

/-- Known facts of binary64 arithmetic reproduced by the model: `0.1` is the double
`0x3FB999999999999A`, `0.1 + 0.2` is `0.30000000000000004`, `2^53 + 1` rounds to `2^53`,
`2 * 2^1023` overflows, `Inf - Inf` is NaN and NaN compares false. -/
theorem binary64_facts :
    F64.lit 1 10 = .fin (3602879701896397 * 2 ^ 1019) ∧
    F64.add (F64.lit 1 10) (F64.lit 2 10) = F64.lit 30000000000000004 100000000000000000 ∧
    F64.add (F64.lit 1 10) (F64.lit 2 10) ≠ F64.lit 3 10 ∧
    F64.add (F64.lit (2 ^ 53) 1) (F64.lit 1 1) = F64.lit (2 ^ 53) 1 ∧
    F64.mul (F64.lit 2 1) (F64.lit (2 ^ 1023) 1) = .posInf ∧
    F64.sub .posInf .posInf = .nan ∧
    F64.lt .nan (F64.lit 1 1) = false ∧ F64.lt .negInf .negInf = false := by
  decide!

theorem exact_cancelSVM :
    exactSVM cancelSVM =
      { sampleSVM with
        Weights := [2 ^ 53, 1, -(2 ^ 53), 1 / 2, 0, 0], FeatureDim := 3, SVMLearningRate := 1,
        SVMLambda := 0, SVMTolerance := 0, SVMEpochs := 1 } := by
  obtain ⟨h0, h1, h2, h3, h4, h5⟩ := lit_values
  simp only [exactSVM, cancelSVM, pairSVM64, sampleSVM, h0, h1, h2, h3, h4, h5, F64.toRat,
    List.map]
  norm_num

theorem exact_pairSVM64 (a b : Int) :
    exactSVM (pairSVM64 (.fin a) (.fin b)) =
      { sampleSVM with
        Weights := [(a : ℚ) / 2 ^ 1074, (b : ℚ) / 2 ^ 1074], SVMLearningRate := 1,
        SVMLambda := 0, SVMTolerance := 0, SVMEpochs := 1 } := by
  obtain ⟨h0, h1, -⟩ := lit_values
  simp only [exactSVM, pairSVM64, sampleSVM, h0, h1, F64.toRat, List.map]
  norm_num

/-- C1 (as stated) fails on binary64.  (1) With the single class `"A"`, the weight `-2^1023`
and the input `[2]` the score overflows to `-Inf`, which is not `> math.Inf(-1)`, and
`Predict` returns `""`, not `"A"`.  (2) On `cancelSVM` and the input `[1,1,1]` the scores
`Bias + Σ_f w*x` are `1` for `"A"` and `1/2` for `"B"`, and the exact reading of the code
returns `"A"`; in binary64 `2^53 + 1` rounds to `2^53`, the computed scores are `0` and
`1/2`, and `Predict` returns `"B"`. -/
theorem Predict64_argmax_counterexample :
    (overflowSVM.Classes = ["A"] ∧ overflowSVM.FeatureDim = 1 ∧
      score64 overflowSVM [F64.lit 2 1] 0 = .ok .negInf ∧
      Predict64 overflowSVM [F64.lit 2 1] = .ok "") ∧
    (scoreSpec (exactSVM cancelSVM) ([F64.lit 1 1, F64.lit 1 1, F64.lit 1 1].map F64.toRat) 0
        = 1 ∧
      scoreSpec (exactSVM cancelSVM) ([F64.lit 1 1, F64.lit 1 1, F64.lit 1 1].map F64.toRat) 1
        = 1 / 2 ∧
      Predict (exactSVM cancelSVM) ([F64.lit 1 1, F64.lit 1 1, F64.lit 1 1].map F64.toRat)
        = .ok "A" ∧
      score64 cancelSVM [F64.lit 1 1, F64.lit 1 1, F64.lit 1 1] 0 = .ok (F64.lit 0 1) ∧
      score64 cancelSVM [F64.lit 1 1, F64.lit 1 1, F64.lit 1 1] 1 = .ok (F64.lit 1 2) ∧
      Predict64 cancelSVM [F64.lit 1 1, F64.lit 1 1, F64.lit 1 1] = .ok "B") := by
  have hx : ([F64.lit 1 1, F64.lit 1 1, F64.lit 1 1].map F64.toRat) = [1, 1, 1] := by
    simp only [lit_values.2.1, List.map, F64.toRat]
    norm_num
  rw [hx, exact_cancelSVM]
  refine ⟨by decide!, ?_, ?_, ?_, by decide!, by decide!, by decide!⟩
  · simp [scoreSpec, weightAt, sampleSVM, Finset.sum_range_succ]
  · simp [scoreSpec, weightAt, sampleSVM, Finset.sum_range_succ]
  · simp [Predict, predictBody, score, scoreBody, gtMax, index, sampleSVM, List.range_succ]
    norm_num

/-- C4 (as stated) fails on binary64: on `absorbSVM` (weights `[2^53, 2^54]`, `lr = 1`,
`λ = 0`) and the sample `[1]` with true class 0, class 1 strictly outscores the true class
and is the selected `bestIdx`; the claimed new weights are `2^53 + 1` and `2^54 - 1` and the
claimed margin is `2^53 + 1`, but both additions are absorbed: the step leaves the weights
at `[2^53, 2^54]` and adds `2^53` to the loss. -/
theorem trainStep64_competitor_counterexample :
    computeScores64 absorbSVM [F64.lit 1 1] = .ok [F64.lit (2 ^ 53) 1, F64.lit (2 ^ 54) 1] ∧
    F64.lt (F64.lit (2 ^ 53) 1) (F64.lit (2 ^ 54) 1) = true ∧
    selectMax64 2 [F64.lit (2 ^ 53) 1, F64.lit (2 ^ 54) 1] 0 = .ok (F64.lit (2 ^ 54) 1, 1) ∧
    hingeCell (exactSVM absorbSVM) ([F64.lit 1 1].map F64.toRat) 0 1 0 0 = 2 ^ 53 + 1 ∧
    hingeCell (exactSVM absorbSVM) ([F64.lit 1 1].map F64.toRat) 0 1 1 0 = 2 ^ 54 - 1 ∧
    scoreSpec (exactSVM absorbSVM) ([F64.lit 1 1].map F64.toRat) 1 -
      scoreSpec (exactSVM absorbSVM) ([F64.lit 1 1].map F64.toRat) 0 + 1 = 2 ^ 53 + 1 ∧
    stepOutcome64 (trainStep64 absorbSVM (F64.lit 0 1) [F64.lit 1 1] 0) =
      .ok ([F64.lit (2 ^ 53) 1, F64.lit (2 ^ 54) 1], F64.lit 1 1, F64.lit (2 ^ 53) 1) ∧
    [F64.lit (2 ^ 53) 1, F64.lit (2 ^ 54) 1].map F64.toRat = [2 ^ 53, 2 ^ 54] := by
  have hx : ([F64.lit 1 1].map F64.toRat) = [1] := by
    simp only [lit_values.2.1, List.map, F64.toRat]
    norm_num
  have he : exactSVM absorbSVM =
      { sampleSVM with
        Weights := [2 ^ 53, 2 ^ 54], SVMLearningRate := 1,
        SVMLambda := 0, SVMTolerance := 0, SVMEpochs := 1 } := by
    unfold absorbSVM
    rw [lit_values.2.2.2.1, lit_values.2.2.2.2.2, exact_pairSVM64]
    norm_num
  rw [hx, he]
  refine ⟨by decide!, by decide!, by decide!, ?_, ?_, ?_, by decide!, ?_⟩
  · simp [hingeCell, weightAt, sampleSVM]
  · simp [hingeCell, weightAt, sampleSVM]
  · simp [scoreSpec, weightAt, sampleSVM, Finset.sum_range_succ]
    norm_num
  · simp only [lit_values.2.2.2.1, lit_values.2.2.2.2.2, List.map, F64.toRat]
    norm_num

/-- C5 (as stated) fails on binary64: on `unitSVM64` (weights `[1, 0]`, `lr = 1`, `λ = 0`)
and the sample `[2^53]` with true class 0, no class outscores the true class
(`bestIdx == t`) and the claimed new weight of row 0 is `(1 - lr*λ)^2 * 1 = 1`; but
`1 + 2^53` rounds to `2^53` and `2^53 - 2^53` is `0`, so `+lr*x[f]` and `-lr*x[f]` do not
cancel and the step leaves the weights at `[0, 0]`. -/
theorem trainStep64_degenerate_counterexample :
    computeScores64 unitSVM64 [F64.lit (2 ^ 53) 1] = .ok [F64.lit (2 ^ 53) 1, F64.lit 0 1] ∧
    selectMax64 2 [F64.lit (2 ^ 53) 1, F64.lit 0 1] 0 = .ok (F64.lit (2 ^ 53) 1, 0) ∧
    hingeCell (exactSVM unitSVM64) ([F64.lit (2 ^ 53) 1].map F64.toRat) 0 0 0 0 = 1 ∧
    stepOutcome64 (trainStep64 unitSVM64 (F64.lit 0 1) [F64.lit (2 ^ 53) 1] 0) =
      .ok ([F64.lit 0 1, F64.lit 0 1], F64.lit 1 1, F64.lit 1 1) ∧
    F64.toRat (F64.lit 0 1) ≠ 1 := by
  have he : exactSVM unitSVM64 =
      { sampleSVM with
        Weights := [1, 0], SVMLearningRate := 1,
        SVMLambda := 0, SVMTolerance := 0, SVMEpochs := 1 } := by
    unfold unitSVM64
    rw [lit_values.1, lit_values.2.1, exact_pairSVM64]
    norm_num
  rw [he]
  refine ⟨by decide!, by decide!, ?_, by decide!, ?_⟩
  · simp [hingeCell, weightAt, sampleSVM]
  · simp [lit_values.1, F64.toRat]

/-- C17 (as stated) fails on binary64: on the all-zero weight matrix of `zeroSVM64`
(`lr = 2`, `λ = 1/4 > 0`) and the sample `[2^1023]` with true class 1, every class scores
`0` and `bestIdx == t`, but `lr * x[0]` overflows to `+Inf`, so the weight of the true class
becomes `0 + Inf - Inf`, which is NaN: the step maps the all-zero matrix to `[0, NaN]`. -/
theorem trainStep64_zero_weights_counterexample :
    zeroSVM64.Weights = [.fin 0, .fin 0] ∧
    F64.lt (.fin 0) zeroSVM64.SVMLambda = true ∧
    computeScores64 zeroSVM64 [F64.lit (2 ^ 1023) 1] = .ok [.fin 0, .fin 0] ∧
    selectMax64 2 [.fin 0, .fin 0] 1 = .ok (.fin 0, 1) ∧
    F64.mul zeroSVM64.SVMLearningRate (F64.lit (2 ^ 1023) 1) = .posInf ∧
    stepOutcome64 (trainStep64 zeroSVM64 (.fin 0) [F64.lit (2 ^ 1023) 1] 1) =
      .ok ([.fin 0, .nan], F64.lit 1 1, F64.lit 1 1) := by
  decide!

/-- C13 (as stated) fails on binary64: the states `learnedSVM64 7 0` and
`learnedSVM64 5 2^60` differ only in `Weights` and `Bias`; trained with the same draws
(`1/2, 3/4`: initial weights `0, 0.005`) for one epoch on the sample `([1], "A")`, the first
sees class 1 outscore class 0 and ends with the weights `[1, -0.995]`, while in the second
`2^60 + 0.005` rounds to `2^60`, the classes tie, and it ends with the weights `[0, 0.005]`;
afterwards `Predict([-1])` returns `"B"` in the first and `"A"` in the second. -/
theorem retrain64_counterexample :
    initWeights64 [F64.lit 7 1, F64.lit (-3) 1] draws64 = [F64.lit 0 1, F64.lit 5 1000] ∧
    params64 (Train64 (learnedSVM64 (F64.lit 7 1) (F64.lit 0 1)) [[F64.lit 1 1]] ["A"]
        draws64) = .ok ([F64.lit 1 1, F64.lit (-995) 1000], F64.lit 1 1) ∧
    params64 (Train64 (learnedSVM64 (F64.lit 5 1) (F64.lit (2 ^ 60) 1)) [[F64.lit 1 1]] ["A"]
        draws64) = .ok ([F64.lit 0 1, F64.lit 5 1000], F64.lit (2 ^ 60) 1) ∧
    trainPredict64 (learnedSVM64 (F64.lit 7 1) (F64.lit 0 1)) [[F64.lit 1 1]] ["A"] draws64
        [F64.lit (-1) 1] = .ok "B" ∧
    trainPredict64 (learnedSVM64 (F64.lit 5 1) (F64.lit (2 ^ 60) 1)) [[F64.lit 1 1]] ["A"]
        draws64 [F64.lit (-1) 1] = .ok "A" := by
  decide!

/-- C3 fails on the code: in the end-to-end scenario with every draw equal to `1/2` the four
initial weights are `0.01 * (2*0.5 - 1) = 0`; every step then runs the `margin > 0` update
with `bestIdx == t`, which leaves the weights at `0`, training stops after the second epoch
with all weights still `0`, both classes score the bias on every input, and
`Predict([-1,-1])` returns `"A"`, not `"B"`. -/
theorem Train64_scenario_fails :
    F64.lt (F64.lit 0 1) (F64.lit 1 2) = true ∧ F64.lt (F64.lit 1 2) (F64.lit 1 1) = true ∧
    initWeights64 [.fin 0, .fin 0, .fin 0, .fin 0] (fun _ => F64.lit 1 2) =
      [.fin 0, .fin 0, .fin 0, .fin 0] ∧
    params64 (scenario64 (fun _ => F64.lit 1 2)) =
      .ok ([.fin 0, .fin 0, .fin 0, .fin 0], F64.lit 3990009995001 10000000000000) ∧
    scenarioPredict64 (fun _ => F64.lit 1 2) [F64.lit 1 1, F64.lit 1 1] = .ok "A" ∧
    scenarioPredict64 (fun _ => F64.lit 1 2) [F64.lit (-1) 1, F64.lit (-1) 1] = .ok "A" ∧
    scenarioPredict64 (fun _ => F64.lit 1 2) [F64.lit (-1) 1, F64.lit (-1) 1] ≠ .ok "B" := by
  decide!


theorem wrap64_of_range (z : Int) (h0 : 0 ≤ z) (h1 : z < 2 ^ 63) : wrap64 z = z := by
  unfold wrap64
  omega

/-- C9 (amended): for `featureDim >= 0` with `featureDim * len(classes)` elements of 8
bytes within the allocation limit, `NewLinearSVM` returns a classifier with
`featureDim * len(classes)` weights, all zero, zero bias, and the class list, feature
dimension and the four hyperparameters exactly as passed. -/
theorem NewLinearSVM64_fields (classes : List String) (featureDim : Int)
    (lr lam tol : F64) (epochs : Int) (hdim : 0 ≤ featureDim)
    (hlim : 8 * (featureDim * (classes.length : Int)) ≤ maxAlloc) :
    ∃ svm, NewLinearSVM64 classes featureDim lr lam tol epochs = .ok svm ∧
      (svm.Weights.length : Int) = featureDim * (classes.length : Int) ∧
      (∀ w, w ∈ svm.Weights → w = .fin 0) ∧
      svm.Bias = .fin 0 ∧ svm.Classes = classes ∧ svm.FeatureDim = featureDim ∧
      svm.SVMLearningRate = lr ∧ svm.SVMLambda = lam ∧ svm.SVMTolerance = tol ∧
      svm.SVMEpochs = epochs := by
  have hnn : 0 ≤ featureDim * (classes.length : Int) :=
    mul_nonneg hdim (Int.natCast_nonneg _)
  have hmax : maxAlloc = 2 ^ 48 := rfl
  have hw : wrap64 (featureDim * (classes.length : Int)) = featureDim * (classes.length : Int) :=
    wrap64_of_range _ hnn (by omega)
  have hcond : ¬ (featureDim * (classes.length : Int) < 0 ∨
      maxAlloc < 8 * (featureDim * (classes.length : Int))) := by
    omega
  have hok : NewLinearSVM64 classes featureDim lr lam tol epochs =
      .ok { Weights := List.replicate (featureDim * (classes.length : Int)).toNat (.fin 0)
            Bias := .fin 0
            Classes := classes
            ClassMap := buildClassMap classes
            FeatureDim := featureDim
            SVMEpochs := epochs
            SVMLearningRate := lr
            SVMLambda := lam
            SVMTolerance := tol } := by
    simp only [NewLinearSVM64, hw, hcond, if_false]
  refine ⟨_, hok, ?_, ?_, rfl, rfl, rfl, rfl, rfl, rfl, rfl⟩
  · simp only [List.length_replicate]
    exact Int.toNat_of_nonneg hnn
  · intro w hw1
    exact (List.mem_replicate.mp hw1).2

/-- Instance of C9 on the arguments of the end-to-end scenario. -/
theorem NewLinearSVM64_fields_witness :
    (0 : Int) ≤ 2 ∧ 8 * ((2 : Int) * ((["A", "B"] : List String).length : Int)) ≤ maxAlloc ∧
      ∃ svm, NewLinearSVM64 ["A", "B"] 2 (F64.lit 1 10) (F64.lit 1 100) (F64.lit 1 1000000)
          200 = .ok svm ∧
        (svm.Weights.length : Int) = 2 * ((["A", "B"] : List String).length : Int) ∧
        (∀ w, w ∈ svm.Weights → w = .fin 0) ∧
        svm.Bias = .fin 0 ∧ svm.Classes = ["A", "B"] ∧ svm.FeatureDim = 2 ∧
        svm.SVMLearningRate = F64.lit 1 10 ∧ svm.SVMLambda = F64.lit 1 100 ∧
        svm.SVMTolerance = F64.lit 1 1000000 ∧ svm.SVMEpochs = 200 :=
  ⟨by decide, by decide!,
    NewLinearSVM64_fields ["A", "B"] 2 (F64.lit 1 10) (F64.lit 1 100) (F64.lit 1 1000000) 200
      (by decide) (by decide!)⟩

/-- C9 (as stated) fails on machine integers.  (1) With four classes and
`featureDim = 2^62 >= 0` the product `featureDim*len(classes) = 2^64` wraps around to `0`:
the constructor returns a classifier with no weights at all.  (2) With one class and
`featureDim = 2^46` the `2^49` bytes asked of `make` exceed the allocation limit and the
constructor panics instead of returning. -/
theorem NewLinearSVM64_counterexample :
    ((0 : Int) ≤ 2 ^ 62 ∧
      (2 : Int) ^ 62 * ((["A", "B", "C", "D"] : List String).length : Int) = 2 ^ 64 ∧
      params64 (NewLinearSVM64 ["A", "B", "C", "D"] (2 ^ 62) (F64.lit 1 10) (F64.lit 1 100)
        (F64.lit 1 1000000) 200) = .ok ([], .fin 0)) ∧
    ((0 : Int) ≤ 2 ^ 46 ∧
      params64 (NewLinearSVM64 ["A"] (2 ^ 46) (F64.lit 1 10) (F64.lit 1 100)
        (F64.lit 1 1000000) 200) = .error .makeSliceLen) := by
  decide!

end SVM
